import Mathlib

/-!
# QDataflowCanvas: the graph model (`qdataflowmodel.h`, `qdataflowmodel.cpp`)

A shallow embedding of the data model behind the dataflow canvas.  The C++
program is a web of heap objects joined by raw pointers (model, nodes, inlets,
outlets, connections).  The embedding keeps that shape:

* every class gets a structure with the members of the C++ class;
* an object lives in a store (one list per class) and a pointer is the
  position of the object in its store; a nullable pointer is an `Option`;
  objects are never deleted by the code under study (they stay children of
  their `QObject` parent), so stores only grow;
* a member function becomes a function from the state before the call to
  `Except Fault (result × state after the call)`;
* calling through a null pointer is `Fault.nullPointer`, going through a pointer
  that no object lives at is `Fault.wildPointer`;
* a `while` loop is run with fuel, running out of it is `Fault.outOfFuel`;
* the signals the model emits are appended to `State.emitted`; the signals the nodes
  emit themselves (which the model relays) are appended to `State.signalled`.

`QSet` is modelled as a duplicate-free list in insertion order (the iteration
order of a `QSet` is unspecified; no statement below depends on it).
The `QDataflowMetaObject` hook carries no model state and is left out.
-/

namespace QDataflow

/-- The ways a call can fail to return normally: a member access through a null
pointer, a pointer at which no object of the expected class lives, and a loop that
used up its fuel. -/
inductive Fault where
  | nullPointer
  | wildPointer
  | outOfFuel
  deriving DecidableEq, Repr

deriving instance DecidableEq for Except

/-- `QPoint`. -/
structure QPoint where
  x : Int
  y : Int
  deriving DecidableEq, Repr

/-- `class QDataflowModelIOlet` (base of `QDataflowModelInlet` and
`QDataflowModelOutlet`, which add no members). -/
structure QDataflowModelIOlet where
  connections_ : List Nat
  node_ : Nat
  index_ : Int
  name_ : String
  type_ : String
  deriving DecidableEq, Repr

/-- `class QDataflowModelConnection`: `source_` points into the outlet store,
`dest_` into the inlet store; either may be null. -/
structure QDataflowModelConnection where
  source_ : Option Nat
  dest_ : Option Nat
  deriving DecidableEq, Repr

/-- `class QDataflowModelNode`.  `signalsBlocked` is the `QObject::blockSignals`
flag of the node; `relayed` records whether the model's five slots are wired to
the node's signals (`QObject::connect` in `create`, `QObject::disconnect` in
`remove`). -/
structure QDataflowModelNode where
  valid_ : Bool
  pos_ : QPoint
  text_ : String
  inlets_ : List Nat
  outlets_ : List Nat
  signalsBlocked : Bool
  relayed : Bool
  deriving DecidableEq, Repr

/-- The `Q_SIGNALS` of `QDataflowModel`. -/
inductive Signal where
  | nodeAdded (node : Nat)
  | nodeRemoved (node : Nat)
  | nodeValidChanged (node : Nat) (valid : Bool)
  | nodePosChanged (node : Nat) (pos : QPoint)
  | nodeTextChanged (node : Nat) (text : String)
  | nodeInletCountChanged (node : Nat) (count : Int)
  | nodeOutletCountChanged (node : Nat) (count : Int)
  | connectionAdded (conn : Nat)
  | connectionRemoved (conn : Nat)
  deriving DecidableEq, Repr

/-- The object stores, the two members of `QDataflowModel` (`nodes_`,
`connections_`), the signals the model emitted so far (`emitted`) and the signals the
nodes emitted so far (`signalled`, each written as the model signal it is relayed as:
`nodeInletCountChanged node count` stands for `inletCountChanged(count)` sent by `node`). -/
structure State where
  nodeHeap : List QDataflowModelNode
  inletHeap : List QDataflowModelIOlet
  outletHeap : List QDataflowModelIOlet
  connHeap : List QDataflowModelConnection
  nodes_ : List Nat
  connections_ : List Nat
  emitted : List Signal
  signalled : List Signal
  deriving DecidableEq, Repr

/-- The model right after `QDataflowModel::QDataflowModel`. -/
def State.empty : State :=
  { nodeHeap := [], inletHeap := [], outletHeap := [], connHeap := [],
    nodes_ := [], connections_ := [], emitted := [], signalled := [] }

/-! ## Pointers and stores -/

/-- Going through a nullable pointer. -/
def deref : Option Nat → Except Fault Nat
  | some p => .ok p
  | none => .error .nullPointer

/-- Reading the object a pointer points to. -/
def load {α : Type} (heap : List α) (p : Nat) : Except Fault α :=
  match heap[p]? with
  | some a => .ok a
  | none => .error .wildPointer

/-- The node object at `p`. -/
def State.getNode (s : State) (p : Nat) : Except Fault QDataflowModelNode := load s.nodeHeap p

/-- The inlet object at `p`. -/
def State.getInlet (s : State) (p : Nat) : Except Fault QDataflowModelIOlet := load s.inletHeap p

/-- The outlet object at `p`. -/
def State.getOutlet (s : State) (p : Nat) : Except Fault QDataflowModelIOlet := load s.outletHeap p

/-- The connection object at `p`. -/
def State.getConn (s : State) (p : Nat) : Except Fault QDataflowModelConnection := load s.connHeap p

/-- Writing the node object at `p`. -/
def State.setNode (s : State) (p : Nat) (n : QDataflowModelNode) : State :=
  { s with nodeHeap := s.nodeHeap.set p n }

/-- Writing the inlet object at `p`. -/
def State.setInlet (s : State) (p : Nat) (io : QDataflowModelIOlet) : State :=
  { s with inletHeap := s.inletHeap.set p io }

/-- Writing the outlet object at `p`. -/
def State.setOutlet (s : State) (p : Nat) (io : QDataflowModelIOlet) : State :=
  { s with outletHeap := s.outletHeap.set p io }

/-- The statement `emit sig;` inside `QDataflowModel`. -/
def State.emit (s : State) (sig : Signal) : State :=
  { s with emitted := s.emitted ++ [sig] }

/-- The statement `emit sig;` inside a `QDataflowModelNode` whose signals are not
blocked, as far as the node's own listeners go. -/
def State.signal (s : State) (sig : Signal) : State :=
  { s with signalled := s.signalled ++ [sig] }

/-- `QSet::insert`. -/
def qsetInsert (l : List Nat) (p : Nat) : List Nat :=
  if p ∈ l then l else l ++ [p]

/-- `QSet::remove`. -/
def qsetRemove (l : List Nat) (p : Nat) : List Nat :=
  l.filter (fun q => q ≠ p)

/-! ## `QDataflowModelIOlet`, `QDataflowModelInlet`, `QDataflowModelOutlet` -/

/-- `QDataflowModelIOlet::addConnection`: `connections_.push_back(conn)`. -/
def QDataflowModelIOlet.addConnection (io : QDataflowModelIOlet) (conn : Nat) :
    QDataflowModelIOlet :=
  { io with connections_ := io.connections_ ++ [conn] }

/-- `QDataflowModelIOlet::removeConnection`: `connections_.removeAll(conn)`. -/
def QDataflowModelIOlet.removeConnection (io : QDataflowModelIOlet) (conn : Nat) :
    QDataflowModelIOlet :=
  { io with connections_ := io.connections_.filter (fun c => c ≠ conn) }

/-- `QDataflowModelInlet::canAcceptConnectionFrom`, called on `inlet`. -/
def canAcceptConnectionFrom (inlet outlet : QDataflowModelIOlet) : Bool :=
  if inlet.type_ = "*" then true else decide (inlet.type_ = outlet.type_)

/-- `QDataflowModelOutlet::canMakeConnectionTo`, called on `outlet`. -/
def canMakeConnectionTo (outlet inlet : QDataflowModelIOlet) : Bool :=
  if inlet.type_ = "*" then true else decide (outlet.type_ = inlet.type_)

/-! ## `QDataflowModelNode`: queries -/

/-- `QDataflowModelNode::inletCount`. -/
def QDataflowModelNode.inletCount (n : QDataflowModelNode) : Int := n.inlets_.length

/-- `QDataflowModelNode::outletCount`. -/
def QDataflowModelNode.outletCount (n : QDataflowModelNode) : Int := n.outlets_.length

/-- `QDataflowModelNode::inlet`: the bounds-checked lookup, null when out of range. -/
def QDataflowModelNode.inlet (n : QDataflowModelNode) (index : Int) : Option Nat :=
  if 0 ≤ index ∧ index < n.inlets_.length then n.inlets_[index.toNat]? else none

/-- `QDataflowModelNode::outlet`: the bounds-checked lookup, null when out of range. -/
def QDataflowModelNode.outlet (n : QDataflowModelNode) (index : Int) : Option Nat :=
  if 0 ≤ index ∧ index < n.outlets_.length then n.outlets_[index.toNat]? else none

/-- A node emitting one of its own signals: nothing happens while its signals are
blocked; otherwise the signal goes out and the model's slot (`onValidChanged`,
`onPosChanged`, ...), when wired, re-emits it as the model's signal `sig`. -/
def emitFromNode (s : State) (self : Nat) (sig : Signal) : Except Fault State := do
  let n ← s.getNode self
  if n.signalsBlocked then pure s
  else if n.relayed then pure ((s.signal sig).emit sig)
  else pure (s.signal sig)

/-- `QObject::blockSignals` on a node: sets the flag, returns the old one. -/
def blockSignals (s : State) (self : Nat) (block : Bool) : Except Fault (Bool × State) := do
  let n ← s.getNode self
  pure (n.signalsBlocked, s.setNode self { n with signalsBlocked := block })

/-! ## `QDataflowModel`: finding connections -/

/-- The body of the `foreach` in `QDataflowModel::findConnections`: the test made
on one connection (with the short circuit of `&&`). -/
def matchesEndpoints (s : State) (conn : Nat) (sourceNode : Nat) (sourceOutlet : Int)
    (destNode : Nat) (destInlet : Int) : Except Fault Bool := do
  let c ← s.getConn conn
  let srcp ← deref c.source_
  let src ← s.getOutlet srcp
  if src.node_ = sourceNode ∧ src.index_ = sourceOutlet then
    let dstp ← deref c.dest_
    let dst ← s.getInlet dstp
    pure (decide (dst.node_ = destNode ∧ dst.index_ = destInlet))
  else pure false

/-- The `foreach` of `QDataflowModel::findConnections` over the given connections. -/
def findLoop (s : State) (sourceNode : Nat) (sourceOutlet : Int) (destNode : Nat)
    (destInlet : Int) : List Nat → Except Fault (List Nat)
  | [] => .ok []
  | conn :: rest => do
    let hit ← matchesEndpoints s conn sourceNode sourceOutlet destNode destInlet
    let ret ← findLoop s sourceNode sourceOutlet destNode destInlet rest
    pure (if hit then conn :: ret else ret)

/-- `QDataflowModel::findConnections(sourceNode, sourceOutlet, destNode, destInlet)`. -/
def findConnections (s : State) (sourceNode : Option Nat) (sourceOutlet : Int)
    (destNode : Option Nat) (destInlet : Int) : Except Fault (List Nat) :=
  match sourceNode, destNode with
  | some sn, some dn => findLoop s sn sourceOutlet dn destInlet s.connections_
  | _, _ => .ok []

/-- `QDataflowModel::findConnections(QDataflowModelOutlet *source, QDataflowModelInlet *dest)`. -/
def findConnections_ports (s : State) (source dest : Option Nat) : Except Fault (List Nat) :=
  match source, dest with
  | some sp, some dp => do
    let src ← s.getOutlet sp
    let dst ← s.getInlet dp
    findConnections s (some src.node_) src.index_ (some dst.node_) dst.index_
  | _, _ => .ok []

/-- `QDataflowModel::findConnections(QDataflowModelConnection *conn)`. -/
def findConnections_conn (s : State) (conn : Option Nat) : Except Fault (List Nat) :=
  match conn with
  | none => .ok []
  | some c => do
    let co ← s.getConn c
    findConnections_ports s co.source_ co.dest_

/-! ## `QDataflowModel`: adding and removing connections -/

/-- `QDataflowModel::addConnection`. -/
def addConnection (s : State) (conn : Option Nat) : Except Fault State :=
  match conn with
  | none => .ok s
  | some c => do
    let found ← findConnections_conn s (some c)
    if found.isEmpty then
      let co ← s.getConn c
      let srcp ← deref co.source_
      let src ← s.getOutlet srcp
      let dstp ← deref co.dest_
      let dst ← s.getInlet dstp
      if !canMakeConnectionTo src dst || !canAcceptConnectionFrom dst src then
        pure s
      else
        let s1 : State := { s with connections_ := qsetInsert s.connections_ c }
        let src1 ← s1.getOutlet srcp
        let s2 := s1.setOutlet srcp (src1.addConnection c)
        let dst1 ← s2.getInlet dstp
        let s3 := s2.setInlet dstp (dst1.addConnection c)
        pure (s3.emit (.connectionAdded c))
    else pure s

/-- `QDataflowModel::removeConnection`. -/
def removeConnection (s : State) (conn : Option Nat) : Except Fault State :=
  match conn with
  | none => .ok s
  | some c =>
    if c ∈ s.connections_ then do
      let co ← s.getConn c
      let srcp ← deref co.source_
      let src ← s.getOutlet srcp
      let s1 := s.setOutlet srcp (src.removeConnection c)
      let dstp ← deref co.dest_
      let dst ← s1.getInlet dstp
      let s2 := s1.setInlet dstp (dst.removeConnection c)
      let s3 : State := { s2 with connections_ := qsetRemove s2.connections_ c }
      pure (s3.emit (.connectionRemoved c))
    else .ok s

/-- The loop `foreach(conn, list) removeConnection(conn);` over a copy of a list. -/
def removeEach (s : State) : List Nat → Except Fault State
  | [] => .ok s
  | conn :: rest => do
    let s1 ← removeConnection s (some conn)
    removeEach s1 rest

/-- `QDataflowModel::newConnection`: a fresh connection object between the ports
that `outlet(sourceOutlet)` and `inlet(destInlet)` return (null when out of range). -/
def newConnection (s : State) (sourceNode : Nat) (sourceOutlet : Int) (destNode : Nat)
    (destInlet : Int) : Except Fault (Nat × State) := do
  let sn ← s.getNode sourceNode
  let dn ← s.getNode destNode
  let conn : QDataflowModelConnection :=
    { source_ := sn.outlet sourceOutlet, dest_ := dn.inlet destInlet }
  pure (s.connHeap.length, { s with connHeap := s.connHeap ++ [conn] })

/-- `QDataflowModel::connect(QDataflowModelConnection *conn)`. -/
def connect_conn (s : State) (conn : Option Nat) : Except Fault (Option Nat × State) :=
  match conn with
  | none => .ok (none, s)
  | some c => do
    let found ← findConnections_conn s (some c)
    if found.isEmpty then
      let s1 ← addConnection s (some c)
      pure (some c, s1)
    else pure (none, s)

/-- `QDataflowModel::connect(sourceNode, sourceOutlet, destNode, destInlet)`. -/
def connect (s : State) (sourceNode : Option Nat) (sourceOutlet : Int)
    (destNode : Option Nat) (destInlet : Int) : Except Fault (Option Nat × State) :=
  match sourceNode, destNode with
  | some sn, some dn => do
    let found ← findConnections s (some sn) sourceOutlet (some dn) destInlet
    if found.isEmpty then
      let (conn, s1) ← newConnection s sn sourceOutlet dn destInlet
      let s2 ← addConnection s1 (some conn)
      pure (some conn, s2)
    else pure (none, s)
  | _, _ => .ok (none, s)

/-- `QDataflowModel::disconnect(QDataflowModelConnection *conn)`. -/
def disconnect_conn (s : State) (conn : Option Nat) : Except Fault State :=
  match conn with
  | none => .ok s
  | some c => do
    let found ← findConnections_conn s (some c)
    removeEach s found

/-- `QDataflowModel::disconnect(sourceNode, sourceOutlet, destNode, destInlet)`. -/
def disconnect (s : State) (sourceNode : Option Nat) (sourceOutlet : Int)
    (destNode : Option Nat) (destInlet : Int) : Except Fault State :=
  match sourceNode, destNode with
  | some sn, some dn => do
    let found ← findConnections s (some sn) sourceOutlet (some dn) destInlet
    removeEach s found
  | _, _ => .ok s

/-! ## `QDataflowModelNode`: ports -/

/-- `QDataflowModelNode::addInlet(QDataflowModelInlet *inlet)` (protected). -/
def addInlet_obj (s : State) (self : Nat) (inlet : Option Nat) : Except Fault State :=
  match inlet with
  | none => .ok s
  | some p => do
    let n ← s.getNode self
    let s1 := s.setNode self { n with inlets_ := n.inlets_ ++ [p] }
    let n1 ← s1.getNode self
    emitFromNode s1 self (.nodeInletCountChanged self n1.inletCount)

/-- `QDataflowModelNode::addOutlet(QDataflowModelOutlet *outlet)` (protected). -/
def addOutlet_obj (s : State) (self : Nat) (outlet : Option Nat) : Except Fault State :=
  match outlet with
  | none => .ok s
  | some p => do
    let n ← s.getNode self
    let s1 := s.setNode self { n with outlets_ := n.outlets_ ++ [p] }
    let n1 ← s1.getNode self
    emitFromNode s1 self (.nodeOutletCountChanged self n1.outletCount)

/-- `QDataflowModelNode::addInlet(name, type)`:
`addInlet(new QDataflowModelInlet(this, inletCount(), name, type))`. -/
def addInlet (s : State) (self : Nat) (name type : String) : Except Fault State := do
  let n ← s.getNode self
  let inlet : QDataflowModelIOlet :=
    { connections_ := [], node_ := self, index_ := n.inletCount, name_ := name, type_ := type }
  addInlet_obj { s with inletHeap := s.inletHeap ++ [inlet] } self (some s.inletHeap.length)

/-- `QDataflowModelNode::addOutlet(name, type)`:
`addOutlet(new QDataflowModelOutlet(this, outletCount(), name, type))`. -/
def addOutlet (s : State) (self : Nat) (name type : String) : Except Fault State := do
  let n ← s.getNode self
  let outlet : QDataflowModelIOlet :=
    { connections_ := [], node_ := self, index_ := n.outletCount, name_ := name, type_ := type }
  addOutlet_obj { s with outletHeap := s.outletHeap ++ [outlet] } self (some s.outletHeap.length)

/-- The loop `foreach(conn, port->connections()) model()->disconnect(conn);`. -/
def disconnectEach (s : State) : List Nat → Except Fault State
  | [] => .ok s
  | conn :: rest => do
    let s1 ← disconnect_conn s (some conn)
    disconnectEach s1 rest

/-- `QDataflowModelNode::removeLastInlet`. -/
def removeLastInlet (s : State) (self : Nat) : Except Fault State := do
  let n ← s.getNode self
  match n.inlets_.getLast? with
  | none => pure s
  | some inlet =>
    let io ← s.getInlet inlet
    let s1 ← disconnectEach s io.connections_
    let n1 ← s1.getNode self
    let s2 := s1.setNode self { n1 with inlets_ := n1.inlets_.dropLast }
    let n2 ← s2.getNode self
    emitFromNode s2 self (.nodeInletCountChanged self n2.inletCount)

/-- `QDataflowModelNode::removeLastOutlet`. -/
def removeLastOutlet (s : State) (self : Nat) : Except Fault State := do
  let n ← s.getNode self
  match n.outlets_.getLast? with
  | none => pure s
  | some outlet =>
    let io ← s.getOutlet outlet
    let s1 ← disconnectEach s io.connections_
    let n1 ← s1.getNode self
    let s2 := s1.setNode self { n1 with outlets_ := n1.outlets_.dropLast }
    let n2 ← s2.getNode self
    emitFromNode s2 self (.nodeOutletCountChanged self n2.outletCount)

/-- The loop `while(inletCount() < count) addInlet();`. -/
def growInlets (fuel : Nat) (s : State) (self : Nat) (count : Int) : Except Fault State :=
  match fuel with
  | 0 => .error .outOfFuel
  | fuel + 1 => do
    let n ← s.getNode self
    if n.inletCount < count then
      let s1 ← addInlet s self "" "*"
      growInlets fuel s1 self count
    else pure s

/-- The loop `while(inletCount() > count) removeLastInlet();`. -/
def shrinkInlets (fuel : Nat) (s : State) (self : Nat) (count : Int) : Except Fault State :=
  match fuel with
  | 0 => .error .outOfFuel
  | fuel + 1 => do
    let n ← s.getNode self
    if n.inletCount > count then
      let s1 ← removeLastInlet s self
      shrinkInlets fuel s1 self count
    else pure s

/-- The loop `while(outletCount() < count) addOutlet();`. -/
def growOutlets (fuel : Nat) (s : State) (self : Nat) (count : Int) : Except Fault State :=
  match fuel with
  | 0 => .error .outOfFuel
  | fuel + 1 => do
    let n ← s.getNode self
    if n.outletCount < count then
      let s1 ← addOutlet s self "" "*"
      growOutlets fuel s1 self count
    else pure s

/-- The loop `while(outletCount() > count) removeLastOutlet();`. -/
def shrinkOutlets (fuel : Nat) (s : State) (self : Nat) (count : Int) : Except Fault State :=
  match fuel with
  | 0 => .error .outOfFuel
  | fuel + 1 => do
    let n ← s.getNode self
    if n.outletCount > count then
      let s1 ← removeLastOutlet s self
      shrinkOutlets fuel s1 self count
    else pure s

/-- `QDataflowModelNode::setInletCount`. -/
def setInletCount (fuel : Nat) (s : State) (self : Nat) (count : Int) : Except Fault State := do
  let n ← s.getNode self
  if n.inletCount = count then pure s
  else
    let (shouldBlockSignals, s1) ← blockSignals s self true
    let s2 ← growInlets fuel s1 self count
    let s3 ← shrinkInlets fuel s2 self count
    let (_, s4) ← blockSignals s3 self shouldBlockSignals
    emitFromNode s4 self (.nodeInletCountChanged self count)

/-- `QDataflowModelNode::setOutletCount`. -/
def setOutletCount (fuel : Nat) (s : State) (self : Nat) (count : Int) : Except Fault State := do
  let n ← s.getNode self
  if n.outletCount = count then pure s
  else
    let (shouldBlockSignals, s1) ← blockSignals s self true
    let s2 ← growOutlets fuel s1 self count
    let s3 ← shrinkOutlets fuel s2 self count
    let (_, s4) ← blockSignals s3 self shouldBlockSignals
    emitFromNode s4 self (.nodeOutletCountChanged self count)

/-- The loop `foreach(type, types) addInlet("", type);`. -/
def addInletsTyped (s : State) (self : Nat) : List String → Except Fault State
  | [] => .ok s
  | type :: rest => do
    let s1 ← addInlet s self "" type
    addInletsTyped s1 self rest

/-- The loop `foreach(type, types) addOutlet("", type);`. -/
def addOutletsTyped (s : State) (self : Nat) : List String → Except Fault State
  | [] => .ok s
  | type :: rest => do
    let s1 ← addOutlet s self "" type
    addOutletsTyped s1 self rest

/-- `QDataflowModelNode::setInletTypes(const QStringList &types)`. -/
def setInletTypes (fuel : Nat) (s : State) (self : Nat) (types : List String) :
    Except Fault State := do
  let n ← s.getNode self
  let oldCount := n.inletCount
  let (shouldBlockSignals, s1) ← blockSignals s self true
  let s2 ← shrinkInlets fuel s1 self 0
  let s3 ← addInletsTyped s2 self types
  let (_, s4) ← blockSignals s3 self shouldBlockSignals
  let n4 ← s4.getNode self
  let newCount := n4.inletCount
  if oldCount ≠ newCount then emitFromNode s4 self (.nodeInletCountChanged self newCount)
  else pure s4

/-- `QDataflowModelNode::setOutletTypes(const QStringList &types)`. -/
def setOutletTypes (fuel : Nat) (s : State) (self : Nat) (types : List String) :
    Except Fault State := do
  let n ← s.getNode self
  let oldCount := n.outletCount
  let (shouldBlockSignals, s1) ← blockSignals s self true
  let s2 ← shrinkOutlets fuel s1 self 0
  let s3 ← addOutletsTyped s2 self types
  let (_, s4) ← blockSignals s3 self shouldBlockSignals
  let n4 ← s4.getNode self
  let newCount := n4.outletCount
  if oldCount ≠ newCount then emitFromNode s4 self (.nodeOutletCountChanged self newCount)
  else pure s4

/-! ## `QDataflowModelNode`: properties -/

/-- `QDataflowModelNode::setValid`. -/
def setValid (s : State) (self : Nat) (valid : Bool) : Except Fault State := do
  let n ← s.getNode self
  if n.valid_ = valid then pure s
  else emitFromNode (s.setNode self { n with valid_ := valid }) self (.nodeValidChanged self valid)

/-- `QDataflowModelNode::setPos`. -/
def setPos (s : State) (self : Nat) (pos : QPoint) : Except Fault State := do
  let n ← s.getNode self
  if n.pos_ = pos then pure s
  else emitFromNode (s.setNode self { n with pos_ := pos }) self (.nodePosChanged self pos)

/-- `QDataflowModelNode::setText`. -/
def setText (s : State) (self : Nat) (text : String) : Except Fault State := do
  let n ← s.getNode self
  if n.text_ = text then pure s
  else emitFromNode (s.setNode self { n with text_ := text }) self (.nodeTextChanged self text)

/-! ## `QDataflowModel`: nodes -/

/-- The loop `for(int i = 0; i < inletCount; i++) addInlet();` of the constructor,
with the number of rounds left. -/
def addInlets (s : State) (self : Nat) : Nat → Except Fault State
  | 0 => .ok s
  | k + 1 => do
    let s1 ← addInlet s self "" "*"
    addInlets s1 self k

/-- The loop `for(int i = 0; i < outletCount; i++) addOutlet();` of the constructor,
with the number of rounds left. -/
def addOutlets (s : State) (self : Nat) : Nat → Except Fault State
  | 0 => .ok s
  | k + 1 => do
    let s1 ← addOutlet s self "" "*"
    addOutlets s1 self k

/-- `QDataflowModel::newNode`, that is the constructor
`QDataflowModelNode(parent, pos, text, inletCount, outletCount)`: nobody listens to
the new node's signals yet. -/
def newNode (s : State) (pos : QPoint) (text : String) (inletCount outletCount : Int) :
    Except Fault (Nat × State) := do
  let node : QDataflowModelNode :=
    { valid_ := false, pos_ := pos, text_ := text, inlets_ := [], outlets_ := [],
      signalsBlocked := false, relayed := false }
  let self := s.nodeHeap.length
  let s1 : State := { s with nodeHeap := s.nodeHeap ++ [node] }
  let s2 ← addInlets s1 self inletCount.toNat
  let s3 ← addOutlets s2 self outletCount.toNat
  pure (self, s3)

/-- `QDataflowModel::create`. -/
def create (s : State) (pos : QPoint) (text : String) (inletCount outletCount : Int) :
    Except Fault (Nat × State) := do
  let (node, s1) ← newNode s pos text inletCount outletCount
  let s2 : State := { s1 with nodes_ := qsetInsert s1.nodes_ node }
  let n ← s2.getNode node
  let s3 := s2.setNode node { n with relayed := true }
  pure (node, s3.emit (.nodeAdded node))

/-- The loop `foreach(port, ports) foreach(conn, port->connections())
removeConnection(conn);` of `QDataflowModel::remove`, over the inlets. -/
def removeInletConnections (s : State) : List Nat → Except Fault State
  | [] => .ok s
  | inlet :: rest => do
    let io ← s.getInlet inlet
    let s1 ← removeEach s io.connections_
    removeInletConnections s1 rest

/-- The same loop of `QDataflowModel::remove` over the outlets. -/
def removeOutletConnections (s : State) : List Nat → Except Fault State
  | [] => .ok s
  | outlet :: rest => do
    let io ← s.getOutlet outlet
    let s1 ← removeEach s io.connections_
    removeOutletConnections s1 rest

/-- `QDataflowModel::remove`. -/
def remove (s : State) (node : Option Nat) : Except Fault State :=
  match node with
  | none => .ok s
  | some p =>
    if p ∈ s.nodes_ then do
      let n ← s.getNode p
      let s1 ← removeInletConnections s n.inlets_
      let n1 ← s1.getNode p
      let s2 ← removeOutletConnections s1 n1.outlets_
      let n2 ← s2.getNode p
      let s3 := s2.setNode p { n2 with relayed := false }
      let s4 : State := { s3 with nodes_ := qsetRemove s3.nodes_ p }
      pure (s4.emit (.nodeRemoved p))
    else .ok s

/-! ## Calls and reachable states -/

/-- A call of a public member function of `QDataflowModel` or of
`QDataflowModelNode` (for the latter `self` is the node called on). -/
inductive Call where
  | create (pos : QPoint) (text : String) (inletCount outletCount : Int)
  | remove (node : Option Nat)
  | connect (sourceNode : Option Nat) (sourceOutlet : Int) (destNode : Option Nat)
      (destInlet : Int)
  | connect_conn (conn : Option Nat)
  | disconnect (sourceNode : Option Nat) (sourceOutlet : Int) (destNode : Option Nat)
      (destInlet : Int)
  | disconnect_conn (conn : Option Nat)
  | setValid (self : Nat) (valid : Bool)
  | setPos (self : Nat) (pos : QPoint)
  | setText (self : Nat) (text : String)
  | addInlet (self : Nat) (name type : String)
  | addOutlet (self : Nat) (name type : String)
  | removeLastInlet (self : Nat)
  | removeLastOutlet (self : Nat)
  | setInletCount (self : Nat) (count : Int)
  | setOutletCount (self : Nat) (count : Int)
  | setInletTypes (self : Nat) (types : List String)
  | setOutletTypes (self : Nat) (types : List String)
  deriving DecidableEq, Repr

/-- The state a call leaves behind (its return value dropped). -/
def Call.run (fuel : Nat) (s : State) : Call → Except Fault State
  | .create pos text ic oc => (QDataflow.create s pos text ic oc).map Prod.snd
  | .remove node => QDataflow.remove s node
  | .connect sn so dn di => (QDataflow.connect s sn so dn di).map Prod.snd
  | .connect_conn conn => (QDataflow.connect_conn s conn).map Prod.snd
  | .disconnect sn so dn di => QDataflow.disconnect s sn so dn di
  | .disconnect_conn conn => QDataflow.disconnect_conn s conn
  | .setValid self valid => QDataflow.setValid s self valid
  | .setPos self pos => QDataflow.setPos s self pos
  | .setText self text => QDataflow.setText s self text
  | .addInlet self name type => QDataflow.addInlet s self name type
  | .addOutlet self name type => QDataflow.addOutlet s self name type
  | .removeLastInlet self => QDataflow.removeLastInlet s self
  | .removeLastOutlet self => QDataflow.removeLastOutlet s self
  | .setInletCount self count => QDataflow.setInletCount fuel s self count
  | .setOutletCount self count => QDataflow.setOutletCount fuel s self count
  | .setInletTypes self types => QDataflow.setInletTypes fuel s self types
  | .setOutletTypes self types => QDataflow.setOutletTypes fuel s self types

/-- Running a sequence of calls, each with the same fuel. -/
def runCalls (fuel : Nat) (s : State) : List Call → Except Fault State
  | [] => .ok s
  | c :: rest => do
    let s1 ← c.run fuel s
    runCalls fuel s1 rest

/-- The states the public operations can lead to from the empty model, every call
having returned normally. -/
inductive Reachable : State → Prop where
  | init : Reachable State.empty
  | step {s s1 : State} (c : Call) (fuel : Nat) :
      Reachable s → c.run fuel s = .ok s1 → Reachable s1

/-! ## Invariants -/

/-- The node and the index a port object carries (`node()`, `index()`). -/
def portKey (heap : List QDataflowModelIOlet) (p : Nat) : Option (Nat × Int) :=
  heap[p]?.map (fun io => (io.node_, io.index_))

/-- The endpoint quadruple of a connection object, as `findConnections` reads it:
(source node, source outlet index) and (destination node, destination inlet index).
`none` when the connection or one of its ports is missing. -/
def endpoints (s : State) (c : Nat) : Option ((Nat × Int) × (Nat × Int)) :=
  match s.connHeap[c]? with
  | some co =>
    match co.source_, co.dest_ with
    | some sp, some dp =>
      match portKey s.outletHeap sp, portKey s.inletHeap dp with
      | some a, some b => some (a, b)
      | _, _ => none
    | _, _ => none
  | none => none

/-- The three views of the connections agree and no endpoint quadruple occurs twice. -/
structure ConnInv (s : State) : Prop where
  nodup : s.connections_.Nodup
  linked : ∀ c ∈ s.connections_, ∃ sp dp src dst,
    s.connHeap[c]? = some { source_ := some sp, dest_ := some dp } ∧
    s.outletHeap[sp]? = some src ∧ s.inletHeap[dp]? = some dst ∧
    src.connections_.count c = 1 ∧ dst.connections_.count c = 1
  outletLists : ∀ p io, s.outletHeap[p]? = some io → ∀ c ∈ io.connections_,
    c ∈ s.connections_ ∧ ∃ co, s.connHeap[c]? = some co ∧ co.source_ = some p
  inletLists : ∀ p io, s.inletHeap[p]? = some io → ∀ c ∈ io.connections_,
    c ∈ s.connections_ ∧ ∃ co, s.connHeap[c]? = some co ∧ co.dest_ = some p
  unique : ∀ c1 ∈ s.connections_, ∀ c2 ∈ s.connections_,
    endpoints s c1 = endpoints s c2 → c1 = c2

/-- Every port in a node's port list is an existing port object that carries that
node and its own position in the list. -/
structure PortInv (s : State) : Prop where
  outlets : ∀ n node, s.nodeHeap[n]? = some node → ∀ (i : Nat) p,
    node.outlets_[i]? = some p → portKey s.outletHeap p = some (n, (i : Int))
  inlets : ∀ n node, s.nodeHeap[n]? = some node → ∀ (i : Nat) p,
    node.inlets_[i]? = some p → portKey s.inletHeap p = some (n, (i : Int))

/-- The invariant of the model. -/
structure Inv (s : State) : Prop where
  conn : ConnInv s
  port : PortInv s

/-- The state `removeConnection` leaves when it removes `c`, a connection from
outlet `sp` (object `src`) to inlet `dp` (object `dst`). -/
def unlink (s : State) (c sp dp : Nat) (src dst : QDataflowModelIOlet) : State :=
  { s with
    outletHeap := s.outletHeap.set sp (src.removeConnection c)
    inletHeap := s.inletHeap.set dp (dst.removeConnection c)
    connections_ := qsetRemove s.connections_ c
    emitted := s.emitted ++ [.connectionRemoved c] }

/-- The state `addConnection` leaves when it adds `c`, a connection from
outlet `sp` (object `src`) to inlet `dp` (object `dst`). -/
def link (s : State) (c sp dp : Nat) (src dst : QDataflowModelIOlet) : State :=
  { s with
    outletHeap := s.outletHeap.set sp (src.addConnection c)
    inletHeap := s.inletHeap.set dp (dst.addConnection c)
    connections_ := qsetInsert s.connections_ c
    emitted := s.emitted ++ [.connectionAdded c] }

/-- The state `newConnection` leaves: one more connection object, nothing else. -/
def withConn (s : State) (co : QDataflowModelConnection) : State :=
  { s with connHeap := s.connHeap ++ [co] }

/-- The state a sequence of calls leads to from the empty model (the empty model
itself when a call does not return normally). -/
def stateOf (calls : List Call) : State :=
  match runCalls 8 State.empty calls with
  | .ok s => s
  | .error _ => State.empty

/-! ## Concrete models -/

/-- Two nodes, "osc" (node 0) and "gain" (node 1), each with one inlet and one
outlet, all four ports of type `"*"`; no connection. -/
def patch : State :=
  stateOf [.create ⟨0, 0⟩ "osc" 1 1, .create ⟨100, 0⟩ "gain" 1 1]

/-- As `patch`, but the inlet of "gain" has type `"B"` (the outlet of "osc" keeps
type `"*"`). -/
def wildOutlet : State :=
  stateOf [.create ⟨0, 0⟩ "osc" 1 1, .create ⟨100, 0⟩ "gain" 1 1, .setInletTypes 1 ["B"]]

/-- As `patch`, but the outlet of "osc" has type `"A"` and the inlet of "gain" has
type `"B"`. -/
def mismatched : State :=
  stateOf [.create ⟨0, 0⟩ "osc" 1 1, .create ⟨100, 0⟩ "gain" 1 1,
    .setOutletTypes 0 ["A"], .setInletTypes 1 ["B"]]

/-- As `patch`, with the outlet of "osc" connected to the inlet of "gain"
(connection object 0). -/
def patched : State :=
  stateOf [.create ⟨0, 0⟩ "osc" 1 1, .create ⟨100, 0⟩ "gain" 1 1,
    .connect (some 0) 0 (some 1) 0]

/-- Node 0 with one outlet, node 1 with one inlet; the two were connected
(connection object 0), then `setOutletCount(0)` on node 0 dropped the outlet and with
it the connection, then `connect(conn)` was called with that connection object. -/
def staleLink : State :=
  stateOf [.create ⟨0, 0⟩ "a" 0 1, .create ⟨0, 0⟩ "b" 1 0, .connect (some 0) 0 (some 1) 0,
    .setOutletCount 0 0, .connect_conn (some 0)]

/-- Node 0 with one outlet, node 1 with one inlet; node 0 was removed from the model,
then `connect` was called with it as the source node. -/
def orphaned : State :=
  stateOf [.create ⟨0, 0⟩ "a" 0 1, .create ⟨0, 0⟩ "b" 1 0, .remove (some 0),
    .connect (some 0) 0 (some 1) 0]

/-- As `patch`, with two connections: the outlet of "osc" to the inlet of "gain"
(object 0) and the outlet of "gain" to the inlet of "osc" (object 1). -/
def crossed : State :=
  stateOf [.create ⟨0, 0⟩ "osc" 1 1, .create ⟨100, 0⟩ "gain" 1 1,
    .connect (some 0) 0 (some 1) 0, .connect (some 1) 0 (some 0) 0]

/-- Node 0 with one outlet, node 1 with one inlet; node 0 was removed from the model.
No connection. -/
def detached : State :=
  stateOf [.create ⟨0, 0⟩ "a" 0 1, .create ⟨0, 0⟩ "b" 1 0, .remove (some 0)]

/-- The end-to-end scenario of the specification, run on the empty model: create "osc"
at (0,0) and "gain" at (100,0), each with one inlet and one outlet, connect outlet 0 of
the first to inlet 0 of the second, then remove the first.  The result lists: whether
`connect` returned a connection, the title and position of the two nodes, the types
of the four ports, the numbers of nodes and of connections after `connect`, and the
same two numbers after `remove`. -/
def endToEnd :
    Except Fault (Bool × List (String × Int × Int) × List String × Nat × Nat × Nat × Nat) := do
  let (n1, s1) ← create State.empty ⟨0, 0⟩ "osc" 1 1
  let (n2, s2) ← create s1 ⟨100, 0⟩ "gain" 1 1
  let (c, s3) ← connect s2 (some n1) 0 (some n2) 0
  let s4 ← remove s3 (some n1)
  pure (c.isSome, s2.nodeHeap.map (fun n => (n.text_, n.pos_.x, n.pos_.y)),
    (s2.inletHeap ++ s2.outletHeap).map (fun io => io.type_),
    s3.nodes_.length, s3.connections_.length, s4.nodes_.length, s4.connections_.length)

/-! ## Statements about the connection views -/

/-- The three views of the connections agree: a connection object with both ports is
in the model's connection set iff it occurs exactly once in the list of its source
outlet and exactly once in the list of its destination inlet; every member of the
connection set is such an object; and whatever a port lists is a member of the
connection set that has this very port as its source (for an outlet) or as its
destination (for an inlet). -/
def ThreeViewsAgree (s : State) : Prop :=
  (∀ (c sp dp : Nat) (src dst : QDataflowModelIOlet),
    s.connHeap[c]? = some { source_ := some sp, dest_ := some dp } →
    s.outletHeap[sp]? = some src → s.inletHeap[dp]? = some dst →
    (c ∈ s.connections_ ↔ src.connections_.count c = 1 ∧ dst.connections_.count c = 1)) ∧
  (∀ c ∈ s.connections_, ∃ (sp dp : Nat) (src dst : QDataflowModelIOlet),
    s.connHeap[c]? = some { source_ := some sp, dest_ := some dp } ∧
    s.outletHeap[sp]? = some src ∧ s.inletHeap[dp]? = some dst) ∧
  (∀ (p : Nat) (io : QDataflowModelIOlet), s.outletHeap[p]? = some io →
    ∀ c ∈ io.connections_, c ∈ s.connections_ ∧
      ∃ co, s.connHeap[c]? = some co ∧ co.source_ = some p) ∧
  (∀ (p : Nat) (io : QDataflowModelIOlet), s.inletHeap[p]? = some io →
    ∀ c ∈ io.connections_, c ∈ s.connections_ ∧
      ∃ co, s.connHeap[c]? = some co ∧ co.dest_ = some p)

/-! ## What the operations keep -/

/-- The identity of a port object: every member but the connection list. -/
def portIdent (io : QDataflowModelIOlet) : Nat × Int × String × String :=
  (io.node_, io.index_, io.name_, io.type_)

/-- Connection `c` joins an existing outlet to an existing inlet, and both
compatibility checks accept the pair. -/
def Checked (s : State) (c : Nat) : Prop :=
  ∃ (sp dp : Nat) (src dst : QDataflowModelIOlet),
    s.connHeap[c]? = some { source_ := some sp, dest_ := some dp } ∧
    s.outletHeap[sp]? = some src ∧ s.inletHeap[dp]? = some dst ∧
    canMakeConnectionTo src dst = true ∧ canAcceptConnectionFrom dst src = true

/-- From `s` to `s1` no object was lost or rewritten: connection objects are the same,
port objects keep their identity, and whatever entered the connection set passed the
compatibility checks. -/
structure Grows (s s1 : State) : Prop where
  conns : ∀ (c : Nat) (co : QDataflowModelConnection),
    s.connHeap[c]? = some co → s1.connHeap[c]? = some co
  outlets : ∀ (p : Nat) (io : QDataflowModelIOlet), s.outletHeap[p]? = some io →
    ∃ io1, s1.outletHeap[p]? = some io1 ∧ portIdent io1 = portIdent io
  inlets : ∀ (p : Nat) (io : QDataflowModelIOlet), s.inletHeap[p]? = some io →
    ∃ io1, s1.inletHeap[p]? = some io1 ∧ portIdent io1 = portIdent io
  checked : ∀ c ∈ s1.connections_, c ∈ s.connections_ ∨ Checked s1 c

/-- From `s` to `s1` the node set is the same, no node object was made, and every node
object kept its two flags. -/
structure NodesKept (s s1 : State) : Prop where
  nodes : s1.nodes_ = s.nodes_
  length : s1.nodeHeap.length = s.nodeHeap.length
  flags : ∀ (n : Nat) (nd : QDataflowModelNode), s.nodeHeap[n]? = some nd →
    ∃ nd1, s1.nodeHeap[n]? = some nd1 ∧ nd1.relayed = nd.relayed ∧
      nd1.signalsBlocked = nd.signalsBlocked

/-- Both of the above. -/
structure Frame (s s1 : State) : Prop where
  grows : Grows s s1
  kept : NodesKept s s1

/-- Between calls: a node's signals are relayed by the model exactly while the node is
in the node set, no node has its signals blocked, and the members of the node set are
node objects. -/
structure NodeInv (s : State) : Prop where
  relay : ∀ (n : Nat) (nd : QDataflowModelNode), s.nodeHeap[n]? = some nd →
    (nd.relayed = true ↔ n ∈ s.nodes_)
  unblocked : ∀ (n : Nat) (nd : QDataflowModelNode), s.nodeHeap[n]? = some nd →
    nd.signalsBlocked = false
  known : ∀ n ∈ s.nodes_, n < s.nodeHeap.length

/-! ## Removing a batch of connections -/

/-- A port object with the connections in `cs` taken out of its list. -/
def QDataflowModelIOlet.without (io : QDataflowModelIOlet) (cs : List Nat) :
    QDataflowModelIOlet :=
  { io with connections_ := io.connections_.filter (fun c => decide (c ∉ cs)) }

/-- The state in which the connections `cs` have been removed, one after the other:
they are gone from the connection set and from the list of every port, and the model
has emitted `connectionRemoved` for each of them, in the order of `cs`.  Nothing else
differs. -/
def dropConns (s : State) (cs : List Nat) : State :=
  { s with
    outletHeap := s.outletHeap.map (fun io => io.without cs)
    inletHeap := s.inletHeap.map (fun io => io.without cs)
    connections_ := s.connections_.filter (fun c => decide (c ∉ cs))
    emitted := s.emitted ++ cs.map Signal.connectionRemoved }

/-- The outlet a connection object starts at. -/
def sourceOf (s : State) (c : Nat) : Option Nat :=
  s.connHeap[c]?.bind (fun co => co.source_)

/-- The inlet a connection object ends at. -/
def destOf (s : State) (c : Nat) : Option Nat :=
  s.connHeap[c]?.bind (fun co => co.dest_)

/-! ## The states the port setters leave -/

/-- The port objects `addInlet("", type)` / `addOutlet("", type)` make for the types in
the list, the first of them getting index `start`. -/
def freshPorts (self : Nat) (start : Nat) : List String → List QDataflowModelIOlet
  | [] => []
  | type :: rest =>
    { connections_ := [], node_ := self, index_ := (start : Int), name_ := "", type_ := type }
      :: freshPorts self (start + 1) rest

/-- The state with new outlets of the given types appended to node `self` (object `n`),
signals aside. -/
def withOutlets (s : State) (self : Nat) (n : QDataflowModelNode) (types : List String) :
    State :=
  { s with
    outletHeap := s.outletHeap ++ freshPorts self n.outlets_.length types
    nodeHeap := s.nodeHeap.set self
      { n with outlets_ := n.outlets_ ++ List.range' s.outletHeap.length types.length } }

/-- The state with new inlets of the given types appended to node `self` (object `n`),
signals aside. -/
def withInlets (s : State) (self : Nat) (n : QDataflowModelNode) (types : List String) :
    State :=
  { s with
    inletHeap := s.inletHeap ++ freshPorts self n.inlets_.length types
    nodeHeap := s.nodeHeap.set self
      { n with inlets_ := n.inlets_ ++ List.range' s.inletHeap.length types.length } }

/-- The state with the connections `removed` dropped and the outlet list of node `self`
(object `n`) cut down to its first `m` entries, signals of the node aside. -/
def cutOutlets (s : State) (self : Nat) (n : QDataflowModelNode) (m : Nat)
    (removed : List Nat) : State :=
  (dropConns s removed).setNode self { n with outlets_ := n.outlets_.take m }

/-- The state with the connections `removed` dropped and the inlet list of node `self`
(object `n`) cut down to its first `m` entries, signals of the node aside. -/
def cutInlets (s : State) (self : Nat) (n : QDataflowModelNode) (m : Nat)
    (removed : List Nat) : State :=
  (dropConns s removed).setNode self { n with inlets_ := n.inlets_.take m }

/-- The node `self` (object `n`) announcing a new port count: its own signal, and the
model's relay of it when the model listens to the node. -/
def announce (s : State) (n : QDataflowModelNode) (sig : Signal) : State :=
  { s with
    signalled := s.signalled ++ [sig]
    emitted := s.emitted ++ (if n.relayed then [sig] else []) }

/-- The state `setOutletCount(m)` leaves on node `self` (object `n`) when `m` differs
from the number of outlets: the connections `removed` are dropped, the outlet list is
cut to its first `m` entries, `"*"` outlets are appended up to `m`, and the node
announces the new count. -/
def resizedOutlets (s : State) (self : Nat) (n : QDataflowModelNode) (m : Nat)
    (removed : List Nat) : State :=
  announce
    (withOutlets (cutOutlets s self n m removed) self { n with outlets_ := n.outlets_.take m }
      (List.replicate (m - n.outlets_.length) "*"))
    n (.nodeOutletCountChanged self m)

/-- The state `setInletCount(m)` leaves on node `self` (object `n`) when `m` differs
from the number of inlets. -/
def resizedInlets (s : State) (self : Nat) (n : QDataflowModelNode) (m : Nat)
    (removed : List Nat) : State :=
  announce
    (withInlets (cutInlets s self n m removed) self { n with inlets_ := n.inlets_.take m }
      (List.replicate (m - n.inlets_.length) "*"))
    n (.nodeInletCountChanged self m)

/-- The state `setOutletTypes(types)` leaves on node `self` (object `n`): the
connections `removed` are dropped, all outlets are taken off the node, one outlet per
entry of `types` is appended, and the node announces the new count if it differs from
the old one. -/
def retypedOutlets (s : State) (self : Nat) (n : QDataflowModelNode) (types : List String)
    (removed : List Nat) : State :=
  let s1 := withOutlets (cutOutlets s self n 0 removed) self
    { n with outlets_ := n.outlets_.take 0 } types
  if n.outlets_.length ≠ types.length then
    announce s1 n (.nodeOutletCountChanged self types.length)
  else s1

/-- The state `setInletTypes(types)` leaves on node `self` (object `n`). -/
def retypedInlets (s : State) (self : Nat) (n : QDataflowModelNode) (types : List String)
    (removed : List Nat) : State :=
  let s1 := withInlets (cutInlets s self n 0 removed) self
    { n with inlets_ := n.inlets_.take 0 } types
  if n.inlets_.length ≠ types.length then
    announce s1 n (.nodeInletCountChanged self types.length)
  else s1

/-- Node 0 "osc" with one inlet and two outlets, node 1 "gain" with two inlets and one
outlet; the second outlet of "osc" feeds both inlets of "gain" (connections 0 and 1) and
the first outlet of "osc" feeds the first inlet of "gain" (connection 2). -/
def fanned : State :=
  stateOf [.create ⟨0, 0⟩ "osc" 1 2, .create ⟨100, 0⟩ "gain" 2 1,
    .connect (some 0) 1 (some 1) 0, .connect (some 0) 1 (some 1) 1,
    .connect (some 0) 0 (some 1) 0]

/-- One node "delay" with one inlet and one outlet, its outlet connected to its own
inlet (connection 0). -/
def feedback : State :=
  stateOf [.create ⟨0, 0⟩ "delay" 1 1, .connect (some 0) 0 (some 0) 0]

/-! ## The state `create` leaves -/

/-- The count-changed signals a node fires while `k` ports are appended one at a time
to a list of `start` ports: one per port, carrying the count reached. -/
def countSignals (mk : Int → Signal) (start k : Nat) : List Signal :=
  (List.range' (start + 1) k).map (fun i => mk (i : Int))

/-- The state `create(pos, text, ic, oc)` leaves: a new node object with `ic` new inlets
and `oc` new outlets, all of type `"*"` and without name, entered in the node set and
wired to the model; the model emits `nodeAdded`; the signals the node fired inside its
constructor were heard by nobody. -/
def created (s : State) (pos : QPoint) (text : String) (ic oc : Nat) : State :=
  { nodeHeap := s.nodeHeap ++ [
      { valid_ := false, pos_ := pos, text_ := text,
        inlets_ := List.range' s.inletHeap.length ic,
        outlets_ := List.range' s.outletHeap.length oc,
        signalsBlocked := false, relayed := true }]
    inletHeap := s.inletHeap ++ freshPorts s.nodeHeap.length 0 (List.replicate ic "*")
    outletHeap := s.outletHeap ++ freshPorts s.nodeHeap.length 0 (List.replicate oc "*")
    connHeap := s.connHeap
    nodes_ := qsetInsert s.nodes_ s.nodeHeap.length
    connections_ := s.connections_
    emitted := s.emitted ++ [.nodeAdded s.nodeHeap.length]
    signalled := s.signalled
      ++ countSignals (Signal.nodeInletCountChanged s.nodeHeap.length) 0 ic
      ++ countSignals (Signal.nodeOutletCountChanged s.nodeHeap.length) 0 oc }

/-! ## Basic facts -/

theorem bind_eq_ok {ε α β : Type} (x : Except ε α) (f : α → Except ε β) (b : β) :
    (x >>= f) = .ok b ↔ ∃ a, x = .ok a ∧ f a = .ok b := by
  cases x with
  | error e => simp [bind, Except.bind]
  | ok a => simp [bind, Except.bind]

theorem load_eq_ok {α : Type} (heap : List α) (p : Nat) (a : α) :
    load heap p = .ok a ↔ heap[p]? = some a := by
  unfold load
  cases h : heap[p]? <;> simp

theorem deref_eq_ok (o : Option Nat) (p : Nat) : deref o = .ok p ↔ o = some p := by
  cases o <;> simp [deref]

theorem portKey_set (heap : List QDataflowModelIOlet) (p q : Nat)
    (io io1 : QDataflowModelIOlet) (h : heap[p]? = some io)
    (hn : io1.node_ = io.node_) (hi : io1.index_ = io.index_) :
    portKey (heap.set p io1) q = portKey heap q := by
  unfold portKey
  rw [List.getElem?_set]
  by_cases hpq : p = q
  · subst hpq
    have hlt : p < heap.length := by
      rcases List.getElem?_eq_some_iff.mp h with ⟨hlt, _⟩
      exact hlt
    simp [hlt, h, hn, hi]
  · simp [hpq]

theorem portKey_append (heap : List QDataflowModelIOlet) (q : Nat)
    (io : QDataflowModelIOlet) (k : Nat × Int) (h : portKey heap q = some k) :
    portKey (heap ++ [io]) q = some k := by
  unfold portKey at *
  cases hq : heap[q]? with
  | none => simp [hq] at h
  | some a =>
    have hlt : q < heap.length := (List.getElem?_eq_some_iff.mp hq).1
    rw [List.getElem?_append_left hlt, hq]
    simpa [hq] using h

theorem removeConnection_cases (s s1 : State) (c : Nat)
    (h : removeConnection s (some c) = .ok s1) :
    (c ∉ s.connections_ ∧ s1 = s) ∨
    (c ∈ s.connections_ ∧ ∃ sp dp src dst,
      s.connHeap[c]? = some { source_ := some sp, dest_ := some dp } ∧
      s.outletHeap[sp]? = some src ∧ s.inletHeap[dp]? = some dst ∧
      s1 = unlink s c sp dp src dst) := by
  unfold removeConnection at h
  simp only at h
  split at h
  · rename_i hc
    simp only [bind_eq_ok, State.getConn, State.getOutlet, State.getInlet, load_eq_ok,
      deref_eq_ok, pure, Except.pure, State.setOutlet, State.setInlet, State.emit,
      Except.ok.injEq] at h
    obtain ⟨co, hco, sp, hsp, src, hsrc, dp, hdp, dst, hdst, rfl⟩ := h
    refine Or.inr ⟨hc, sp, dp, src, dst, ?_, hsrc, hdst, rfl⟩
    cases co
    simp_all
  · rename_i hc
    simp only [Except.ok.injEq] at h
    exact Or.inl ⟨hc, h.symm⟩

theorem count_removeConnection (io : QDataflowModelIOlet) (c d : Nat) (h : d ≠ c) :
    (io.removeConnection c).connections_.count d = io.connections_.count d := by
  unfold QDataflowModelIOlet.removeConnection
  apply List.count_filter
  simpa using h

theorem endpoints_unlink (s : State) (c sp dp : Nat) (src dst : QDataflowModelIOlet)
    (hs : s.outletHeap[sp]? = some src) (hd : s.inletHeap[dp]? = some dst) (d : Nat) :
    endpoints (unlink s c sp dp src dst) d = endpoints s d := by
  unfold endpoints unlink
  simp only
  have h1 : ∀ q, portKey (s.outletHeap.set sp (src.removeConnection c)) q
      = portKey s.outletHeap q := fun q => portKey_set _ _ _ _ _ hs rfl rfl
  have h2 : ∀ q, portKey (s.inletHeap.set dp (dst.removeConnection c)) q
      = portKey s.inletHeap q := fun q => portKey_set _ _ _ _ _ hd rfl rfl
  simp only [h1, h2]

theorem ConnInv_unlink (s : State) (c sp dp : Nat) (src dst : QDataflowModelIOlet)
    (hinv : ConnInv s) (hc : c ∈ s.connections_)
    (hco : s.connHeap[c]? = some { source_ := some sp, dest_ := some dp })
    (hs : s.outletHeap[sp]? = some src) (hd : s.inletHeap[dp]? = some dst) :
    ConnInv (unlink s c sp dp src dst) := by
  have hsl : sp < s.outletHeap.length := (List.getElem?_eq_some_iff.mp hs).1
  have hdl : dp < s.inletHeap.length := (List.getElem?_eq_some_iff.mp hd).1
  have mem_rm : ∀ d, d ∈ qsetRemove s.connections_ c ↔ d ∈ s.connections_ ∧ d ≠ c := by
    intro d; simp [qsetRemove, List.mem_filter]
  constructor
  · exact hinv.nodup.filter _
  · intro d hdm
    obtain ⟨hdm, hne⟩ := (mem_rm d).mp hdm
    obtain ⟨sp1, dp1, src1, dst1, h1, h2, h3, h4, h5⟩ := hinv.linked d hdm
    by_cases e1 : sp = sp1 <;> by_cases e2 : dp = dp1
    · subst e1; subst e2
      refine ⟨sp, dp, src.removeConnection c, dst.removeConnection c, h1, ?_, ?_, ?_, ?_⟩
      · simp [unlink, List.getElem?_set, hsl]
      · simp [unlink, List.getElem?_set, hdl]
      · have : src1 = src := by rw [hs] at h2; exact (Option.some.inj h2).symm
        subst this
        rw [count_removeConnection _ _ _ hne]; exact h4
      · have : dst1 = dst := by rw [hd] at h3; exact (Option.some.inj h3).symm
        subst this
        rw [count_removeConnection _ _ _ hne]; exact h5
    · subst e1
      refine ⟨sp, dp1, src.removeConnection c, dst1, h1, ?_, ?_, ?_, h5⟩
      · simp [unlink, List.getElem?_set, hsl]
      · simpa [unlink, List.getElem?_set, e2] using h3
      · have : src1 = src := by rw [hs] at h2; exact (Option.some.inj h2).symm
        subst this
        rw [count_removeConnection _ _ _ hne]; exact h4
    · subst e2
      refine ⟨sp1, dp, src1, dst.removeConnection c, h1, ?_, ?_, h4, ?_⟩
      · simpa [unlink, List.getElem?_set, e1] using h2
      · simp [unlink, List.getElem?_set, hdl]
      · have : dst1 = dst := by rw [hd] at h3; exact (Option.some.inj h3).symm
        subst this
        rw [count_removeConnection _ _ _ hne]; exact h5
    · refine ⟨sp1, dp1, src1, dst1, h1, ?_, ?_, h4, h5⟩
      · simpa [unlink, List.getElem?_set, e1] using h2
      · simpa [unlink, List.getElem?_set, e2] using h3
  · intro p io hp d hdio
    simp only [unlink, List.getElem?_set] at hp
    by_cases e : sp = p
    · subst e
      simp only [hsl, if_true] at hp
      have hio : io = src.removeConnection c := by simpa using hp.symm
      subst hio
      simp only [QDataflowModelIOlet.removeConnection, List.mem_filter] at hdio
      obtain ⟨hm, co, hco1, hco2⟩ := hinv.outletLists sp src hs d hdio.1
      exact ⟨(mem_rm d).mpr ⟨hm, by simpa using hdio.2⟩, co, hco1, hco2⟩
    · simp only [e, if_false] at hp
      obtain ⟨hm, co, hco1, hco2⟩ := hinv.outletLists p io hp d hdio
      refine ⟨(mem_rm d).mpr ⟨hm, ?_⟩, co, hco1, hco2⟩
      rintro rfl
      rw [hco] at hco1
      cases Option.some.inj hco1
      simp at hco2
      exact e hco2
  · intro p io hp d hdio
    simp only [unlink, List.getElem?_set] at hp
    by_cases e : dp = p
    · subst e
      simp only [hdl, if_true] at hp
      have hio : io = dst.removeConnection c := by simpa using hp.symm
      subst hio
      simp only [QDataflowModelIOlet.removeConnection, List.mem_filter] at hdio
      obtain ⟨hm, co, hco1, hco2⟩ := hinv.inletLists dp dst hd d hdio.1
      exact ⟨(mem_rm d).mpr ⟨hm, by simpa using hdio.2⟩, co, hco1, hco2⟩
    · simp only [e, if_false] at hp
      obtain ⟨hm, co, hco1, hco2⟩ := hinv.inletLists p io hp d hdio
      refine ⟨(mem_rm d).mpr ⟨hm, ?_⟩, co, hco1, hco2⟩
      rintro rfl
      rw [hco] at hco1
      cases Option.some.inj hco1
      simp at hco2
      exact e hco2
  · intro c1 h1 c2 h2 he
    rw [endpoints_unlink s c sp dp src dst hs hd, endpoints_unlink s c sp dp src dst hs hd] at he
    exact hinv.unique c1 ((mem_rm c1).mp h1).1 c2 ((mem_rm c2).mp h2).1 he

theorem endpoints_of_linked (s : State) (c sp dp : Nat) (src dst : QDataflowModelIOlet)
    (hco : s.connHeap[c]? = some { source_ := some sp, dest_ := some dp })
    (hs : s.outletHeap[sp]? = some src) (hd : s.inletHeap[dp]? = some dst) :
    endpoints s c = some ((src.node_, src.index_), (dst.node_, dst.index_)) := by
  simp [endpoints, hco, portKey, hs, hd]

theorem matchesEndpoints_eq (s : State) (c sp dp : Nat) (src dst : QDataflowModelIOlet)
    (hco : s.connHeap[c]? = some { source_ := some sp, dest_ := some dp })
    (hs : s.outletHeap[sp]? = some src) (hd : s.inletHeap[dp]? = some dst)
    (sn : Nat) (so : Int) (dn : Nat) (di : Int) :
    matchesEndpoints s c sn so dn di
      = .ok (decide (endpoints s c = some ((sn, so), (dn, di)))) := by
  rw [endpoints_of_linked s c sp dp src dst hco hs hd]
  have h1 : s.getConn c = .ok { source_ := some sp, dest_ := some dp } :=
    (load_eq_ok _ _ _).mpr hco
  have h2 : s.getOutlet sp = .ok src := (load_eq_ok _ _ _).mpr hs
  have h3 : s.getInlet dp = .ok dst := (load_eq_ok _ _ _).mpr hd
  unfold matchesEndpoints
  simp only [h1, h2, h3, deref, bind, Except.bind, pure, Except.pure]
  by_cases e : src.node_ = sn ∧ src.index_ = so
  · simp [e]
  · simp only [e, if_false]
    congr 1
    simp only [Option.some.injEq, Prod.mk.injEq]
    symm
    rw [decide_eq_false_iff_not]
    intro h
    exact e h.1

theorem findLoop_eq (s : State) (hinv : ConnInv s) (sn : Nat) (so : Int) (dn : Nat)
    (di : Int) (l : List Nat) (hl : ∀ c ∈ l, c ∈ s.connections_) :
    findLoop s sn so dn di l
      = .ok (l.filter (fun c => decide (endpoints s c = some ((sn, so), (dn, di))))) := by
  induction l with
  | nil => rfl
  | cons c rest ih =>
    obtain ⟨sp, dp, src, dst, h1, h2, h3, _, _⟩ := hinv.linked c (hl c (by simp))
    have ih1 := ih (fun d hd => hl d (by simp [hd]))
    unfold findLoop
    rw [matchesEndpoints_eq s c sp dp src dst h1 h2 h3, ih1]
    simp only [bind, Except.bind, pure, Except.pure, List.filter_cons]

theorem findConnections_eq (s : State) (hinv : ConnInv s) (sn : Nat) (so : Int) (dn : Nat)
    (di : Int) :
    findConnections s (some sn) so (some dn) di
      = .ok (s.connections_.filter
          (fun c => decide (endpoints s c = some ((sn, so), (dn, di))))) := by
  unfold findConnections
  exact findLoop_eq s hinv sn so dn di s.connections_ (fun _ h => h)

theorem findConnections_conn_eq (s : State) (hinv : ConnInv s) (c sp dp : Nat)
    (src dst : QDataflowModelIOlet)
    (hco : s.connHeap[c]? = some { source_ := some sp, dest_ := some dp })
    (hs : s.outletHeap[sp]? = some src) (hd : s.inletHeap[dp]? = some dst) :
    findConnections_conn s (some c)
      = .ok (s.connections_.filter (fun d => decide (endpoints s d = endpoints s c))) := by
  have h1 : s.getConn c = .ok { source_ := some sp, dest_ := some dp } :=
    (load_eq_ok _ _ _).mpr hco
  have h2 : s.getOutlet sp = .ok src := (load_eq_ok _ _ _).mpr hs
  have h3 : s.getInlet dp = .ok dst := (load_eq_ok _ _ _).mpr hd
  unfold findConnections_conn findConnections_ports
  simp only [h1, h2, h3, bind, Except.bind]
  rw [findConnections_eq s hinv, endpoints_of_linked s c sp dp src dst hco hs hd]

theorem findConnections_conn_self (s : State) (hinv : ConnInv s) (c : Nat)
    (hc : c ∈ s.connections_) :
    ∃ l, findConnections_conn s (some c) = .ok l ∧ c ∈ l ∧ ∀ d ∈ l, d = c := by
  obtain ⟨sp, dp, src, dst, h1, h2, h3, _, _⟩ := hinv.linked c hc
  refine ⟨_, findConnections_conn_eq s hinv c sp dp src dst h1 h2 h3, ?_, ?_⟩
  · simp [List.mem_filter, hc]
  · intro d hd
    simp only [List.mem_filter, decide_eq_true_eq] at hd
    exact hinv.unique d hd.1 c hc hd.2

theorem addConnection_cases (s s1 : State) (c : Nat)
    (h : addConnection s (some c) = .ok s1) :
    s1 = s ∨ ∃ sp dp src dst,
      findConnections_conn s (some c) = .ok [] ∧
      s.connHeap[c]? = some { source_ := some sp, dest_ := some dp } ∧
      s.outletHeap[sp]? = some src ∧ s.inletHeap[dp]? = some dst ∧
      canMakeConnectionTo src dst = true ∧ canAcceptConnectionFrom dst src = true ∧
      s1 = link s c sp dp src dst := by
  unfold addConnection at h
  simp only [bind_eq_ok] at h
  obtain ⟨found, hfound, h⟩ := h
  split at h
  · rename_i hempty
    simp only [bind_eq_ok, State.getConn, State.getOutlet, State.getInlet, load_eq_ok,
      deref_eq_ok] at h
    obtain ⟨co, hco, sp, hsp, src, hsrc, dp, hdp, dst, hdst, h⟩ := h
    split at h
    · left
      simp only [pure, Except.pure, Except.ok.injEq] at h
      exact h.symm
    · rename_i hcompat
      right
      simp only [bind_eq_ok, State.getOutlet, State.getInlet, load_eq_ok, pure, Except.pure,
        State.setOutlet, State.setInlet, State.emit, Except.ok.injEq] at h
      obtain ⟨src1, hsrc1, dst1, hdst1, rfl⟩ := h
      have e1 : src1 = src := by rw [hsrc] at hsrc1; exact (Option.some.inj hsrc1).symm
      have e2 : dst1 = dst := by rw [hdst] at hdst1; exact (Option.some.inj hdst1).symm
      subst e1; subst e2
      have hf : found = [] := by simpa using hempty
      subst hf
      simp only [Bool.or_eq_true, Bool.not_eq_true', not_or, Bool.not_eq_false] at hcompat
      refine ⟨sp, dp, src1, dst1, hfound, ?_, hsrc, hdst, hcompat.1, hcompat.2, rfl⟩
      cases co
      simp_all
  · left
    simp only [pure, Except.pure, Except.ok.injEq] at h
    exact h.symm

theorem endpoints_link (s : State) (c sp dp : Nat) (src dst : QDataflowModelIOlet)
    (hs : s.outletHeap[sp]? = some src) (hd : s.inletHeap[dp]? = some dst) (d : Nat) :
    endpoints (link s c sp dp src dst) d = endpoints s d := by
  unfold endpoints link
  simp only
  have h1 : ∀ q, portKey (s.outletHeap.set sp (src.addConnection c)) q
      = portKey s.outletHeap q := fun q => portKey_set _ _ _ _ _ hs rfl rfl
  have h2 : ∀ q, portKey (s.inletHeap.set dp (dst.addConnection c)) q
      = portKey s.inletHeap q := fun q => portKey_set _ _ _ _ _ hd rfl rfl
  simp only [h1, h2]

theorem count_addConnection_ne (io : QDataflowModelIOlet) (c d : Nat) (h : d ≠ c) :
    (io.addConnection c).connections_.count d = io.connections_.count d := by
  unfold QDataflowModelIOlet.addConnection
  simp [List.count_append, List.count_singleton, h.symm]

theorem count_addConnection_self (io : QDataflowModelIOlet) (c : Nat)
    (h : c ∉ io.connections_) :
    (io.addConnection c).connections_.count c = 1 := by
  unfold QDataflowModelIOlet.addConnection
  simp [List.count_append, List.count_eq_zero_of_not_mem h]

theorem ConnInv_link (s : State) (c sp dp : Nat) (src dst : QDataflowModelIOlet)
    (hinv : ConnInv s) (hc : c ∉ s.connections_)
    (hco : s.connHeap[c]? = some { source_ := some sp, dest_ := some dp })
    (hs : s.outletHeap[sp]? = some src) (hd : s.inletHeap[dp]? = some dst)
    (hnew : ∀ d ∈ s.connections_, endpoints s d ≠ endpoints s c) :
    ConnInv (link s c sp dp src dst) := by
  have hsl : sp < s.outletHeap.length := (List.getElem?_eq_some_iff.mp hs).1
  have hdl : dp < s.inletHeap.length := (List.getElem?_eq_some_iff.mp hd).1
  have mem_ins : ∀ d, d ∈ qsetInsert s.connections_ c ↔ d ∈ s.connections_ ∨ d = c := by
    intro d; simp [qsetInsert, hc]
  have hcs : c ∉ src.connections_ := fun h => hc (hinv.outletLists sp src hs c h).1
  have hcd : c ∉ dst.connections_ := fun h => hc (hinv.inletLists dp dst hd c h).1
  have hos : (link s c sp dp src dst).outletHeap[sp]? = some (src.addConnection c) := by
    simp [link, List.getElem?_set, hsl]
  have hid : (link s c sp dp src dst).inletHeap[dp]? = some (dst.addConnection c) := by
    simp [link, List.getElem?_set, hdl]
  constructor
  · show (qsetInsert s.connections_ c).Nodup
    simp only [qsetInsert, hc, if_false]
    exact List.Nodup.append hinv.nodup (List.nodup_singleton c) (by simpa using hc)
  · intro d hdm
    rcases (mem_ins d).mp hdm with hdm | rfl
    · have hne : d ≠ c := fun e => hc (e ▸ hdm)
      obtain ⟨sp1, dp1, src1, dst1, h1, h2, h3, h4, h5⟩ := hinv.linked d hdm
      by_cases e1 : sp = sp1 <;> by_cases e2 : dp = dp1
      · subst e1; subst e2
        have : src1 = src := by rw [hs] at h2; exact (Option.some.inj h2).symm
        subst this
        have : dst1 = dst := by rw [hd] at h3; exact (Option.some.inj h3).symm
        subst this
        refine ⟨sp, dp, _, _, h1, hos, hid, ?_, ?_⟩
        · rw [count_addConnection_ne _ _ _ hne]; exact h4
        · rw [count_addConnection_ne _ _ _ hne]; exact h5
      · subst e1
        have : src1 = src := by rw [hs] at h2; exact (Option.some.inj h2).symm
        subst this
        refine ⟨sp, dp1, _, dst1, h1, hos, ?_, ?_, h5⟩
        · simpa [link, List.getElem?_set, e2] using h3
        · rw [count_addConnection_ne _ _ _ hne]; exact h4
      · subst e2
        have : dst1 = dst := by rw [hd] at h3; exact (Option.some.inj h3).symm
        subst this
        refine ⟨sp1, dp, src1, _, h1, ?_, hid, h4, ?_⟩
        · simpa [link, List.getElem?_set, e1] using h2
        · rw [count_addConnection_ne _ _ _ hne]; exact h5
      · refine ⟨sp1, dp1, src1, dst1, h1, ?_, ?_, h4, h5⟩
        · simpa [link, List.getElem?_set, e1] using h2
        · simpa [link, List.getElem?_set, e2] using h3
    · exact ⟨sp, dp, _, _, hco, hos, hid, count_addConnection_self _ _ hcs,
        count_addConnection_self _ _ hcd⟩
  · intro p io hp d hdio
    by_cases e : sp = p
    · subst e
      rw [hos] at hp
      have hio : io = src.addConnection c := (Option.some.inj hp).symm
      subst hio
      simp only [QDataflowModelIOlet.addConnection, List.mem_append, List.mem_singleton] at hdio
      rcases hdio with hdio | rfl
      · obtain ⟨hm, co, hco1, hco2⟩ := hinv.outletLists sp src hs d hdio
        exact ⟨(mem_ins d).mpr (Or.inl hm), co, hco1, hco2⟩
      · exact ⟨(mem_ins d).mpr (Or.inr rfl), _, hco, rfl⟩
    · simp only [link, List.getElem?_set, e, if_false] at hp
      obtain ⟨hm, co, hco1, hco2⟩ := hinv.outletLists p io hp d hdio
      exact ⟨(mem_ins d).mpr (Or.inl hm), co, hco1, hco2⟩
  · intro p io hp d hdio
    by_cases e : dp = p
    · subst e
      rw [hid] at hp
      have hio : io = dst.addConnection c := (Option.some.inj hp).symm
      subst hio
      simp only [QDataflowModelIOlet.addConnection, List.mem_append, List.mem_singleton] at hdio
      rcases hdio with hdio | rfl
      · obtain ⟨hm, co, hco1, hco2⟩ := hinv.inletLists dp dst hd d hdio
        exact ⟨(mem_ins d).mpr (Or.inl hm), co, hco1, hco2⟩
      · exact ⟨(mem_ins d).mpr (Or.inr rfl), _, hco, rfl⟩
    · simp only [link, List.getElem?_set, e, if_false] at hp
      obtain ⟨hm, co, hco1, hco2⟩ := hinv.inletLists p io hp d hdio
      exact ⟨(mem_ins d).mpr (Or.inl hm), co, hco1, hco2⟩
  · intro c1 h1 c2 h2 he
    rw [endpoints_link s c sp dp src dst hs hd, endpoints_link s c sp dp src dst hs hd] at he
    rcases (mem_ins c1).mp h1 with m1 | e1 <;> rcases (mem_ins c2).mp h2 with m2 | e2
    · exact hinv.unique c1 m1 c2 m2 he
    · rw [e2] at he
      exact absurd he (hnew c1 m1)
    · rw [e1] at he
      exact absurd he.symm (hnew c2 m2)
    · rw [e1, e2]

theorem endpoints_congr (s s1 : State) (h2 : s1.inletHeap = s.inletHeap)
    (h3 : s1.outletHeap = s.outletHeap) (h4 : s1.connHeap = s.connHeap) (c : Nat) :
    endpoints s1 c = endpoints s c := by
  unfold endpoints
  rw [h2, h3, h4]

theorem ConnInv_congr (s s1 : State) (h2 : s1.inletHeap = s.inletHeap)
    (h3 : s1.outletHeap = s.outletHeap) (h4 : s1.connHeap = s.connHeap)
    (h5 : s1.connections_ = s.connections_) (hinv : ConnInv s) : ConnInv s1 := by
  constructor
  · rw [h5]; exact hinv.nodup
  · rw [h5, h4, h3, h2]; exact hinv.linked
  · rw [h5, h4, h3]; exact hinv.outletLists
  · rw [h5, h4, h2]; exact hinv.inletLists
  · rw [h5]
    intro c1 m1 c2 m2 he
    rw [endpoints_congr s s1 h2 h3 h4, endpoints_congr s s1 h2 h3 h4] at he
    exact hinv.unique c1 m1 c2 m2 he

theorem PortInv_congr (s s1 : State) (h1 : s1.nodeHeap = s.nodeHeap)
    (h2 : ∀ q, portKey s1.inletHeap q = portKey s.inletHeap q)
    (h3 : ∀ q, portKey s1.outletHeap q = portKey s.outletHeap q)
    (hinv : PortInv s) : PortInv s1 := by
  constructor
  · intro n node hn i p hp
    rw [h3]
    rw [h1] at hn
    exact hinv.outlets n node hn i p hp
  · intro n node hn i p hp
    rw [h2]
    rw [h1] at hn
    exact hinv.inlets n node hn i p hp

theorem Inv_congr (s s1 : State) (h1 : s1.nodeHeap = s.nodeHeap)
    (h2 : s1.inletHeap = s.inletHeap) (h3 : s1.outletHeap = s.outletHeap)
    (h4 : s1.connHeap = s.connHeap) (h5 : s1.connections_ = s.connections_)
    (hinv : Inv s) : Inv s1 :=
  ⟨ConnInv_congr s s1 h2 h3 h4 h5 hinv.conn,
   PortInv_congr s s1 h1 (fun _ => by rw [h2]) (fun _ => by rw [h3]) hinv.port⟩

theorem Inv_emit (s : State) (sig : Signal) (hinv : Inv s) : Inv (s.emit sig) :=
  Inv_congr s _ rfl rfl rfl rfl rfl hinv

theorem Inv_unlink (s : State) (c sp dp : Nat) (src dst : QDataflowModelIOlet)
    (hinv : Inv s) (hc : c ∈ s.connections_)
    (hco : s.connHeap[c]? = some { source_ := some sp, dest_ := some dp })
    (hs : s.outletHeap[sp]? = some src) (hd : s.inletHeap[dp]? = some dst) :
    Inv (unlink s c sp dp src dst) :=
  ⟨ConnInv_unlink s c sp dp src dst hinv.conn hc hco hs hd,
   PortInv_congr s _ rfl (fun _ => portKey_set _ _ _ _ _ hd rfl rfl)
     (fun _ => portKey_set _ _ _ _ _ hs rfl rfl) hinv.port⟩

theorem removeConnection_inv (s s1 : State) (conn : Option Nat) (hinv : Inv s)
    (h : removeConnection s conn = .ok s1) : Inv s1 := by
  cases conn with
  | none =>
    simp only [removeConnection, Except.ok.injEq] at h
    exact h ▸ hinv
  | some c =>
    rcases removeConnection_cases s s1 c h with ⟨_, rfl⟩ | ⟨hc, sp, dp, src, dst, h1, h2, h3, rfl⟩
    · exact hinv
    · exact Inv_unlink s c sp dp src dst hinv hc h1 h2 h3

theorem removeEach_inv (l : List Nat) (s s1 : State) (hinv : Inv s)
    (h : removeEach s l = .ok s1) : Inv s1 := by
  induction l generalizing s with
  | nil =>
    simp only [removeEach, Except.ok.injEq] at h
    exact h ▸ hinv
  | cons c rest ih =>
    simp only [removeEach, bind_eq_ok] at h
    obtain ⟨s2, h2, h3⟩ := h
    exact ih s2 (removeConnection_inv s s2 (some c) hinv h2) h3

theorem disconnect_conn_inv (s s1 : State) (conn : Option Nat) (hinv : Inv s)
    (h : disconnect_conn s conn = .ok s1) : Inv s1 := by
  cases conn with
  | none =>
    simp only [disconnect_conn, Except.ok.injEq] at h
    exact h ▸ hinv
  | some c =>
    simp only [disconnect_conn, bind_eq_ok] at h
    obtain ⟨l, _, h3⟩ := h
    exact removeEach_inv l s s1 hinv h3

theorem disconnect_inv (s s1 : State) (sn : Option Nat) (so : Int) (dn : Option Nat)
    (di : Int) (hinv : Inv s) (h : disconnect s sn so dn di = .ok s1) : Inv s1 := by
  unfold disconnect at h
  split at h
  · simp only [bind_eq_ok] at h
    obtain ⟨l, _, h3⟩ := h
    exact removeEach_inv l s s1 hinv h3
  · simp only [Except.ok.injEq] at h
    exact h ▸ hinv

theorem disconnectEach_inv (l : List Nat) (s s1 : State) (hinv : Inv s)
    (h : disconnectEach s l = .ok s1) : Inv s1 := by
  induction l generalizing s with
  | nil =>
    simp only [disconnectEach, Except.ok.injEq] at h
    exact h ▸ hinv
  | cons c rest ih =>
    simp only [disconnectEach, bind_eq_ok] at h
    obtain ⟨s2, h2, h3⟩ := h
    exact ih s2 (disconnect_conn_inv s s2 (some c) hinv h2) h3

theorem addConnection_inv (s s1 : State) (conn : Option Nat) (hinv : Inv s)
    (h : addConnection s conn = .ok s1) : Inv s1 := by
  cases conn with
  | none =>
    simp only [addConnection, Except.ok.injEq] at h
    exact h ▸ hinv
  | some c =>
    rcases addConnection_cases s s1 c h with rfl | ⟨sp, dp, src, dst, hf, h1, h2, h3, _, _, rfl⟩
    · exact hinv
    · rw [findConnections_conn_eq s hinv.conn c sp dp src dst h1 h2 h3] at hf
      have hf1 : ∀ d ∈ s.connections_, endpoints s d ≠ endpoints s c := by
        intro d hd he
        have : d ∈ s.connections_.filter (fun d => decide (endpoints s d = endpoints s c)) := by
          simp [List.mem_filter, hd, he]
        simp only [Except.ok.injEq] at hf
        rw [hf] at this
        simp at this
      have hc : c ∉ s.connections_ := fun hc => hf1 c hc rfl
      exact ⟨ConnInv_link s c sp dp src dst hinv.conn hc h1 h2 h3 hf1,
        PortInv_congr s _ rfl (fun _ => portKey_set _ _ _ _ _ h3 rfl rfl)
          (fun _ => portKey_set _ _ _ _ _ h2 rfl rfl) hinv.port⟩

theorem getElem?_append_some {α : Type} (l m : List α) (i : Nat) (a : α)
    (h : l[i]? = some a) : (l ++ m)[i]? = some a := by
  have hlt : i < l.length := (List.getElem?_eq_some_iff.mp h).1
  rw [List.getElem?_append_left hlt]
  exact h

theorem getElem?_append_singleton {α : Type} (l : List α) (x : α) (i : Nat) (a : α)
    (h : (l ++ [x])[i]? = some a) : l[i]? = some a ∨ (i = l.length ∧ a = x) := by
  by_cases hlt : i < l.length
  · rw [List.getElem?_append_left hlt] at h
    exact Or.inl h
  · right
    have hge : l.length ≤ i := Nat.le_of_not_lt hlt
    rw [List.getElem?_append_right hge] at h
    have hi : i - l.length = 0 := by
      by_contra hne
      have : ([x] : List α)[i - l.length]? = none := by
        apply List.getElem?_eq_none
        simp
        omega
      rw [this] at h
      cases h
    rw [hi] at h
    simp at h
    exact ⟨by omega, h.symm⟩

theorem getElem?_dropLast {α : Type} (l : List α) (i : Nat) (a : α)
    (h : l.dropLast[i]? = some a) : l[i]? = some a := by
  rw [List.dropLast_eq_take] at h
  rw [List.getElem?_take] at h
  split at h
  · exact h
  · cases h

theorem ConnInv_extend (s s1 : State)
    (hconn : ∀ (c : Nat) (co : QDataflowModelConnection), s.connHeap[c]? = some co → s1.connHeap[c]? = some co)
    (hout : ∀ (p : Nat) (io : QDataflowModelIOlet), s.outletHeap[p]? = some io → s1.outletHeap[p]? = some io)
    (hin : ∀ (p : Nat) (io : QDataflowModelIOlet), s.inletHeap[p]? = some io → s1.inletHeap[p]? = some io)
    (hout1 : ∀ (p : Nat) (io : QDataflowModelIOlet), s1.outletHeap[p]? = some io →
      s.outletHeap[p]? = some io ∨ io.connections_ = [])
    (hin1 : ∀ (p : Nat) (io : QDataflowModelIOlet), s1.inletHeap[p]? = some io →
      s.inletHeap[p]? = some io ∨ io.connections_ = [])
    (h5 : s1.connections_ = s.connections_) (hinv : ConnInv s) : ConnInv s1 := by
  have hep : ∀ c ∈ s.connections_, endpoints s1 c = endpoints s c := by
    intro c hc
    obtain ⟨sp, dp, src, dst, h1, h2, h3, _, _⟩ := hinv.linked c hc
    rw [endpoints_of_linked s c sp dp src dst h1 h2 h3,
      endpoints_of_linked s1 c sp dp src dst (hconn _ _ h1) (hout _ _ h2) (hin _ _ h3)]
  constructor
  · rw [h5]; exact hinv.nodup
  · rw [h5]
    intro c hc
    obtain ⟨sp, dp, src, dst, h1, h2, h3, h4, h6⟩ := hinv.linked c hc
    exact ⟨sp, dp, src, dst, hconn _ _ h1, hout _ _ h2, hin _ _ h3, h4, h6⟩
  · rw [h5]
    intro p io hp c hc
    rcases hout1 p io hp with hp1 | hp1
    · obtain ⟨hm, co, h1, h2⟩ := hinv.outletLists p io hp1 c hc
      exact ⟨hm, co, hconn _ _ h1, h2⟩
    · rw [hp1] at hc
      cases hc
  · rw [h5]
    intro p io hp c hc
    rcases hin1 p io hp with hp1 | hp1
    · obtain ⟨hm, co, h1, h2⟩ := hinv.inletLists p io hp1 c hc
      exact ⟨hm, co, hconn _ _ h1, h2⟩
    · rw [hp1] at hc
      cases hc
  · rw [h5]
    intro c1 m1 c2 m2 he
    rw [hep c1 m1, hep c2 m2] at he
    exact hinv.unique c1 m1 c2 m2 he

theorem Inv_setNode (s : State) (p : Nat) (n n1 : QDataflowModelNode) (hinv : Inv s)
    (hn : s.nodeHeap[p]? = some n)
    (hi : ∀ (i : Nat) q, n1.inlets_[i]? = some q → n.inlets_[i]? = some q)
    (ho : ∀ (i : Nat) q, n1.outlets_[i]? = some q → n.outlets_[i]? = some q) :
    Inv (s.setNode p n1) := by
  refine ⟨ConnInv_congr s _ rfl rfl rfl rfl hinv.conn, ?_⟩
  have hlt : p < s.nodeHeap.length := (List.getElem?_eq_some_iff.mp hn).1
  constructor
  · intro m node hm i q hq
    simp only [State.setNode, List.getElem?_set] at hm
    by_cases e : p = m
    · subst e
      simp only [hlt, if_true] at hm
      have : node = n1 := by simpa using hm.symm
      subst this
      exact hinv.port.outlets p n hn i q (ho i q hq)
    · simp only [e, if_false] at hm
      exact hinv.port.outlets m node hm i q hq
  · intro m node hm i q hq
    simp only [State.setNode, List.getElem?_set] at hm
    by_cases e : p = m
    · subst e
      simp only [hlt, if_true] at hm
      have : node = n1 := by simpa using hm.symm
      subst this
      exact hinv.port.inlets p n hn i q (hi i q hq)
    · simp only [e, if_false] at hm
      exact hinv.port.inlets m node hm i q hq

theorem emitFromNode_cases (s s1 : State) (self : Nat) (sig : Signal)
    (h : emitFromNode s self sig = .ok s1) :
    s1 = s ∨ s1 = s.signal sig ∨ s1 = (s.signal sig).emit sig := by
  unfold emitFromNode at h
  simp only [bind_eq_ok] at h
  obtain ⟨n, _, h⟩ := h
  split at h
  · simp only [pure, Except.pure, Except.ok.injEq] at h
    exact Or.inl h.symm
  · split at h
    · simp only [pure, Except.pure, Except.ok.injEq] at h
      exact Or.inr (Or.inr h.symm)
    · simp only [pure, Except.pure, Except.ok.injEq] at h
      exact Or.inr (Or.inl h.symm)

theorem emitFromNode_inv (s s1 : State) (self : Nat) (sig : Signal) (hinv : Inv s)
    (h : emitFromNode s self sig = .ok s1) : Inv s1 := by
  rcases emitFromNode_cases s s1 self sig h with rfl | rfl | rfl
  · exact hinv
  · exact Inv_congr s _ rfl rfl rfl rfl rfl hinv
  · exact Inv_emit _ _ (Inv_congr s _ rfl rfl rfl rfl rfl hinv)

theorem blockSignals_inv (s s1 : State) (self : Nat) (b old : Bool) (hinv : Inv s)
    (h : blockSignals s self b = .ok (old, s1)) : Inv s1 := by
  unfold blockSignals at h
  simp only [bind_eq_ok, State.getNode, load_eq_ok, pure, Except.pure, Except.ok.injEq,
    Prod.mk.injEq] at h
  obtain ⟨n, hn, _, rfl⟩ := h
  exact Inv_setNode s self n _ hinv hn (fun _ _ h => h) (fun _ _ h => h)

theorem Inv_grownInlet (s : State) (self : Nat) (n : QDataflowModelNode)
    (io : QDataflowModelIOlet) (hinv : Inv s) (hn : s.nodeHeap[self]? = some n)
    (h1 : io.connections_ = []) (h2 : io.node_ = self) (h3 : io.index_ = n.inlets_.length) :
    Inv { s with
      inletHeap := s.inletHeap ++ [io]
      nodeHeap := s.nodeHeap.set self { n with inlets_ := n.inlets_ ++ [s.inletHeap.length] } } := by
  have hlt : self < s.nodeHeap.length := (List.getElem?_eq_some_iff.mp hn).1
  constructor
  · refine ConnInv_extend s _ (fun _ _ h => h) (fun _ _ h => h)
      (fun p x h => getElem?_append_some _ _ _ _ h) (fun _ _ h => Or.inl h) ?_ rfl hinv.conn
    intro p x hp
    rcases getElem?_append_singleton _ _ _ _ hp with h | ⟨_, rfl⟩
    · exact Or.inl h
    · exact Or.inr h1
  · constructor
    · intro m node hm i q hq
      simp only [List.getElem?_set] at hm
      by_cases e : self = m
      · subst e
        simp only [hlt, if_true] at hm
        have : node = { n with inlets_ := n.inlets_ ++ [s.inletHeap.length] } := by
          simpa using hm.symm
        subst this
        exact hinv.port.outlets self n hn i q hq
      · simp only [e, if_false] at hm
        exact hinv.port.outlets m node hm i q hq
    · intro m node hm i q hq
      simp only [List.getElem?_set] at hm
      by_cases e : self = m
      · subst e
        simp only [hlt, if_true] at hm
        have : node = { n with inlets_ := n.inlets_ ++ [s.inletHeap.length] } := by
          simpa using hm.symm
        subst this
        rcases getElem?_append_singleton _ _ _ _ hq with h | ⟨rfl, rfl⟩
        · exact portKey_append _ _ _ _ (hinv.port.inlets self n hn i q h)
        · simp [portKey, h2, h3]
      · simp only [e, if_false] at hm
        exact portKey_append _ _ _ _ (hinv.port.inlets m node hm i q hq)

theorem Inv_grownOutlet (s : State) (self : Nat) (n : QDataflowModelNode)
    (io : QDataflowModelIOlet) (hinv : Inv s) (hn : s.nodeHeap[self]? = some n)
    (h1 : io.connections_ = []) (h2 : io.node_ = self) (h3 : io.index_ = n.outlets_.length) :
    Inv { s with
      outletHeap := s.outletHeap ++ [io]
      nodeHeap := s.nodeHeap.set self { n with outlets_ := n.outlets_ ++ [s.outletHeap.length] } } := by
  have hlt : self < s.nodeHeap.length := (List.getElem?_eq_some_iff.mp hn).1
  constructor
  · refine ConnInv_extend s _ (fun _ _ h => h) (fun p x h => getElem?_append_some _ _ _ _ h)
      (fun _ _ h => h) ?_ (fun _ _ h => Or.inl h) rfl hinv.conn
    intro p x hp
    rcases getElem?_append_singleton _ _ _ _ hp with h | ⟨_, rfl⟩
    · exact Or.inl h
    · exact Or.inr h1
  · constructor
    · intro m node hm i q hq
      simp only [List.getElem?_set] at hm
      by_cases e : self = m
      · subst e
        simp only [hlt, if_true] at hm
        have : node = { n with outlets_ := n.outlets_ ++ [s.outletHeap.length] } := by
          simpa using hm.symm
        subst this
        rcases getElem?_append_singleton _ _ _ _ hq with h | ⟨rfl, rfl⟩
        · exact portKey_append _ _ _ _ (hinv.port.outlets self n hn i q h)
        · simp [portKey, h2, h3]
      · simp only [e, if_false] at hm
        exact portKey_append _ _ _ _ (hinv.port.outlets m node hm i q hq)
    · intro m node hm i q hq
      simp only [List.getElem?_set] at hm
      by_cases e : self = m
      · subst e
        simp only [hlt, if_true] at hm
        have : node = { n with outlets_ := n.outlets_ ++ [s.outletHeap.length] } := by
          simpa using hm.symm
        subst this
        exact hinv.port.inlets self n hn i q hq
      · simp only [e, if_false] at hm
        exact hinv.port.inlets m node hm i q hq

theorem addInlet_inv (s s1 : State) (self : Nat) (name type : String) (hinv : Inv s)
    (h : addInlet s self name type = .ok s1) : Inv s1 := by
  unfold addInlet addInlet_obj at h
  simp only [bind_eq_ok, State.getNode, load_eq_ok, State.setNode] at h
  obtain ⟨n, hn, n0, hn0, n1, _, h⟩ := h
  have e : n0 = n := by rw [hn] at hn0; exact (Option.some.inj hn0).symm
  subst e
  refine emitFromNode_inv _ s1 self _ ?_ h
  exact Inv_grownInlet s self n0 _ hinv hn rfl rfl rfl

theorem addOutlet_inv (s s1 : State) (self : Nat) (name type : String) (hinv : Inv s)
    (h : addOutlet s self name type = .ok s1) : Inv s1 := by
  unfold addOutlet addOutlet_obj at h
  simp only [bind_eq_ok, State.getNode, load_eq_ok, State.setNode] at h
  obtain ⟨n, hn, n0, hn0, n1, _, h⟩ := h
  have e : n0 = n := by rw [hn] at hn0; exact (Option.some.inj hn0).symm
  subst e
  refine emitFromNode_inv _ s1 self _ ?_ h
  exact Inv_grownOutlet s self n0 _ hinv hn rfl rfl rfl

theorem removeLastInlet_inv (s s1 : State) (self : Nat) (hinv : Inv s)
    (h : removeLastInlet s self = .ok s1) : Inv s1 := by
  unfold removeLastInlet at h
  simp only [bind_eq_ok] at h
  obtain ⟨n, _, h⟩ := h
  split at h
  · simp only [pure, Except.pure, Except.ok.injEq] at h
    exact h ▸ hinv
  · simp only [bind_eq_ok, State.getNode, load_eq_ok] at h
    obtain ⟨io, _, s2, hs2, n1, hn1, n2, _, h⟩ := h
    refine emitFromNode_inv _ s1 self _ ?_ h
    exact Inv_setNode s2 self n1 _ (disconnectEach_inv _ s s2 hinv hs2) hn1
      (fun i q hq => getElem?_dropLast _ _ _ hq) (fun _ _ hq => hq)

theorem removeLastOutlet_inv (s s1 : State) (self : Nat) (hinv : Inv s)
    (h : removeLastOutlet s self = .ok s1) : Inv s1 := by
  unfold removeLastOutlet at h
  simp only [bind_eq_ok] at h
  obtain ⟨n, _, h⟩ := h
  split at h
  · simp only [pure, Except.pure, Except.ok.injEq] at h
    exact h ▸ hinv
  · simp only [bind_eq_ok, State.getNode, load_eq_ok] at h
    obtain ⟨io, _, s2, hs2, n1, hn1, n2, _, h⟩ := h
    refine emitFromNode_inv _ s1 self _ ?_ h
    exact Inv_setNode s2 self n1 _ (disconnectEach_inv _ s s2 hinv hs2) hn1
      (fun _ _ hq => hq) (fun i q hq => getElem?_dropLast _ _ _ hq)

theorem growInlets_inv (fuel : Nat) (s s1 : State) (self : Nat) (count : Int) (hinv : Inv s)
    (h : growInlets fuel s self count = .ok s1) : Inv s1 := by
  induction fuel generalizing s with
  | zero => simp [growInlets] at h
  | succ k ih =>
    simp only [growInlets, bind_eq_ok] at h
    obtain ⟨n, _, h⟩ := h
    split at h
    · simp only [bind_eq_ok] at h
      obtain ⟨s2, h2, h3⟩ := h
      exact ih s2 (addInlet_inv s s2 self _ _ hinv h2) h3
    · simp only [pure, Except.pure, Except.ok.injEq] at h
      exact h ▸ hinv

theorem growOutlets_inv (fuel : Nat) (s s1 : State) (self : Nat) (count : Int) (hinv : Inv s)
    (h : growOutlets fuel s self count = .ok s1) : Inv s1 := by
  induction fuel generalizing s with
  | zero => simp [growOutlets] at h
  | succ k ih =>
    simp only [growOutlets, bind_eq_ok] at h
    obtain ⟨n, _, h⟩ := h
    split at h
    · simp only [bind_eq_ok] at h
      obtain ⟨s2, h2, h3⟩ := h
      exact ih s2 (addOutlet_inv s s2 self _ _ hinv h2) h3
    · simp only [pure, Except.pure, Except.ok.injEq] at h
      exact h ▸ hinv

theorem shrinkInlets_inv (fuel : Nat) (s s1 : State) (self : Nat) (count : Int)
    (hinv : Inv s) (h : shrinkInlets fuel s self count = .ok s1) : Inv s1 := by
  induction fuel generalizing s with
  | zero => simp [shrinkInlets] at h
  | succ k ih =>
    simp only [shrinkInlets, bind_eq_ok] at h
    obtain ⟨n, _, h⟩ := h
    split at h
    · simp only [bind_eq_ok] at h
      obtain ⟨s2, h2, h3⟩ := h
      exact ih s2 (removeLastInlet_inv s s2 self hinv h2) h3
    · simp only [pure, Except.pure, Except.ok.injEq] at h
      exact h ▸ hinv

theorem shrinkOutlets_inv (fuel : Nat) (s s1 : State) (self : Nat) (count : Int)
    (hinv : Inv s) (h : shrinkOutlets fuel s self count = .ok s1) : Inv s1 := by
  induction fuel generalizing s with
  | zero => simp [shrinkOutlets] at h
  | succ k ih =>
    simp only [shrinkOutlets, bind_eq_ok] at h
    obtain ⟨n, _, h⟩ := h
    split at h
    · simp only [bind_eq_ok] at h
      obtain ⟨s2, h2, h3⟩ := h
      exact ih s2 (removeLastOutlet_inv s s2 self hinv h2) h3
    · simp only [pure, Except.pure, Except.ok.injEq] at h
      exact h ▸ hinv

theorem setInletCount_inv (fuel : Nat) (s s1 : State) (self : Nat) (count : Int)
    (hinv : Inv s) (h : setInletCount fuel s self count = .ok s1) : Inv s1 := by
  unfold setInletCount at h
  simp only [bind_eq_ok] at h
  obtain ⟨n, _, h⟩ := h
  split at h
  · simp only [pure, Except.pure, Except.ok.injEq] at h
    exact h ▸ hinv
  · simp only [bind_eq_ok] at h
    obtain ⟨⟨b, s2⟩, h2, s3, h3, s4, h4, ⟨b5, s5⟩, h5, h6⟩ := h
    have i2 := blockSignals_inv s s2 self _ b hinv h2
    have i3 := growInlets_inv fuel s2 s3 self count i2 h3
    have i4 := shrinkInlets_inv fuel s3 s4 self count i3 h4
    have i5 := blockSignals_inv s4 s5 self _ b5 i4 h5
    exact emitFromNode_inv s5 s1 self _ i5 h6

theorem setOutletCount_inv (fuel : Nat) (s s1 : State) (self : Nat) (count : Int)
    (hinv : Inv s) (h : setOutletCount fuel s self count = .ok s1) : Inv s1 := by
  unfold setOutletCount at h
  simp only [bind_eq_ok] at h
  obtain ⟨n, _, h⟩ := h
  split at h
  · simp only [pure, Except.pure, Except.ok.injEq] at h
    exact h ▸ hinv
  · simp only [bind_eq_ok] at h
    obtain ⟨⟨b, s2⟩, h2, s3, h3, s4, h4, ⟨b5, s5⟩, h5, h6⟩ := h
    have i2 := blockSignals_inv s s2 self _ b hinv h2
    have i3 := growOutlets_inv fuel s2 s3 self count i2 h3
    have i4 := shrinkOutlets_inv fuel s3 s4 self count i3 h4
    have i5 := blockSignals_inv s4 s5 self _ b5 i4 h5
    exact emitFromNode_inv s5 s1 self _ i5 h6

theorem addInletsTyped_inv (types : List String) (s s1 : State) (self : Nat) (hinv : Inv s)
    (h : addInletsTyped s self types = .ok s1) : Inv s1 := by
  induction types generalizing s with
  | nil =>
    simp only [addInletsTyped, Except.ok.injEq] at h
    exact h ▸ hinv
  | cons t rest ih =>
    simp only [addInletsTyped, bind_eq_ok] at h
    obtain ⟨s2, h2, h3⟩ := h
    exact ih s2 (addInlet_inv s s2 self _ _ hinv h2) h3

theorem addOutletsTyped_inv (types : List String) (s s1 : State) (self : Nat) (hinv : Inv s)
    (h : addOutletsTyped s self types = .ok s1) : Inv s1 := by
  induction types generalizing s with
  | nil =>
    simp only [addOutletsTyped, Except.ok.injEq] at h
    exact h ▸ hinv
  | cons t rest ih =>
    simp only [addOutletsTyped, bind_eq_ok] at h
    obtain ⟨s2, h2, h3⟩ := h
    exact ih s2 (addOutlet_inv s s2 self _ _ hinv h2) h3

theorem setInletTypes_inv (fuel : Nat) (s s1 : State) (self : Nat) (types : List String)
    (hinv : Inv s) (h : setInletTypes fuel s self types = .ok s1) : Inv s1 := by
  unfold setInletTypes at h
  simp only [bind_eq_ok] at h
  obtain ⟨n, _, ⟨b, s2⟩, h2, s3, h3, s4, h4, ⟨b5, s5⟩, h5, n5, _, h6⟩ := h
  have i2 := blockSignals_inv s s2 self _ b hinv h2
  have i3 := shrinkInlets_inv fuel s2 s3 self 0 i2 h3
  have i4 := addInletsTyped_inv types s3 s4 self i3 h4
  have i5 := blockSignals_inv s4 s5 self _ b5 i4 h5
  split at h6
  · exact emitFromNode_inv s5 s1 self _ i5 h6
  · simp only [pure, Except.pure, Except.ok.injEq] at h6
    exact h6 ▸ i5

theorem setOutletTypes_inv (fuel : Nat) (s s1 : State) (self : Nat) (types : List String)
    (hinv : Inv s) (h : setOutletTypes fuel s self types = .ok s1) : Inv s1 := by
  unfold setOutletTypes at h
  simp only [bind_eq_ok] at h
  obtain ⟨n, _, ⟨b, s2⟩, h2, s3, h3, s4, h4, ⟨b5, s5⟩, h5, n5, _, h6⟩ := h
  have i2 := blockSignals_inv s s2 self _ b hinv h2
  have i3 := shrinkOutlets_inv fuel s2 s3 self 0 i2 h3
  have i4 := addOutletsTyped_inv types s3 s4 self i3 h4
  have i5 := blockSignals_inv s4 s5 self _ b5 i4 h5
  split at h6
  · exact emitFromNode_inv s5 s1 self _ i5 h6
  · simp only [pure, Except.pure, Except.ok.injEq] at h6
    exact h6 ▸ i5

theorem setValid_inv (s s1 : State) (self : Nat) (valid : Bool) (hinv : Inv s)
    (h : setValid s self valid = .ok s1) : Inv s1 := by
  unfold setValid at h
  simp only [bind_eq_ok, State.getNode, load_eq_ok] at h
  obtain ⟨n, hn, h⟩ := h
  split at h
  · simp only [pure, Except.pure, Except.ok.injEq] at h
    exact h ▸ hinv
  · exact emitFromNode_inv _ s1 self _
      (Inv_setNode s self n { n with valid_ := valid } hinv hn (fun _ _ h => h)
        (fun _ _ h => h)) h

theorem setPos_inv (s s1 : State) (self : Nat) (pos : QPoint) (hinv : Inv s)
    (h : setPos s self pos = .ok s1) : Inv s1 := by
  unfold setPos at h
  simp only [bind_eq_ok, State.getNode, load_eq_ok] at h
  obtain ⟨n, hn, h⟩ := h
  split at h
  · simp only [pure, Except.pure, Except.ok.injEq] at h
    exact h ▸ hinv
  · exact emitFromNode_inv _ s1 self _
      (Inv_setNode s self n { n with pos_ := pos } hinv hn (fun _ _ h => h)
        (fun _ _ h => h)) h

theorem setText_inv (s s1 : State) (self : Nat) (text : String) (hinv : Inv s)
    (h : setText s self text = .ok s1) : Inv s1 := by
  unfold setText at h
  simp only [bind_eq_ok, State.getNode, load_eq_ok] at h
  obtain ⟨n, hn, h⟩ := h
  split at h
  · simp only [pure, Except.pure, Except.ok.injEq] at h
    exact h ▸ hinv
  · exact emitFromNode_inv _ s1 self _
      (Inv_setNode s self n { n with text_ := text } hinv hn (fun _ _ h => h)
        (fun _ _ h => h)) h

theorem addInlets_inv (k : Nat) (s s1 : State) (self : Nat) (hinv : Inv s)
    (h : addInlets s self k = .ok s1) : Inv s1 := by
  induction k generalizing s with
  | zero =>
    simp only [addInlets, Except.ok.injEq] at h
    exact h ▸ hinv
  | succ k ih =>
    simp only [addInlets, bind_eq_ok] at h
    obtain ⟨s2, h2, h3⟩ := h
    exact ih s2 (addInlet_inv s s2 self _ _ hinv h2) h3

theorem addOutlets_inv (k : Nat) (s s1 : State) (self : Nat) (hinv : Inv s)
    (h : addOutlets s self k = .ok s1) : Inv s1 := by
  induction k generalizing s with
  | zero =>
    simp only [addOutlets, Except.ok.injEq] at h
    exact h ▸ hinv
  | succ k ih =>
    simp only [addOutlets, bind_eq_ok] at h
    obtain ⟨s2, h2, h3⟩ := h
    exact ih s2 (addOutlet_inv s s2 self _ _ hinv h2) h3

theorem Inv_newNodeObject (s : State) (node : QDataflowModelNode) (hinv : Inv s)
    (hi : node.inlets_ = []) (ho : node.outlets_ = []) :
    Inv { s with nodeHeap := s.nodeHeap ++ [node] } := by
  refine ⟨ConnInv_congr s _ rfl rfl rfl rfl hinv.conn, ?_⟩
  constructor
  · intro m nd hm i q hq
    rcases getElem?_append_singleton _ _ _ _ hm with h | ⟨_, rfl⟩
    · exact hinv.port.outlets m nd h i q hq
    · rw [ho] at hq
      simp at hq
  · intro m nd hm i q hq
    rcases getElem?_append_singleton _ _ _ _ hm with h | ⟨_, rfl⟩
    · exact hinv.port.inlets m nd h i q hq
    · rw [hi] at hq
      simp at hq

theorem create_inv (s s1 : State) (pos : QPoint) (text : String) (ic oc : Int) (node : Nat)
    (hinv : Inv s) (h : create s pos text ic oc = .ok (node, s1)) : Inv s1 := by
  unfold create newNode at h
  simp only [bind_eq_ok, pure, Except.pure, Except.ok.injEq, State.getNode, load_eq_ok,
    Prod.mk.injEq] at h
  obtain ⟨a, ⟨s3, h3, s4, h4, rfl⟩, n, hn, _, rfl⟩ := h
  have i3 := addInlets_inv _ _ s3 _ (Inv_newNodeObject s _ hinv rfl rfl) h3
  have i4 := addOutlets_inv _ s3 s4 _ i3 h4
  have i5 : Inv { s4 with nodes_ := qsetInsert s4.nodes_ s.nodeHeap.length } :=
    Inv_congr s4 _ rfl rfl rfl rfl rfl i4
  exact Inv_emit _ _ (Inv_setNode _ s.nodeHeap.length n { n with relayed := true } i5 hn
    (fun _ _ h => h) (fun _ _ h => h))

theorem removeInletConnections_inv (l : List Nat) (s s1 : State) (hinv : Inv s)
    (h : removeInletConnections s l = .ok s1) : Inv s1 := by
  induction l generalizing s with
  | nil =>
    simp only [removeInletConnections, Except.ok.injEq] at h
    exact h ▸ hinv
  | cons c rest ih =>
    simp only [removeInletConnections, bind_eq_ok] at h
    obtain ⟨io, _, s2, h2, h3⟩ := h
    exact ih s2 (removeEach_inv _ s s2 hinv h2) h3

theorem removeOutletConnections_inv (l : List Nat) (s s1 : State) (hinv : Inv s)
    (h : removeOutletConnections s l = .ok s1) : Inv s1 := by
  induction l generalizing s with
  | nil =>
    simp only [removeOutletConnections, Except.ok.injEq] at h
    exact h ▸ hinv
  | cons c rest ih =>
    simp only [removeOutletConnections, bind_eq_ok] at h
    obtain ⟨io, _, s2, h2, h3⟩ := h
    exact ih s2 (removeEach_inv _ s s2 hinv h2) h3

theorem remove_inv (s s1 : State) (node : Option Nat) (hinv : Inv s)
    (h : remove s node = .ok s1) : Inv s1 := by
  unfold remove at h
  split at h
  · simp only [Except.ok.injEq] at h
    exact h ▸ hinv
  · split at h
    · simp only [bind_eq_ok, pure, Except.pure, Except.ok.injEq, State.getNode,
        load_eq_ok] at h
      obtain ⟨n, _, s2, h2, n2, _, s3, h3, n3, hn3, rfl⟩ := h
      have i2 := removeInletConnections_inv _ s s2 hinv h2
      have i3 := removeOutletConnections_inv _ s2 s3 i2 h3
      have i4 := Inv_setNode s3 _ n3 { n3 with relayed := false } i3 hn3
        (fun _ _ h => h) (fun _ _ h => h)
      refine Inv_emit _ _ ?_
      exact Inv_congr (s3.setNode _ { n3 with relayed := false }) _ rfl rfl rfl rfl rfl i4
    · simp only [Except.ok.injEq] at h
      exact h ▸ hinv

theorem Inv_newConnObject (s : State) (co : QDataflowModelConnection) (hinv : Inv s) :
    Inv (withConn s co) :=
  ⟨ConnInv_extend s _ (fun _ _ h => getElem?_append_some _ _ _ _ h) (fun _ _ h => h)
      (fun _ _ h => h) (fun _ _ h => Or.inl h) (fun _ _ h => Or.inl h) rfl hinv.conn,
   PortInv_congr s _ rfl (fun _ => rfl) (fun _ => rfl) hinv.port⟩

theorem connect_inv (s s1 : State) (sn : Option Nat) (so : Int) (dn : Option Nat) (di : Int)
    (r : Option Nat) (hinv : Inv s) (h : connect s sn so dn di = .ok (r, s1)) : Inv s1 := by
  unfold connect at h
  split at h
  · simp only [bind_eq_ok] at h
    obtain ⟨found, _, h⟩ := h
    split at h
    · simp only [bind_eq_ok, newConnection, pure, Except.pure, Except.ok.injEq,
        Prod.mk.injEq] at h
      obtain ⟨a, ⟨n1, _, n2, _, rfl⟩, s3, h3, _, rfl⟩ := h
      exact addConnection_inv _ s3 _ (Inv_newConnObject s _ hinv) h3
    · simp only [pure, Except.pure, Except.ok.injEq, Prod.mk.injEq] at h
      exact h.2 ▸ hinv
  · simp only [Except.ok.injEq, Prod.mk.injEq] at h
    exact h.2 ▸ hinv

theorem connect_conn_inv (s s1 : State) (conn r : Option Nat) (hinv : Inv s)
    (h : connect_conn s conn = .ok (r, s1)) : Inv s1 := by
  unfold connect_conn at h
  split at h
  · simp only [Except.ok.injEq, Prod.mk.injEq] at h
    exact h.2 ▸ hinv
  · simp only [bind_eq_ok] at h
    obtain ⟨found, _, h⟩ := h
    split at h
    · simp only [bind_eq_ok, pure, Except.pure, Except.ok.injEq, Prod.mk.injEq] at h
      obtain ⟨s2, h2, _, rfl⟩ := h
      exact addConnection_inv s s2 _ hinv h2
    · simp only [pure, Except.pure, Except.ok.injEq, Prod.mk.injEq] at h
      exact h.2 ▸ hinv

theorem Inv_empty : Inv State.empty := by
  refine ⟨⟨List.nodup_nil, ?_, ?_, ?_, ?_⟩, ⟨?_, ?_⟩⟩ <;> simp [State.empty]

theorem map_snd_eq_ok {α : Type} (x : Except Fault (α × State)) (s1 : State)
    (h : x.map Prod.snd = .ok s1) : ∃ a, x = .ok (a, s1) := by
  cases x with
  | error e => simp [Except.map] at h
  | ok v =>
    simp only [Except.map, Except.ok.injEq] at h
    exact ⟨v.1, by rw [← h]⟩

theorem Call.run_inv (c : Call) (fuel : Nat) (s s1 : State) (hinv : Inv s)
    (h : c.run fuel s = .ok s1) : Inv s1 := by
  cases c with
  | create pos text ic oc =>
    obtain ⟨a, ha⟩ := map_snd_eq_ok _ _ h
    exact create_inv s s1 pos text ic oc a hinv ha
  | remove node => exact remove_inv s s1 node hinv h
  | connect sn so dn di =>
    obtain ⟨a, ha⟩ := map_snd_eq_ok _ _ h
    exact connect_inv s s1 sn so dn di a hinv ha
  | connect_conn conn =>
    obtain ⟨a, ha⟩ := map_snd_eq_ok _ _ h
    exact connect_conn_inv s s1 conn a hinv ha
  | disconnect sn so dn di => exact disconnect_inv s s1 sn so dn di hinv h
  | disconnect_conn conn => exact disconnect_conn_inv s s1 conn hinv h
  | setValid self valid => exact setValid_inv s s1 self valid hinv h
  | setPos self pos => exact setPos_inv s s1 self pos hinv h
  | setText self text => exact setText_inv s s1 self text hinv h
  | addInlet self name type => exact addInlet_inv s s1 self name type hinv h
  | addOutlet self name type => exact addOutlet_inv s s1 self name type hinv h
  | removeLastInlet self => exact removeLastInlet_inv s s1 self hinv h
  | removeLastOutlet self => exact removeLastOutlet_inv s s1 self hinv h
  | setInletCount self count => exact setInletCount_inv fuel s s1 self count hinv h
  | setOutletCount self count => exact setOutletCount_inv fuel s s1 self count hinv h
  | setInletTypes self types => exact setInletTypes_inv fuel s s1 self types hinv h
  | setOutletTypes self types => exact setOutletTypes_inv fuel s s1 self types hinv h

theorem Reachable.inv {s : State} (h : Reachable s) : Inv s := by
  induction h with
  | init => exact Inv_empty
  | step c fuel _ hrun ih => exact Call.run_inv c fuel _ _ ih hrun

theorem addConnection_eval (s : State) (c sp dp : Nat) (src dst : QDataflowModelIOlet)
    (hf : findConnections_conn s (some c) = .ok [])
    (hco : s.connHeap[c]? = some { source_ := some sp, dest_ := some dp })
    (hs : s.outletHeap[sp]? = some src) (hd : s.inletHeap[dp]? = some dst) :
    addConnection s (some c)
      = .ok (if canMakeConnectionTo src dst && canAcceptConnectionFrom dst src
          then link s c sp dp src dst else s) := by
  have h1 : s.getConn c = .ok { source_ := some sp, dest_ := some dp } :=
    (load_eq_ok _ _ _).mpr hco
  have h2 : s.getOutlet sp = .ok src := (load_eq_ok _ _ _).mpr hs
  have h3 : s.getInlet dp = .ok dst := (load_eq_ok _ _ _).mpr hd
  have h4 : State.getOutlet { s with connections_ := qsetInsert s.connections_ c } sp
      = .ok src := (load_eq_ok _ _ _).mpr hs
  have h5 : ∀ x, State.getInlet
      (State.setOutlet { s with connections_ := qsetInsert s.connections_ c } sp x) dp
      = .ok dst := fun _ => (load_eq_ok _ _ _).mpr hd
  unfold addConnection
  simp only [hf, h1, h2, h3, bind, Except.bind, deref, List.isEmpty_nil, if_true]
  by_cases hc : canMakeConnectionTo src dst = true ∧ canAcceptConnectionFrom dst src = true
  · simp only [hc.1, hc.2, Bool.not_true, Bool.or_self, Bool.false_eq_true, if_false, h4, h5,
      Bool.and_self, if_true, pure, Except.pure]
    rfl
  · have hc1 : (!canMakeConnectionTo src dst || !canAcceptConnectionFrom dst src) = true := by
      cases h6 : canMakeConnectionTo src dst <;> cases h7 : canAcceptConnectionFrom dst src <;>
        simp_all
    have hc2 : (canMakeConnectionTo src dst && canAcceptConnectionFrom dst src) = false := by
      cases h6 : canMakeConnectionTo src dst <;> cases h7 : canAcceptConnectionFrom dst src <;>
        simp_all
    simp only [hc1, hc2, if_true, Bool.false_eq_true, if_false, pure, Except.pure]

theorem outlet_key (s : State) (hinv : Inv s) (sn : Nat) (so : Int) (n : QDataflowModelNode)
    (sp : Nat) (hn : s.nodeHeap[sn]? = some n) (hsp : n.outlet so = some sp) :
    portKey s.outletHeap sp = some (sn, so) := by
  unfold QDataflowModelNode.outlet at hsp
  split at hsp
  · rename_i hr
    have := hinv.port.outlets sn n hn so.toNat sp hsp
    rwa [Int.toNat_of_nonneg hr.1] at this
  · cases hsp

theorem inlet_key (s : State) (hinv : Inv s) (dn : Nat) (di : Int) (n : QDataflowModelNode)
    (dp : Nat) (hn : s.nodeHeap[dn]? = some n) (hdp : n.inlet di = some dp) :
    portKey s.inletHeap dp = some (dn, di) := by
  unfold QDataflowModelNode.inlet at hdp
  split at hdp
  · rename_i hr
    have := hinv.port.inlets dn n hn di.toNat dp hdp
    rwa [Int.toNat_of_nonneg hr.1] at this
  · cases hdp

theorem portKey_eq (heap : List QDataflowModelIOlet) (p : Nat) (io : QDataflowModelIOlet)
    (k : Nat × Int) (h : heap[p]? = some io) (hk : portKey heap p = some k) :
    io.node_ = k.1 ∧ io.index_ = k.2 := by
  simp only [portKey, h, Option.map_some', Option.some.injEq] at hk
  rw [← hk]
  exact ⟨rfl, rfl⟩

theorem conn_lt (s : State) (hinv : Inv s) (c : Nat) (hc : c ∈ s.connections_) :
    c < s.connHeap.length := by
  obtain ⟨_, _, _, _, h1, _⟩ := hinv.conn.linked c hc
  exact (List.getElem?_eq_some_iff.mp h1).1

theorem endpoints_withConn (s : State) (hinv : Inv s) (co : QDataflowModelConnection)
    (d : Nat) (hd : d ∈ s.connections_) : endpoints (withConn s co) d = endpoints s d := by
  obtain ⟨sp, dp, src, dst, h1, h2, h3, _, _⟩ := hinv.conn.linked d hd
  rw [endpoints_of_linked s d sp dp src dst h1 h2 h3,
    endpoints_of_linked (withConn s co) d sp dp src dst
      (getElem?_append_some _ _ _ _ h1) h2 h3]

theorem free_iff (s : State) (hinv : Inv s) (sn : Nat) (so : Int) (dn : Nat) (di : Int) :
    findConnections s (some sn) so (some dn) di = .ok [] ↔
      ∀ d ∈ s.connections_, endpoints s d ≠ some ((sn, so), (dn, di)) := by
  rw [findConnections_eq s hinv.conn]
  simp only [Except.ok.injEq, List.filter_eq_nil_iff, decide_eq_true_eq]

theorem connect_eval (s : State) (hinv : Inv s) (sn dn : Nat) (so di : Int)
    (n m : QDataflowModelNode) (sp dp : Nat) (src dst : QDataflowModelIOlet)
    (hn : s.nodeHeap[sn]? = some n) (hm : s.nodeHeap[dn]? = some m)
    (hsp : n.outlet so = some sp) (hdp : m.inlet di = some dp)
    (hs : s.outletHeap[sp]? = some src) (hd : s.inletHeap[dp]? = some dst)
    (hfree : findConnections s (some sn) so (some dn) di = .ok []) :
    connect s (some sn) so (some dn) di
      = .ok (some s.connHeap.length,
          if canMakeConnectionTo src dst && canAcceptConnectionFrom dst src
          then link (withConn s { source_ := some sp, dest_ := some dp })
            s.connHeap.length sp dp src dst
          else withConn s { source_ := some sp, dest_ := some dp }) := by
  have hco : (withConn s { source_ := some sp, dest_ := some dp }).connHeap[s.connHeap.length]?
      = some { source_ := some sp, dest_ := some dp } := by
    simp [withConn]
  have hinv1 := Inv_newConnObject s { source_ := some sp, dest_ := some dp } hinv
  have k1 := portKey_eq _ _ _ _ hs (outlet_key s hinv sn so n sp hn hsp)
  have k2 := portKey_eq _ _ _ _ hd (inlet_key s hinv dn di m dp hm hdp)
  have hf : findConnections_conn (withConn s { source_ := some sp, dest_ := some dp })
      (some s.connHeap.length) = .ok [] := by
    rw [findConnections_conn_eq _ hinv1.conn _ sp dp src dst hco hs hd,
      endpoints_of_linked _ _ sp dp src dst hco hs hd]
    simp only [Except.ok.injEq, List.filter_eq_nil_iff, decide_eq_true_eq]
    intro d hdm
    rw [endpoints_withConn s hinv _ d hdm, k1.1, k1.2, k2.1, k2.2]
    exact (free_iff s hinv sn so dn di).mp hfree d hdm
  have h1 : s.getNode sn = .ok n := (load_eq_ok _ _ _).mpr hn
  have h2 : s.getNode dn = .ok m := (load_eq_ok _ _ _).mpr hm
  unfold connect
  simp only [hfree, bind, Except.bind, List.isEmpty_nil, if_true, newConnection, h1, h2, pure,
    Except.pure, hsp, hdp]
  have := addConnection_eval _ _ sp dp src dst hf hco hs hd
  simp only [withConn] at this ⊢
  rw [this]

theorem runCalls_reachable (fuel : Nat) (calls : List Call) (s s1 : State)
    (hs : Reachable s) (h : runCalls fuel s calls = .ok s1) : Reachable s1 := by
  induction calls generalizing s with
  | nil =>
    simp only [runCalls, Except.ok.injEq] at h
    exact h ▸ hs
  | cons c rest ih =>
    simp only [runCalls, bind_eq_ok] at h
    obtain ⟨s2, h2, h3⟩ := h
    exact ih s2 (Reachable.step c fuel hs h2) h3

theorem reachable_stateOf (calls : List Call) : Reachable (stateOf calls) := by
  unfold stateOf
  split
  · rename_i s h
    exact runCalls_reachable 8 calls State.empty s Reachable.init h
  · exact Reachable.init

/-- C1, as stated, fails: in `wildOutlet` the outlet of node 0 has type `"*"`, the inlet
of node 1 has type `"B"`, both nodes are in the graph and no connection joins the two
ports; `connect` adds nothing (the connection set stays empty, no signal is emitted),
although the outlet is the wildcard. -/
theorem wildcard_outlet_alone_is_rejected :
    Reachable wildOutlet ∧ wildOutlet.nodes_ = [0, 1] ∧
    wildOutlet.nodeHeap[0]?.bind (fun n => n.outlet 0) = some 0 ∧
    wildOutlet.outletHeap[0]?.map (fun io => io.type_) = some "*" ∧
    wildOutlet.nodeHeap[1]?.bind (fun n => n.inlet 0) = some 2 ∧
    wildOutlet.inletHeap[2]?.map (fun io => io.type_) = some "B" ∧
    findConnections wildOutlet (some 0) 0 (some 1) 0 = .ok [] ∧
    (connect wildOutlet (some 0) 0 (some 1) 0).map
        (fun r => (r.2.connections_, r.2.emitted)) = .ok ([], wildOutlet.emitted) :=
  ⟨reachable_stateOf _, by decide, by decide, by decide, by decide, by decide, by decide,
    by decide⟩

theorem compat_iff (src dst : QDataflowModelIOlet) :
    (canMakeConnectionTo src dst && canAcceptConnectionFrom dst src) = true ↔
      (dst.type_ = src.type_ ∨ dst.type_ = "*") := by
  unfold canMakeConnectionTo canAcceptConnectionFrom
  by_cases h : dst.type_ = "*"
  · simp [h]
  · simp only [h, if_false, Bool.and_eq_true, decide_eq_true_eq, or_false]
    constructor
    · exact fun h => h.2
    · exact fun h => ⟨h.symm, h⟩

/-- C1, amended: in a reachable model, for an outlet (object `src`) and an inlet
(object `dst`) named by `(sourceNode, sourceOutlet, destNode, destInlet)` and not yet
joined, `connect` returns a fresh connection object `c`, and `c` is added to the
connection set iff the inlet's type equals the outlet's type or the inlet's type is
`"*"`: then the set grows by exactly `c`, otherwise it stays as it was. -/
theorem connect_adds_iff_inlet_accepts (s : State) (hr : Reachable s) (sn dn : Nat)
    (so di : Int) (n m : QDataflowModelNode) (sp dp : Nat) (src dst : QDataflowModelIOlet)
    (hn : s.nodeHeap[sn]? = some n) (hm : s.nodeHeap[dn]? = some m)
    (hsp : n.outlet so = some sp) (hdp : m.inlet di = some dp)
    (hs : s.outletHeap[sp]? = some src) (hd : s.inletHeap[dp]? = some dst)
    (hfree : findConnections s (some sn) so (some dn) di = .ok []) :
    ∃ c s1, connect s (some sn) so (some dn) di = .ok (some c, s1) ∧ c ∉ s.connections_ ∧
      (c ∈ s1.connections_ ↔ (dst.type_ = src.type_ ∨ dst.type_ = "*")) ∧
      ((dst.type_ = src.type_ ∨ dst.type_ = "*") → s1.connections_ = s.connections_ ++ [c]) ∧
      (¬ (dst.type_ = src.type_ ∨ dst.type_ = "*") → s1.connections_ = s.connections_) := by
  have hinv := hr.inv
  have hc : s.connHeap.length ∉ s.connections_ :=
    fun h => Nat.lt_irrefl _ (conn_lt s hinv _ h)
  refine ⟨_, _, connect_eval s hinv sn dn so di n m sp dp src dst hn hm hsp hdp hs hd hfree,
    hc, ?_, ?_, ?_⟩
  · by_cases hcompat : dst.type_ = src.type_ ∨ dst.type_ = "*"
    · simp [(compat_iff src dst).mpr hcompat, hcompat, link, withConn, qsetInsert, hc]
    · have : (canMakeConnectionTo src dst && canAcceptConnectionFrom dst src) = false := by
        simpa using mt (compat_iff src dst).mp hcompat
      simp only [this, Bool.false_eq_true, if_false, withConn, hcompat, iff_false]
      exact hc
  · intro hcompat
    simp [(compat_iff src dst).mpr hcompat, link, withConn, qsetInsert, hc]
  · intro hcompat
    have : (canMakeConnectionTo src dst && canAcceptConnectionFrom dst src) = false := by
      simpa using mt (compat_iff src dst).mp hcompat
    simp only [this, Bool.false_eq_true, if_false, withConn]

/-- Witness for C1 (amended), at `wildOutlet` with the two `"*"` ports the other way
round: outlet 0 of node 1 (type `"*"`) to inlet 0 of node 0 (type `"*"`). -/
theorem connect_adds_iff_inlet_accepts_witness :
    Reachable wildOutlet ∧
    wildOutlet.nodeHeap[1]? = some ⟨false, ⟨100, 0⟩, "gain", [2], [1], false, true⟩ ∧
    wildOutlet.nodeHeap[0]? = some ⟨false, ⟨0, 0⟩, "osc", [0], [0], false, true⟩ ∧
    wildOutlet.outletHeap[1]? = some ⟨[], 1, 0, "", "*"⟩ ∧
    wildOutlet.inletHeap[0]? = some ⟨[], 0, 0, "", "*"⟩ ∧
    findConnections wildOutlet (some 1) 0 (some 0) 0 = .ok [] ∧
    ∃ c s1, connect wildOutlet (some 1) 0 (some 0) 0 = .ok (some c, s1) ∧
      c ∉ wildOutlet.connections_ ∧
      (c ∈ s1.connections_ ↔ ("*" = "*" ∨ "*" = "*")) ∧
      (("*" = "*" ∨ "*" = "*") → s1.connections_ = wildOutlet.connections_ ++ [c]) ∧
      (¬ ("*" = "*" ∨ "*" = "*") → s1.connections_ = wildOutlet.connections_) :=
  ⟨reachable_stateOf _, by decide, by decide, by decide, by decide, by decide,
    connect_adds_iff_inlet_accepts wildOutlet (reachable_stateOf _) 1 0 0 0
      ⟨false, ⟨100, 0⟩, "gain", [2], [1], false, true⟩
      ⟨false, ⟨0, 0⟩, "osc", [0], [0], false, true⟩ 1 0
      ⟨[], 1, 0, "", "*"⟩ ⟨[], 0, 0, "", "*"⟩
      (by decide) (by decide) (by decide) (by decide) (by decide) (by decide) (by decide)⟩

/-- C2 at its failing input: in `mismatched` (outlet of node 0 of type `"A"`, inlet of
node 1 of type `"B"`, no connection) `connect` returns a non-null connection (object 0)
although it adds nothing: the connection set stays empty and no signal is emitted. -/
theorem incompatible_connect_returns_non_null :
    mismatched.outletHeap[2]?.map (fun io => io.type_) = some "A" ∧
    mismatched.inletHeap[2]?.map (fun io => io.type_) = some "B" ∧
    mismatched.nodeHeap[0]?.bind (fun n => n.outlet 0) = some 2 ∧
    mismatched.nodeHeap[1]?.bind (fun n => n.inlet 0) = some 2 ∧
    mismatched.connections_ = [] ∧
    (connect mismatched (some 0) 0 (some 1) 0).map
        (fun r => (r.1, r.2.connections_, r.2.emitted)) = .ok (some 0, [], mismatched.emitted) :=
  ⟨by decide, by decide, by decide, by decide, by decide, by decide⟩

theorem findConnections_after_link (s : State) (hinv : Inv s) (sn dn : Nat) (so di : Int)
    (n m : QDataflowModelNode) (sp dp : Nat) (src dst : QDataflowModelIOlet)
    (hn : s.nodeHeap[sn]? = some n) (hm : s.nodeHeap[dn]? = some m)
    (hsp : n.outlet so = some sp) (hdp : m.inlet di = some dp)
    (hs : s.outletHeap[sp]? = some src) (hd : s.inletHeap[dp]? = some dst)
    (hfree : findConnections s (some sn) so (some dn) di = .ok [])
    (hinv1 : Inv (link (withConn s { source_ := some sp, dest_ := some dp })
      s.connHeap.length sp dp src dst)) :
    findConnections (link (withConn s { source_ := some sp, dest_ := some dp })
      s.connHeap.length sp dp src dst) (some sn) so (some dn) di
      = .ok [s.connHeap.length] := by
  have hco : (withConn s { source_ := some sp, dest_ := some dp }).connHeap[s.connHeap.length]?
      = some { source_ := some sp, dest_ := some dp } := by
    simp [withConn]
  have hc : s.connHeap.length ∉ s.connections_ :=
    fun h => Nat.lt_irrefl _ (conn_lt s hinv _ h)
  have k1 := portKey_eq _ _ _ _ hs (outlet_key s hinv sn so n sp hn hsp)
  have k2 := portKey_eq _ _ _ _ hd (inlet_key s hinv dn di m dp hm hdp)
  rw [findConnections_eq _ hinv1.conn]
  have hconns : (link (withConn s { source_ := some sp, dest_ := some dp })
      s.connHeap.length sp dp src dst).connections_ = s.connections_ ++ [s.connHeap.length] := by
    simp [link, withConn, qsetInsert, hc]
  rw [hconns, List.filter_append]
  have hold : s.connections_.filter (fun c => decide (endpoints (link
      (withConn s { source_ := some sp, dest_ := some dp }) s.connHeap.length sp dp src dst) c
      = some ((sn, so), (dn, di)))) = [] := by
    simp only [List.filter_eq_nil_iff, decide_eq_true_eq]
    intro d hdm
    rw [endpoints_link (withConn s _) _ sp dp src dst hs hd, endpoints_withConn s hinv _ d hdm]
    exact (free_iff s hinv sn so dn di).mp hfree d hdm
  have hnew : endpoints (link (withConn s { source_ := some sp, dest_ := some dp })
      s.connHeap.length sp dp src dst) s.connHeap.length = some ((sn, so), (dn, di)) := by
    rw [endpoints_link (withConn s _) _ sp dp src dst hs hd,
      endpoints_of_linked _ _ sp dp src dst hco hs hd, k1.1, k1.2, k2.1, k2.2]
  rw [hold]
  simp [hnew]

/-- C3: in a reachable model, for an outlet and an inlet named by
`(sourceNode, sourceOutlet, destNode, destInlet)`, of compatible types, when no member
of the connection set has that endpoint quadruple (read from the stored node and index
of its two ports): the first `connect` returns a new connection `c`; the second
`connect` with the same arguments returns null and leaves the whole state (signals
included) as the first call left it; after both calls the connection set is the old
one with `c` added, one longer than at the start, and `c` is its one member with that
endpoint quadruple, which is also what `findConnections` reports for the pair. -/
theorem connect_twice_yields_one_connection (s : State) (hr : Reachable s) (sn dn : Nat)
    (so di : Int) (n m : QDataflowModelNode) (sp dp : Nat) (src dst : QDataflowModelIOlet)
    (hn : s.nodeHeap[sn]? = some n) (hm : s.nodeHeap[dn]? = some m)
    (hsp : n.outlet so = some sp) (hdp : m.inlet di = some dp)
    (hs : s.outletHeap[sp]? = some src) (hd : s.inletHeap[dp]? = some dst)
    (hcompat : canMakeConnectionTo src dst = true ∧ canAcceptConnectionFrom dst src = true)
    (hnone : ∀ d ∈ s.connections_, endpoints s d ≠ some ((sn, so), (dn, di))) :
    ∃ c s1, connect s (some sn) so (some dn) di = .ok (some c, s1) ∧
      connect s1 (some sn) so (some dn) di = .ok (none, s1) ∧
      c ∉ s.connections_ ∧
      s1.connections_ = s.connections_ ++ [c] ∧
      s1.connections_.length = s.connections_.length + 1 ∧
      s1.connections_.count c = 1 ∧
      (∀ d, d ∈ s1.connections_ ∧ endpoints s1 d = some ((sn, so), (dn, di)) ↔ d = c) ∧
      findConnections s1 (some sn) so (some dn) di = .ok [c] := by
  have hinv := hr.inv
  have hfree : findConnections s (some sn) so (some dn) di = .ok [] :=
    (free_iff s hinv sn so dn di).mpr hnone
  have hc : s.connHeap.length ∉ s.connections_ :=
    fun h => Nat.lt_irrefl _ (conn_lt s hinv _ h)
  have h1 := connect_eval s hinv sn dn so di n m sp dp src dst hn hm hsp hdp hs hd hfree
  simp only [hcompat.1, hcompat.2, Bool.and_self, if_true] at h1
  have hinv1 := connect_inv s _ _ _ _ _ _ hinv h1
  have hfind := findConnections_after_link s hinv sn dn so di n m sp dp src dst hn hm hsp hdp
    hs hd hfree hinv1
  have hfilter := findConnections_eq _ hinv1.conn sn so dn di
  rw [hfind] at hfilter
  simp only [Except.ok.injEq] at hfilter
  refine ⟨_, _, h1, ?_, hc, ?_, ?_, ?_, ?_, hfind⟩
  · unfold connect
    simp only [hfind, bind, Except.bind, List.isEmpty_cons, Bool.false_eq_true, if_false, pure,
      Except.pure]
  · simp [link, withConn, qsetInsert, hc]
  · simp [link, withConn, qsetInsert, hc]
  · simp [link, withConn, qsetInsert, hc, List.count_append, List.count_eq_zero_of_not_mem hc]
  · intro d
    have hmem : d ∈ [s.connHeap.length] ↔ d ∈ List.filter
        (fun c => decide (endpoints (link (withConn s { source_ := some sp, dest_ := some dp })
          s.connHeap.length sp dp src dst) c = some ((sn, so), (dn, di))))
        (link (withConn s { source_ := some sp, dest_ := some dp })
          s.connHeap.length sp dp src dst).connections_ := by
      rw [← hfilter]
    rw [List.mem_filter, List.mem_singleton, decide_eq_true_eq] at hmem
    exact hmem.symm

/-- Witness for C3, at `patched`, which already holds the connection from "osc" to
"gain": the outlet of "gain" is connected to the inlet of "osc", which gives `crossed`,
and the second call changes nothing. -/
theorem connect_twice_yields_one_connection_witness :
    Reachable patched ∧
    patched.nodeHeap[1]? = some ⟨false, ⟨100, 0⟩, "gain", [1], [1], false, true⟩ ∧
    patched.nodeHeap[0]? = some ⟨false, ⟨0, 0⟩, "osc", [0], [0], false, true⟩ ∧
    patched.outletHeap[1]? = some ⟨[], 1, 0, "", "*"⟩ ∧
    patched.inletHeap[0]? = some ⟨[], 0, 0, "", "*"⟩ ∧
    patched.connections_ = [0] ∧ endpoints patched 0 = some ((0, 0), (1, 0)) ∧
    connect patched (some 1) 0 (some 0) 0 = .ok (some 1, crossed) ∧
    connect crossed (some 1) 0 (some 0) 0 = .ok (none, crossed) ∧
    crossed.connections_ = [0, 1] ∧
    ∃ c s1, connect patched (some 1) 0 (some 0) 0 = .ok (some c, s1) ∧
      connect s1 (some 1) 0 (some 0) 0 = .ok (none, s1) ∧
      c ∉ patched.connections_ ∧
      s1.connections_ = patched.connections_ ++ [c] ∧
      s1.connections_.length = patched.connections_.length + 1 ∧
      s1.connections_.count c = 1 ∧
      (∀ d, d ∈ s1.connections_ ∧ endpoints s1 d = some ((1, 0), (0, 0)) ↔ d = c) ∧
      findConnections s1 (some 1) 0 (some 0) 0 = .ok [c] :=
  ⟨reachable_stateOf _, by decide, by decide, by decide, by decide, by decide, by decide,
    by decide, by decide, by decide,
    connect_twice_yields_one_connection patched (reachable_stateOf _) 1 0 0 0
      ⟨false, ⟨100, 0⟩, "gain", [1], [1], false, true⟩
      ⟨false, ⟨0, 0⟩, "osc", [0], [0], false, true⟩ 1 0
      ⟨[], 1, 0, "", "*"⟩ ⟨[], 0, 0, "", "*"⟩
      (by decide) (by decide) (by decide) (by decide) (by decide) (by decide)
      (by decide)
      (by
        intro d hd
        have h0 : patched.connections_ = [0] := by decide
        rw [h0] at hd
        simp only [List.mem_singleton] at hd
        subst hd
        decide)⟩

/-- C4 at its failing input: in `staleLink` node 0 is in the node set and connection 0
runs from an outlet object of node 0 (index 0) that is no longer in the node's outlet
list; `remove(node 0)` takes the node out of the node set but leaves connection 0 in the
connection set and in the list of the inlet of node 1, and `findConnections` still
reports it for the pair. -/
theorem remove_leaves_connection_of_dropped_port :
    Reachable staleLink ∧ staleLink.nodes_ = [0, 1] ∧
    (remove staleLink (some 0)).map (fun s => (s.nodes_, s.connections_))
      = .ok ([1], [0]) ∧
    (remove staleLink (some 0)).map (fun s => endpoints s 0)
      = .ok (some ((0, 0), (1, 0))) ∧
    (remove staleLink (some 0)).map
        (fun s => s.inletHeap[0]?.map (fun io => (io.node_, io.connections_)))
      = .ok (some (1, [0])) ∧
    (remove staleLink (some 0) >>= fun s => findConnections s (some 0) 0 (some 1) 0)
      = .ok [0] :=
  ⟨reachable_stateOf _, by decide, by decide, by decide, by decide, by decide⟩

/-- C5: in every reachable state the three views of the connections agree. -/
theorem three_views_agree (s : State) (hr : Reachable s) : ThreeViewsAgree s := by
  have hinv := hr.inv.conn
  refine ⟨?_, ?_, hinv.outletLists, hinv.inletLists⟩
  · intro c sp dp src dst hco hs hd
    constructor
    · intro hc
      obtain ⟨sp1, dp1, src1, dst1, h1, h2, h3, h4, h5⟩ := hinv.linked c hc
      rw [hco] at h1
      simp only [Option.some.injEq, QDataflowModelConnection.mk.injEq] at h1
      obtain ⟨rfl, rfl⟩ := h1
      rw [hs] at h2
      rw [hd] at h3
      cases h2
      cases h3
      exact ⟨h4, h5⟩
    · intro h
      have hm : c ∈ src.connections_ := by
        apply List.count_pos_iff.mp
        omega
      exact (hinv.outletLists sp src hs c hm).1
  · intro c hc
    obtain ⟨sp, dp, src, dst, h1, h2, h3, _, _⟩ := hinv.linked c hc
    exact ⟨sp, dp, src, dst, h1, h2, h3⟩

/-- Witness for C5, at `patched`. -/
theorem three_views_agree_witness : Reachable patched ∧ ThreeViewsAgree patched :=
  ⟨reachable_stateOf _, three_views_agree patched (reachable_stateOf _)⟩

/-- C6 at its failing input: in `orphaned` the connection set holds connection 0, whose
source is outlet 0 of node 0, and node 0 is not in the node set. -/
theorem connect_accepts_removed_node :
    Reachable orphaned ∧ orphaned.nodes_ = [1] ∧ orphaned.connections_ = [0] ∧
    endpoints orphaned 0 = some ((0, 0), (1, 0)) ∧
    orphaned.emitted
      = [.nodeAdded 0, .nodeAdded 1, .nodeRemoved 0, .connectionAdded 0] :=
  ⟨reachable_stateOf _, by decide, by decide, by decide, by decide⟩

/-- C7: in every reachable state two distinct members of the connection set have
endpoint quadruples (source node, source outlet index, destination node, destination
inlet index), and the two quadruples differ. -/
theorem no_two_connections_share_endpoints (s : State) (hr : Reachable s) (c1 c2 : Nat)
    (h1 : c1 ∈ s.connections_) (h2 : c2 ∈ s.connections_) (hne : c1 ≠ c2) :
    ∃ q1 q2, endpoints s c1 = some q1 ∧ endpoints s c2 = some q2 ∧ q1 ≠ q2 := by
  have hinv := hr.inv.conn
  obtain ⟨sp1, dp1, src1, dst1, a1, a2, a3, _, _⟩ := hinv.linked c1 h1
  obtain ⟨sp2, dp2, src2, dst2, b1, b2, b3, _, _⟩ := hinv.linked c2 h2
  have e1 := endpoints_of_linked s c1 sp1 dp1 src1 dst1 a1 a2 a3
  have e2 := endpoints_of_linked s c2 sp2 dp2 src2 dst2 b1 b2 b3
  refine ⟨_, _, e1, e2, ?_⟩
  intro h
  apply hne
  apply hinv.unique c1 h1 c2 h2
  rw [e1, e2, h]

/-- C8 at its failing input: in `patch` node 0 has one outlet and node 1 one inlet;
`connect` with outlet index 1, with outlet index -1 or with inlet index 5 builds a
connection with a null port and calls a member function through that null pointer. -/
theorem connect_out_of_range_goes_through_null :
    patch.nodeHeap[0]?.map (fun n => n.outletCount) = some 1 ∧
    patch.nodeHeap[1]?.map (fun n => n.inletCount) = some 1 ∧
    connect patch (some 0) 1 (some 1) 0 = .error .nullPointer ∧
    connect patch (some 0) (-1) (some 1) 0 = .error .nullPointer ∧
    connect patch (some 0) 0 (some 1) 5 = .error .nullPointer :=
  ⟨by decide, by decide, by decide, by decide, by decide⟩

/-- Witness for C7, at `crossed`, for its two connections. -/
theorem no_two_connections_share_endpoints_witness :
    Reachable crossed ∧ 0 ∈ crossed.connections_ ∧ 1 ∈ crossed.connections_ ∧ 0 ≠ 1 ∧
    ∃ q1 q2, endpoints crossed 0 = some q1 ∧ endpoints crossed 1 = some q2 ∧ q1 ≠ q2 :=
  ⟨reachable_stateOf _, by decide, by decide, by decide,
    no_two_connections_share_endpoints crossed (reachable_stateOf _) 0 1
      (by decide) (by decide) (by decide)⟩

/-- C9: in a reachable model, when `connect` fails because a node is null, because
`findConnections` already reports a connection for the pair, or because the named ports
exist, are not yet joined and one of the two compatibility checks says no, the call
returns and leaves the node set, the connection set, every node object, every outlet and
inlet object (so every port's connection list) and the emitted signals as they were. -/
theorem failed_connect_changes_nothing (s : State) (hr : Reachable s)
    (sourceNode destNode : Option Nat) (so di : Int)
    (hfail : sourceNode = none ∨ destNode = none ∨
      (∃ l, findConnections s sourceNode so destNode di = .ok l ∧ l ≠ []) ∨
      (∃ (sn dn : Nat) (n m : QDataflowModelNode) (sp dp : Nat)
          (src dst : QDataflowModelIOlet),
        sourceNode = some sn ∧ destNode = some dn ∧
        s.nodeHeap[sn]? = some n ∧ s.nodeHeap[dn]? = some m ∧
        n.outlet so = some sp ∧ m.inlet di = some dp ∧
        s.outletHeap[sp]? = some src ∧ s.inletHeap[dp]? = some dst ∧
        findConnections s sourceNode so destNode di = .ok [] ∧
        (canMakeConnectionTo src dst = false ∨ canAcceptConnectionFrom dst src = false))) :
    ∃ r s1, connect s sourceNode so destNode di = .ok (r, s1) ∧
      s1.nodes_ = s.nodes_ ∧ s1.connections_ = s.connections_ ∧ s1.nodeHeap = s.nodeHeap ∧
      s1.outletHeap = s.outletHeap ∧ s1.inletHeap = s.inletHeap ∧ s1.emitted = s.emitted := by
  rcases hfail with rfl | rfl | ⟨l, hl, hne⟩ | ⟨sn, dn, n, m, sp, dp, src, dst, rfl, rfl, hn, hm,
    hsp, hdp, hs, hd, hfree, hno⟩
  · exact ⟨none, s, by simp [connect], rfl, rfl, rfl, rfl, rfl, rfl⟩
  · refine ⟨none, s, ?_, rfl, rfl, rfl, rfl, rfl, rfl⟩
    cases sourceNode <;> simp [connect]
  · refine ⟨none, s, ?_, rfl, rfl, rfl, rfl, rfl, rfl⟩
    cases sourceNode with
    | none => simp [findConnections] at hl; exact absurd hl hne
    | some sn =>
      cases destNode with
      | none => simp [findConnections] at hl; exact absurd hl hne
      | some dn =>
        have hl1 : l.isEmpty = false := by
          cases l with
          | nil => exact absurd rfl hne
          | cons a t => rfl
        unfold connect
        simp only [hl, bind, Except.bind, hl1, Bool.false_eq_true, if_false, pure, Except.pure]
  · have h1 := connect_eval s hr.inv sn dn so di n m sp dp src dst hn hm hsp hdp hs hd hfree
    have h2 : (canMakeConnectionTo src dst && canAcceptConnectionFrom dst src) = false := by
      rcases hno with h | h <;> simp [h]
    simp only [h2, Bool.false_eq_true, if_false] at h1
    exact ⟨_, _, h1, rfl, rfl, rfl, rfl, rfl, rfl⟩

/-- Witness for C9, at `mismatched`: an `"A"` outlet to a `"B"` inlet. -/
theorem failed_connect_changes_nothing_witness :
    Reachable mismatched ∧
    (mismatched.nodeHeap[0]? = some ⟨false, ⟨0, 0⟩, "osc", [0], [2], false, true⟩ ∧
      mismatched.nodeHeap[1]? = some ⟨false, ⟨100, 0⟩, "gain", [2], [1], false, true⟩ ∧
      mismatched.outletHeap[2]? = some ⟨[], 0, 0, "", "A"⟩ ∧
      mismatched.inletHeap[2]? = some ⟨[], 1, 0, "", "B"⟩ ∧
      findConnections mismatched (some 0) 0 (some 1) 0 = .ok [] ∧
      canMakeConnectionTo ⟨[], 0, 0, "", "A"⟩ ⟨[], 1, 0, "", "B"⟩ = false) ∧
    ∃ r s1, connect mismatched (some 0) 0 (some 1) 0 = .ok (r, s1) ∧
      s1.nodes_ = mismatched.nodes_ ∧ s1.connections_ = mismatched.connections_ ∧
      s1.nodeHeap = mismatched.nodeHeap ∧ s1.outletHeap = mismatched.outletHeap ∧
      s1.inletHeap = mismatched.inletHeap ∧ s1.emitted = mismatched.emitted :=
  ⟨reachable_stateOf _,
    ⟨by decide, by decide, by decide, by decide, by decide, by decide⟩,
    failed_connect_changes_nothing mismatched (reachable_stateOf _) (some 0) (some 1) 0 0
      (Or.inr (Or.inr (Or.inr ⟨0, 1, ⟨false, ⟨0, 0⟩, "osc", [0], [2], false, true⟩,
        ⟨false, ⟨100, 0⟩, "gain", [2], [1], false, true⟩, 2, 2,
        ⟨[], 0, 0, "", "A"⟩, ⟨[], 1, 0, "", "B"⟩, rfl, rfl, by decide, by decide, by decide,
        by decide, by decide, by decide, by decide, Or.inl (by decide)⟩)))⟩

theorem getElem?_set_ne {α : Type} (l : List α) (p q : Nat) (a : α) (h : q ≠ p) :
    (l.set p a)[q]? = l[q]? := by
  rw [List.getElem?_set]
  simp [Ne.symm h]

/-- C10: in a reachable model, when `connect` returns a connection `c` that is in the
connection set afterwards, then `c` is a new connection object from the outlet `sp`
and to the inlet `dp` that the arguments name; the connection set is the old one with
`c` added; `c` became the last entry of the lists of `sp` and of `dp`, whose other
members are unchanged; exactly the signal `connectionAdded(c)` was emitted; and the
node set, the node objects, the other connection objects and all other port objects
are as before. -/
theorem successful_connect_effect (s : State) (hr : Reachable s) (sn dn : Nat) (so di : Int)
    (c : Nat) (s1 : State)
    (hrun : connect s (some sn) so (some dn) di = .ok (some c, s1))
    (hadd : c ∈ s1.connections_) :
    ∃ (n m : QDataflowModelNode) (sp dp : Nat) (src dst : QDataflowModelIOlet),
      s.nodeHeap[sn]? = some n ∧ s.nodeHeap[dn]? = some m ∧
      n.outlet so = some sp ∧ m.inlet di = some dp ∧
      s.outletHeap[sp]? = some src ∧ s.inletHeap[dp]? = some dst ∧
      c ∉ s.connections_ ∧ s.connHeap[c]? = none ∧
      s1.connHeap[c]? = some { source_ := some sp, dest_ := some dp } ∧
      s1.connections_ = s.connections_ ++ [c] ∧
      s1.outletHeap[sp]? = some { src with connections_ := src.connections_ ++ [c] } ∧
      s1.inletHeap[dp]? = some { dst with connections_ := dst.connections_ ++ [c] } ∧
      s1.emitted = s.emitted ++ [.connectionAdded c] ∧
      s1.nodes_ = s.nodes_ ∧ s1.nodeHeap = s.nodeHeap ∧
      (∀ d, d ≠ c → s1.connHeap[d]? = s.connHeap[d]?) ∧
      (∀ q, q ≠ sp → s1.outletHeap[q]? = s.outletHeap[q]?) ∧
      (∀ q, q ≠ dp → s1.inletHeap[q]? = s.inletHeap[q]?) := by
  have hinv := hr.inv
  have hc : s.connHeap.length ∉ s.connections_ :=
    fun h => Nat.lt_irrefl _ (conn_lt s hinv _ h)
  unfold connect at hrun
  simp only [bind_eq_ok] at hrun
  obtain ⟨found, _, hrun⟩ := hrun
  split at hrun
  · simp only [bind_eq_ok, newConnection, pure, Except.pure, Except.ok.injEq, Prod.mk.injEq,
      State.getNode, load_eq_ok, Option.some.injEq] at hrun
    obtain ⟨a, ⟨n, hn, m, hm, rfl⟩, s2, h2, rfl, rfl⟩ := hrun
    simp only at h2 hadd ⊢
    rcases addConnection_cases _ _ _ h2 with rfl | ⟨sp, dp, src, dst, _, hco, hs, hd, _, _, rfl⟩
    · exact absurd hadd hc
    · have hco1 : (s.connHeap ++ [{ source_ := n.outlet so, dest_ := m.inlet di }])[
          s.connHeap.length]? = some { source_ := n.outlet so, dest_ := m.inlet di } := by
        simp
      simp only at hco hs hd
      rw [hco1] at hco
      simp only [Option.some.injEq, QDataflowModelConnection.mk.injEq] at hco
      have hsl : sp < s.outletHeap.length := (List.getElem?_eq_some_iff.mp hs).1
      have hdl : dp < s.inletHeap.length := (List.getElem?_eq_some_iff.mp hd).1
      refine ⟨n, m, sp, dp, src, dst, hn, hm, hco.1, hco.2, hs, hd, hc, ?_, ?_, ?_, ?_, ?_, rfl,
        rfl, rfl, ?_, ?_, ?_⟩
      · exact List.getElem?_eq_none (Nat.le_refl _)
      · simp [link, hco.1, hco.2]
      · simp [link, qsetInsert, hc]
      · simp [link, List.getElem?_set, hsl, QDataflowModelIOlet.addConnection]
      · simp [link, List.getElem?_set, hdl, QDataflowModelIOlet.addConnection]
      · intro d hd1
        simp only [link]
        by_cases hlt : d < s.connHeap.length
        · rw [List.getElem?_append_left hlt]
        · have hgt : s.connHeap.length < d := by omega
          rw [List.getElem?_eq_none (by simp; omega), List.getElem?_eq_none (by omega)]
      · intro q hq
        simp only [link]
        exact getElem?_set_ne _ _ _ _ hq
      · intro q hq
        simp only [link]
        exact getElem?_set_ne _ _ _ _ hq
  · simp only [pure, Except.pure, Except.ok.injEq, Prod.mk.injEq] at hrun
    exact absurd hrun.1 (by simp)

/-- Witness for C10, at `patch`: the first connection, from the outlet of "osc" to the
inlet of "gain". -/
theorem successful_connect_effect_witness :
    Reachable patch ∧
    connect patch (some 0) 0 (some 1) 0 = .ok (some 0, patched) ∧ 0 ∈ patched.connections_ ∧
    ∃ (n m : QDataflowModelNode) (sp dp : Nat) (src dst : QDataflowModelIOlet),
      patch.nodeHeap[0]? = some n ∧ patch.nodeHeap[1]? = some m ∧
      n.outlet 0 = some sp ∧ m.inlet 0 = some dp ∧
      patch.outletHeap[sp]? = some src ∧ patch.inletHeap[dp]? = some dst ∧
      0 ∉ patch.connections_ ∧ patch.connHeap[0]? = none ∧
      patched.connHeap[0]? = some { source_ := some sp, dest_ := some dp } ∧
      patched.connections_ = patch.connections_ ++ [0] ∧
      patched.outletHeap[sp]? = some { src with connections_ := src.connections_ ++ [0] } ∧
      patched.inletHeap[dp]? = some { dst with connections_ := dst.connections_ ++ [0] } ∧
      patched.emitted = patch.emitted ++ [.connectionAdded 0] ∧
      patched.nodes_ = patch.nodes_ ∧ patched.nodeHeap = patch.nodeHeap ∧
      (∀ d, d ≠ 0 → patched.connHeap[d]? = patch.connHeap[d]?) ∧
      (∀ q, q ≠ sp → patched.outletHeap[q]? = patch.outletHeap[q]?) ∧
      (∀ q, q ≠ dp → patched.inletHeap[q]? = patch.inletHeap[q]?) :=
  ⟨reachable_stateOf _, by decide, by decide,
    successful_connect_effect patch (reachable_stateOf _) 0 1 0 0 0 patched
      (by decide) (by decide)⟩

/-- C11 at its failing input: in `detached` node 0 is not in the node set (it was
removed) and there is no connection; `connect` with node 0 as the source returns a
connection, puts it into the connection set and into the list of the inlet of node 1,
and the model emits `connectionAdded`. -/
theorem connect_with_removed_node_is_not_a_no_op :
    Reachable detached ∧ detached.nodes_ = [1] ∧ detached.connections_ = [] ∧
    detached.inletHeap[0]?.map (fun io => io.connections_) = some [] ∧
    (connect detached (some 0) 0 (some 1) 0).map (fun r => (r.1, r.2.connections_))
      = .ok (some 0, [0]) ∧
    (connect detached (some 0) 0 (some 1) 0).map
        (fun r => r.2.inletHeap[0]?.map (fun io => io.connections_)) = .ok (some [0]) ∧
    (connect detached (some 0) 0 (some 1) 0).map (fun r => r.2.emitted)
      = .ok (detached.emitted ++ [.connectionAdded 0]) :=
  ⟨reachable_stateOf _, by decide, by decide, by decide, by decide, by decide, by decide⟩

/-- C12 at its failing input: in `staleLink` node 0 is in the node set and connection 0
has its source on an outlet object of node 0; `remove(node 0)` emits `nodeRemoved` and
nothing else (no `connectionRemoved` for connection 0), and at that moment connection 0
is still in the connection set, with its source on node 0, which has left the node
set. -/
theorem remove_announces_node_while_connection_remains :
    Reachable staleLink ∧ staleLink.nodes_ = [0, 1] ∧ staleLink.connections_ = [0] ∧
    endpoints staleLink 0 = some ((0, 0), (1, 0)) ∧
    (remove staleLink (some 0)).map (fun s => s.emitted)
      = .ok (staleLink.emitted ++ [.nodeRemoved 0]) ∧
    (remove staleLink (some 0)).map (fun s => (s.nodes_, s.connections_))
      = .ok ([1], [0]) ∧
    (remove staleLink (some 0)).map (fun s => endpoints s 0)
      = .ok (some ((0, 0), (1, 0))) :=
  ⟨reachable_stateOf _, by decide, by decide, by decide, by decide, by decide, by decide⟩

/-- C13: the end-to-end scenario: `connect` returns a connection, the nodes are "osc"
at (0,0) and "gain" at (100,0), all four ports have type `"*"`, the model then has 2
nodes and 1 connection, and after `remove` of the first node 1 node and 0 connections. -/
theorem end_to_end_scenario :
    endToEnd
      = .ok (true, [("osc", 0, 0), ("gain", 100, 0)], ["*", "*", "*", "*"], 2, 1, 1, 0) := by
  rfl

theorem compat_of_ident (src dst src1 dst1 : QDataflowModelIOlet)
    (h1 : portIdent src1 = portIdent src) (h2 : portIdent dst1 = portIdent dst) :
    canMakeConnectionTo src1 dst1 = canMakeConnectionTo src dst ∧
    canAcceptConnectionFrom dst1 src1 = canAcceptConnectionFrom dst src := by
  simp only [portIdent, Prod.mk.injEq] at h1 h2
  simp [canMakeConnectionTo, canAcceptConnectionFrom, h1.2.2.2, h2.2.2.2]

theorem Grows.grows_refl (s : State) : Grows s s :=
  ⟨fun _ _ h => h, fun _ io h => ⟨io, h, rfl⟩, fun _ io h => ⟨io, h, rfl⟩,
    fun _ h => Or.inl h⟩

theorem Checked.mono {s s1 : State} (h : Grows s s1) {c : Nat} (hc : Checked s c) :
    Checked s1 c := by
  obtain ⟨sp, dp, src, dst, h1, h2, h3, h4, h5⟩ := hc
  obtain ⟨src1, a1, a2⟩ := h.outlets sp src h2
  obtain ⟨dst1, b1, b2⟩ := h.inlets dp dst h3
  have := compat_of_ident src dst src1 dst1 a2 b2
  exact ⟨sp, dp, src1, dst1, h.conns _ _ h1, a1, b1, this.1.trans h4, this.2.trans h5⟩

theorem Grows.grows_trans {s s1 s2 : State} (h1 : Grows s s1) (h2 : Grows s1 s2) : Grows s s2 := by
  constructor
  · exact fun c co h => h2.conns c co (h1.conns c co h)
  · intro p io h
    obtain ⟨io1, a1, a2⟩ := h1.outlets p io h
    obtain ⟨io2, b1, b2⟩ := h2.outlets p io1 a1
    exact ⟨io2, b1, b2.trans a2⟩
  · intro p io h
    obtain ⟨io1, a1, a2⟩ := h1.inlets p io h
    obtain ⟨io2, b1, b2⟩ := h2.inlets p io1 a1
    exact ⟨io2, b1, b2.trans a2⟩
  · intro c hc
    rcases h2.checked c hc with h | h
    · rcases h1.checked c h with h | h
      · exact Or.inl h
      · exact Or.inr (Checked.mono h2 h)
    · exact Or.inr h

theorem NodesKept.kept_refl (s : State) : NodesKept s s :=
  ⟨rfl, rfl, fun _ nd h => ⟨nd, h, rfl, rfl⟩⟩

theorem NodesKept.kept_trans {s s1 s2 : State} (h1 : NodesKept s s1) (h2 : NodesKept s1 s2) :
    NodesKept s s2 := by
  refine ⟨h2.nodes.trans h1.nodes, h2.length.trans h1.length, ?_⟩
  intro n nd h
  obtain ⟨nd1, a1, a2, a3⟩ := h1.flags n nd h
  obtain ⟨nd2, b1, b2, b3⟩ := h2.flags n nd1 a1
  exact ⟨nd2, b1, b2.trans a2, b3.trans a3⟩

theorem Frame.frame_refl (s : State) : Frame s s := ⟨Grows.grows_refl s, NodesKept.kept_refl s⟩

theorem Frame.frame_trans {s s1 s2 : State} (h1 : Frame s s1) (h2 : Frame s1 s2) : Frame s s2 :=
  ⟨h1.grows.grows_trans h2.grows, h1.kept.kept_trans h2.kept⟩

theorem Grows_of_eq (s s1 : State) (h2 : s1.inletHeap = s.inletHeap)
    (h3 : s1.outletHeap = s.outletHeap) (h4 : s1.connHeap = s.connHeap)
    (h5 : s1.connections_ = s.connections_) : Grows s s1 :=
  ⟨fun _ _ h => h4 ▸ h, fun _ io h => ⟨io, h3 ▸ h, rfl⟩, fun _ io h => ⟨io, h2 ▸ h, rfl⟩,
    fun _ h => Or.inl (h5 ▸ h)⟩

theorem NodesKept_of_eq (s s1 : State) (h1 : s1.nodeHeap = s.nodeHeap)
    (h2 : s1.nodes_ = s.nodes_) : NodesKept s s1 :=
  ⟨h2, by rw [h1], fun _ nd h => ⟨nd, h1 ▸ h, rfl, rfl⟩⟩

theorem NodesKept_setNode (s : State) (p : Nat) (n n1 : QDataflowModelNode)
    (hn : s.nodeHeap[p]? = some n) (h1 : n1.relayed = n.relayed)
    (h2 : n1.signalsBlocked = n.signalsBlocked) : NodesKept s (s.setNode p n1) := by
  have hlt : p < s.nodeHeap.length := (List.getElem?_eq_some_iff.mp hn).1
  refine ⟨rfl, by simp [State.setNode], ?_⟩
  intro m nd hm
  by_cases e : p = m
  · subst e
    rw [hn] at hm
    cases hm
    exact ⟨n1, by simp [State.setNode, List.getElem?_set, hlt], h1, h2⟩
  · exact ⟨nd, by simpa [State.setNode, List.getElem?_set, e] using hm, rfl, rfl⟩

theorem Frame_setNode (s : State) (p : Nat) (n n1 : QDataflowModelNode)
    (hn : s.nodeHeap[p]? = some n) (h1 : n1.relayed = n.relayed)
    (h2 : n1.signalsBlocked = n.signalsBlocked) : Frame s (s.setNode p n1) :=
  ⟨Grows_of_eq _ _ rfl rfl rfl rfl, NodesKept_setNode s p n n1 hn h1 h2⟩

theorem ident_set (heap : List QDataflowModelIOlet) (p : Nat) (io io1 : QDataflowModelIOlet)
    (h : heap[p]? = some io) (hi : portIdent io1 = portIdent io) (q : Nat)
    (x : QDataflowModelIOlet) (hq : heap[q]? = some x) :
    ∃ x1, (heap.set p io1)[q]? = some x1 ∧ portIdent x1 = portIdent x := by
  have hlt : p < heap.length := (List.getElem?_eq_some_iff.mp h).1
  by_cases e : p = q
  · subst e
    rw [h] at hq
    cases hq
    exact ⟨io1, by simp [List.getElem?_set, hlt], hi⟩
  · exact ⟨x, by simpa [List.getElem?_set, e] using hq, rfl⟩

theorem Frame_unlink (s : State) (c sp dp : Nat) (src dst : QDataflowModelIOlet)
    (hs : s.outletHeap[sp]? = some src) (hd : s.inletHeap[dp]? = some dst) :
    Frame s (unlink s c sp dp src dst) := by
  refine ⟨⟨fun _ _ h => h, ?_, ?_, ?_⟩, NodesKept_of_eq _ _ rfl rfl⟩
  · exact fun q x hq => ident_set _ sp src (src.removeConnection c) hs rfl q x hq
  · exact fun q x hq => ident_set _ dp dst (dst.removeConnection c) hd rfl q x hq
  · intro d hdm
    simp only [unlink, qsetRemove, List.mem_filter] at hdm
    exact Or.inl hdm.1

theorem Frame_link (s : State) (c sp dp : Nat) (src dst : QDataflowModelIOlet)
    (hco : s.connHeap[c]? = some { source_ := some sp, dest_ := some dp })
    (hs : s.outletHeap[sp]? = some src) (hd : s.inletHeap[dp]? = some dst)
    (h1 : canMakeConnectionTo src dst = true) (h2 : canAcceptConnectionFrom dst src = true) :
    Frame s (link s c sp dp src dst) := by
  have hsl : sp < s.outletHeap.length := (List.getElem?_eq_some_iff.mp hs).1
  have hdl : dp < s.inletHeap.length := (List.getElem?_eq_some_iff.mp hd).1
  refine ⟨⟨fun _ _ h => h, ?_, ?_, ?_⟩, NodesKept_of_eq _ _ rfl rfl⟩
  · exact fun q x hq => ident_set _ sp src (src.addConnection c) hs rfl q x hq
  · exact fun q x hq => ident_set _ dp dst (dst.addConnection c) hd rfl q x hq
  · intro d hdm
    simp only [link, qsetInsert] at hdm
    have : d ∈ s.connections_ ∨ d = c := by
      split at hdm
      · exact Or.inl hdm
      · simpa using hdm
    rcases this with h | rfl
    · exact Or.inl h
    · right
      refine ⟨sp, dp, src.addConnection d, dst.addConnection d, hco, ?_, ?_, ?_, ?_⟩
      · simp [link, List.getElem?_set, hsl]
      · simp [link, List.getElem?_set, hdl]
      · exact ((compat_of_ident src dst _ _ rfl rfl).1).trans h1
      · exact ((compat_of_ident src dst _ _ rfl rfl).2).trans h2

theorem Frame_of_parts (s s1 : State)
    (h1 : ∀ (p : Nat) (io : QDataflowModelIOlet), s.inletHeap[p]? = some io →
      s1.inletHeap[p]? = some io)
    (h2 : ∀ (p : Nat) (io : QDataflowModelIOlet), s.outletHeap[p]? = some io →
      s1.outletHeap[p]? = some io)
    (h3 : ∀ (c : Nat) (co : QDataflowModelConnection), s.connHeap[c]? = some co →
      s1.connHeap[c]? = some co)
    (h4 : s1.connections_ = s.connections_) (h5 : NodesKept s s1) : Frame s s1 :=
  ⟨⟨h3, fun p io h => ⟨io, h2 p io h, rfl⟩, fun p io h => ⟨io, h1 p io h, rfl⟩,
    fun _ h => Or.inl (h4 ▸ h)⟩, h5⟩

theorem Frame_of_eq (s s1 : State) (h1 : s1.nodeHeap = s.nodeHeap)
    (h2 : s1.inletHeap = s.inletHeap) (h3 : s1.outletHeap = s.outletHeap)
    (h4 : s1.connHeap = s.connHeap) (h5 : s1.connections_ = s.connections_)
    (h6 : s1.nodes_ = s.nodes_) : Frame s s1 :=
  ⟨Grows_of_eq s s1 h2 h3 h4 h5, NodesKept_of_eq s s1 h1 h6⟩

theorem removeConnection_frame (s s1 : State) (conn : Option Nat)
    (h : removeConnection s conn = .ok s1) : Frame s s1 := by
  cases conn with
  | none =>
    simp only [removeConnection, Except.ok.injEq] at h
    subst h; exact Frame.frame_refl _
  | some c =>
    rcases removeConnection_cases s s1 c h with ⟨_, rfl⟩ | ⟨_, sp, dp, src, dst, _, h2, h3, rfl⟩
    · exact Frame.frame_refl _
    · exact Frame_unlink s c sp dp src dst h2 h3

theorem removeEach_frame (l : List Nat) (s s1 : State) (h : removeEach s l = .ok s1) :
    Frame s s1 := by
  induction l generalizing s with
  | nil =>
    simp only [removeEach, Except.ok.injEq] at h
    subst h; exact Frame.frame_refl _
  | cons c rest ih =>
    simp only [removeEach, bind_eq_ok] at h
    obtain ⟨s2, h2, h3⟩ := h
    exact (removeConnection_frame s s2 (some c) h2).frame_trans (ih s2 h3)

theorem disconnect_conn_frame (s s1 : State) (conn : Option Nat)
    (h : disconnect_conn s conn = .ok s1) : Frame s s1 := by
  cases conn with
  | none =>
    simp only [disconnect_conn, Except.ok.injEq] at h
    subst h; exact Frame.frame_refl _
  | some c =>
    simp only [disconnect_conn, bind_eq_ok] at h
    obtain ⟨l, _, h3⟩ := h
    exact removeEach_frame l s s1 h3

theorem disconnect_frame (s s1 : State) (sn : Option Nat) (so : Int) (dn : Option Nat)
    (di : Int) (h : disconnect s sn so dn di = .ok s1) : Frame s s1 := by
  unfold disconnect at h
  split at h
  · simp only [bind_eq_ok] at h
    obtain ⟨l, _, h3⟩ := h
    exact removeEach_frame l s s1 h3
  · simp only [Except.ok.injEq] at h
    subst h; exact Frame.frame_refl _

theorem disconnectEach_frame (l : List Nat) (s s1 : State)
    (h : disconnectEach s l = .ok s1) : Frame s s1 := by
  induction l generalizing s with
  | nil =>
    simp only [disconnectEach, Except.ok.injEq] at h
    subst h; exact Frame.frame_refl _
  | cons c rest ih =>
    simp only [disconnectEach, bind_eq_ok] at h
    obtain ⟨s2, h2, h3⟩ := h
    exact (disconnect_conn_frame s s2 (some c) h2).frame_trans (ih s2 h3)

theorem addConnection_frame (s s1 : State) (conn : Option Nat)
    (h : addConnection s conn = .ok s1) : Frame s s1 := by
  cases conn with
  | none =>
    simp only [addConnection, Except.ok.injEq] at h
    subst h; exact Frame.frame_refl _
  | some c =>
    rcases addConnection_cases s s1 c h with rfl | ⟨sp, dp, src, dst, _, h1, h2, h3, h4, h5, rfl⟩
    · exact Frame.frame_refl _
    · exact Frame_link s c sp dp src dst h1 h2 h3 h4 h5

theorem emitFromNode_frame (s s1 : State) (self : Nat) (sig : Signal)
    (h : emitFromNode s self sig = .ok s1) : Frame s s1 := by
  rcases emitFromNode_cases s s1 self sig h with rfl | rfl | rfl
  · exact Frame.frame_refl _
  · exact Frame_of_eq _ _ rfl rfl rfl rfl rfl rfl
  · exact Frame_of_eq _ _ rfl rfl rfl rfl rfl rfl

theorem blockSignals_eq (s s1 : State) (self : Nat) (b old : Bool)
    (h : blockSignals s self b = .ok (old, s1)) :
    ∃ n, s.nodeHeap[self]? = some n ∧ old = n.signalsBlocked ∧
      s1 = s.setNode self { n with signalsBlocked := b } := by
  unfold blockSignals at h
  simp only [bind_eq_ok, State.getNode, load_eq_ok, pure, Except.pure, Except.ok.injEq,
    Prod.mk.injEq] at h
  obtain ⟨n, hn, h1, h2⟩ := h
  exact ⟨n, hn, h1.symm, h2.symm⟩

theorem NodesKept_setNode_only (s s1 : State) (p : Nat) (n n1 : QDataflowModelNode)
    (hn : s.nodeHeap[p]? = some n) (h1 : n1.relayed = n.relayed)
    (h2 : n1.signalsBlocked = n.signalsBlocked) (hnodes : s1.nodes_ = s.nodes_)
    (hheap : s1.nodeHeap = s.nodeHeap.set p n1) : NodesKept s s1 := by
  have := NodesKept_setNode s p n n1 hn h1 h2
  exact ⟨hnodes, by rw [hheap]; exact this.length, fun m nd hm => by
    rw [hheap]; exact this.flags m nd hm⟩

theorem addInlet_frame (s s1 : State) (self : Nat) (name type : String)
    (h : addInlet s self name type = .ok s1) : Frame s s1 := by
  unfold addInlet addInlet_obj at h
  simp only [bind_eq_ok, State.getNode, load_eq_ok, State.setNode] at h
  obtain ⟨n, hn, n0, hn0, n1, _, h⟩ := h
  have e : n0 = n := by rw [hn] at hn0; exact (Option.some.inj hn0).symm
  subst e
  refine Frame.frame_trans ?_ (emitFromNode_frame _ s1 self _ h)
  exact Frame_of_parts s _ (fun p io hp => getElem?_append_some _ _ _ _ hp) (fun _ _ hp => hp)
    (fun _ _ hp => hp) rfl
    (NodesKept_setNode_only s _ self n0
      { n0 with inlets_ := n0.inlets_ ++ [s.inletHeap.length] } hn rfl rfl rfl rfl)

theorem addOutlet_frame (s s1 : State) (self : Nat) (name type : String)
    (h : addOutlet s self name type = .ok s1) : Frame s s1 := by
  unfold addOutlet addOutlet_obj at h
  simp only [bind_eq_ok, State.getNode, load_eq_ok, State.setNode] at h
  obtain ⟨n, hn, n0, hn0, n1, _, h⟩ := h
  have e : n0 = n := by rw [hn] at hn0; exact (Option.some.inj hn0).symm
  subst e
  refine Frame.frame_trans ?_ (emitFromNode_frame _ s1 self _ h)
  exact Frame_of_parts s _ (fun _ _ hp => hp) (fun p io hp => getElem?_append_some _ _ _ _ hp)
    (fun _ _ hp => hp) rfl
    (NodesKept_setNode_only s _ self n0
      { n0 with outlets_ := n0.outlets_ ++ [s.outletHeap.length] } hn rfl rfl rfl rfl)

theorem removeLastInlet_frame (s s1 : State) (self : Nat)
    (h : removeLastInlet s self = .ok s1) : Frame s s1 := by
  unfold removeLastInlet at h
  simp only [bind_eq_ok] at h
  obtain ⟨n, _, h⟩ := h
  split at h
  · simp only [pure, Except.pure, Except.ok.injEq] at h
    subst h; exact Frame.frame_refl _
  · simp only [bind_eq_ok, State.getNode, load_eq_ok] at h
    obtain ⟨io, _, s2, hs2, n1, hn1, n2, _, h⟩ := h
    exact ((disconnectEach_frame _ s s2 hs2).frame_trans
      (Frame_setNode s2 self n1 { n1 with inlets_ := n1.inlets_.dropLast } hn1 rfl rfl)).frame_trans
      (emitFromNode_frame _ s1 self _ h)

theorem removeLastOutlet_frame (s s1 : State) (self : Nat)
    (h : removeLastOutlet s self = .ok s1) : Frame s s1 := by
  unfold removeLastOutlet at h
  simp only [bind_eq_ok] at h
  obtain ⟨n, _, h⟩ := h
  split at h
  · simp only [pure, Except.pure, Except.ok.injEq] at h
    subst h; exact Frame.frame_refl _
  · simp only [bind_eq_ok, State.getNode, load_eq_ok] at h
    obtain ⟨io, _, s2, hs2, n1, hn1, n2, _, h⟩ := h
    exact ((disconnectEach_frame _ s s2 hs2).frame_trans
      (Frame_setNode s2 self n1 { n1 with outlets_ := n1.outlets_.dropLast } hn1 rfl rfl)).frame_trans
      (emitFromNode_frame _ s1 self _ h)

theorem growInlets_frame (fuel : Nat) (s s1 : State) (self : Nat) (count : Int)
    (h : growInlets fuel s self count = .ok s1) : Frame s s1 := by
  induction fuel generalizing s with
  | zero => simp [growInlets] at h
  | succ k ih =>
    simp only [growInlets, bind_eq_ok] at h
    obtain ⟨n, _, h⟩ := h
    split at h
    · simp only [bind_eq_ok] at h
      obtain ⟨s2, h2, h3⟩ := h
      exact (addInlet_frame s s2 self _ _ h2).frame_trans (ih s2 h3)
    · simp only [pure, Except.pure, Except.ok.injEq] at h
      subst h; exact Frame.frame_refl _

theorem growOutlets_frame (fuel : Nat) (s s1 : State) (self : Nat) (count : Int)
    (h : growOutlets fuel s self count = .ok s1) : Frame s s1 := by
  induction fuel generalizing s with
  | zero => simp [growOutlets] at h
  | succ k ih =>
    simp only [growOutlets, bind_eq_ok] at h
    obtain ⟨n, _, h⟩ := h
    split at h
    · simp only [bind_eq_ok] at h
      obtain ⟨s2, h2, h3⟩ := h
      exact (addOutlet_frame s s2 self _ _ h2).frame_trans (ih s2 h3)
    · simp only [pure, Except.pure, Except.ok.injEq] at h
      subst h; exact Frame.frame_refl _

theorem shrinkInlets_frame (fuel : Nat) (s s1 : State) (self : Nat) (count : Int)
    (h : shrinkInlets fuel s self count = .ok s1) : Frame s s1 := by
  induction fuel generalizing s with
  | zero => simp [shrinkInlets] at h
  | succ k ih =>
    simp only [shrinkInlets, bind_eq_ok] at h
    obtain ⟨n, _, h⟩ := h
    split at h
    · simp only [bind_eq_ok] at h
      obtain ⟨s2, h2, h3⟩ := h
      exact (removeLastInlet_frame s s2 self h2).frame_trans (ih s2 h3)
    · simp only [pure, Except.pure, Except.ok.injEq] at h
      subst h; exact Frame.frame_refl _

theorem shrinkOutlets_frame (fuel : Nat) (s s1 : State) (self : Nat) (count : Int)
    (h : shrinkOutlets fuel s self count = .ok s1) : Frame s s1 := by
  induction fuel generalizing s with
  | zero => simp [shrinkOutlets] at h
  | succ k ih =>
    simp only [shrinkOutlets, bind_eq_ok] at h
    obtain ⟨n, _, h⟩ := h
    split at h
    · simp only [bind_eq_ok] at h
      obtain ⟨s2, h2, h3⟩ := h
      exact (removeLastOutlet_frame s s2 self h2).frame_trans (ih s2 h3)
    · simp only [pure, Except.pure, Except.ok.injEq] at h
      subst h; exact Frame.frame_refl _

theorem addInletsTyped_frame (types : List String) (s s1 : State) (self : Nat)
    (h : addInletsTyped s self types = .ok s1) : Frame s s1 := by
  induction types generalizing s with
  | nil =>
    simp only [addInletsTyped, Except.ok.injEq] at h
    subst h; exact Frame.frame_refl _
  | cons t rest ih =>
    simp only [addInletsTyped, bind_eq_ok] at h
    obtain ⟨s2, h2, h3⟩ := h
    exact (addInlet_frame s s2 self _ _ h2).frame_trans (ih s2 h3)

theorem addOutletsTyped_frame (types : List String) (s s1 : State) (self : Nat)
    (h : addOutletsTyped s self types = .ok s1) : Frame s s1 := by
  induction types generalizing s with
  | nil =>
    simp only [addOutletsTyped, Except.ok.injEq] at h
    subst h; exact Frame.frame_refl _
  | cons t rest ih =>
    simp only [addOutletsTyped, bind_eq_ok] at h
    obtain ⟨s2, h2, h3⟩ := h
    exact (addOutlet_frame s s2 self _ _ h2).frame_trans (ih s2 h3)

theorem addInlets_frame (k : Nat) (s s1 : State) (self : Nat)
    (h : addInlets s self k = .ok s1) : Frame s s1 := by
  induction k generalizing s with
  | zero =>
    simp only [addInlets, Except.ok.injEq] at h
    subst h; exact Frame.frame_refl _
  | succ k ih =>
    simp only [addInlets, bind_eq_ok] at h
    obtain ⟨s2, h2, h3⟩ := h
    exact (addInlet_frame s s2 self _ _ h2).frame_trans (ih s2 h3)

theorem addOutlets_frame (k : Nat) (s s1 : State) (self : Nat)
    (h : addOutlets s self k = .ok s1) : Frame s s1 := by
  induction k generalizing s with
  | zero =>
    simp only [addOutlets, Except.ok.injEq] at h
    subst h; exact Frame.frame_refl _
  | succ k ih =>
    simp only [addOutlets, bind_eq_ok] at h
    obtain ⟨s2, h2, h3⟩ := h
    exact (addOutlet_frame s s2 self _ _ h2).frame_trans (ih s2 h3)

theorem NodesKept_restore (s s3 : State) (self : Nat) (n n3 : QDataflowModelNode) (b1 : Bool)
    (hn : s.nodeHeap[self]? = some n)
    (k : NodesKept (s.setNode self { n with signalsBlocked := b1 }) s3)
    (hn3 : s3.nodeHeap[self]? = some n3) :
    NodesKept s (s3.setNode self { n3 with signalsBlocked := n.signalsBlocked }) := by
  have hlt : self < s.nodeHeap.length := (List.getElem?_eq_some_iff.mp hn).1
  have hlt3 : self < s3.nodeHeap.length := (List.getElem?_eq_some_iff.mp hn3).1
  refine ⟨k.nodes, ?_, ?_⟩
  · have := k.length
    simp only [State.setNode, List.length_set] at this ⊢
    exact this
  · intro m nd hm
    by_cases e : self = m
    · subst e
      rw [hn] at hm
      cases hm
      obtain ⟨nd1, a1, a2, _⟩ := k.flags self { n with signalsBlocked := b1 }
        (by simp [State.setNode, List.getElem?_set, hlt])
      rw [hn3] at a1
      cases a1
      exact ⟨{ n3 with signalsBlocked := n.signalsBlocked },
        by simp [State.setNode, List.getElem?_set, hlt3], a2, rfl⟩
    · obtain ⟨nd1, a1, a2, a3⟩ := k.flags m nd
        (by simpa [State.setNode, List.getElem?_set, e] using hm)
      exact ⟨nd1, by simpa [State.setNode, List.getElem?_set, e] using a1, a2, a3⟩

theorem Frame_blocked_section (s s3 s5 : State) (self : Nat) (n n3 : QDataflowModelNode)
    (hn : s.nodeHeap[self]? = some n)
    (k : Frame (s.setNode self { n with signalsBlocked := true }) s3)
    (hn3 : s3.nodeHeap[self]? = some n3)
    (k5 : Frame (s3.setNode self { n3 with signalsBlocked := n.signalsBlocked }) s5) :
    Frame s s5 := by
  refine Frame.frame_trans ⟨?_, NodesKept_restore s s3 self n n3 true hn k.kept hn3⟩ k5
  exact ((Grows_of_eq s (s.setNode self { n with signalsBlocked := true })
    rfl rfl rfl rfl).grows_trans k.grows).grows_trans (Grows_of_eq _ _ rfl rfl rfl rfl)

theorem setInletCount_frame (fuel : Nat) (s s1 : State) (self : Nat) (count : Int)
    (h : setInletCount fuel s self count = .ok s1) : Frame s s1 := by
  unfold setInletCount at h
  simp only [bind_eq_ok] at h
  obtain ⟨n, _, h⟩ := h
  split at h
  · simp only [pure, Except.pure, Except.ok.injEq] at h
    subst h; exact Frame.frame_refl _
  · simp only [bind_eq_ok] at h
    obtain ⟨⟨b, s2⟩, h2, s3, h3, s4, h4, ⟨b5, s5⟩, h5, h6⟩ := h
    obtain ⟨n2, hn2, rfl, rfl⟩ := blockSignals_eq s s2 self _ b h2
    obtain ⟨n4, hn4, _, rfl⟩ := blockSignals_eq s4 s5 self _ b5 h5
    exact Frame_blocked_section s s4 s1 self n2 n4 hn2
      ((growInlets_frame fuel _ s3 self count h3).frame_trans
        (shrinkInlets_frame fuel s3 s4 self count h4)) hn4
      (emitFromNode_frame _ s1 self _ h6)

theorem setOutletCount_frame (fuel : Nat) (s s1 : State) (self : Nat) (count : Int)
    (h : setOutletCount fuel s self count = .ok s1) : Frame s s1 := by
  unfold setOutletCount at h
  simp only [bind_eq_ok] at h
  obtain ⟨n, _, h⟩ := h
  split at h
  · simp only [pure, Except.pure, Except.ok.injEq] at h
    subst h; exact Frame.frame_refl _
  · simp only [bind_eq_ok] at h
    obtain ⟨⟨b, s2⟩, h2, s3, h3, s4, h4, ⟨b5, s5⟩, h5, h6⟩ := h
    obtain ⟨n2, hn2, rfl, rfl⟩ := blockSignals_eq s s2 self _ b h2
    obtain ⟨n4, hn4, _, rfl⟩ := blockSignals_eq s4 s5 self _ b5 h5
    exact Frame_blocked_section s s4 s1 self n2 n4 hn2
      ((growOutlets_frame fuel _ s3 self count h3).frame_trans
        (shrinkOutlets_frame fuel s3 s4 self count h4)) hn4
      (emitFromNode_frame _ s1 self _ h6)

theorem setInletTypes_frame (fuel : Nat) (s s1 : State) (self : Nat) (types : List String)
    (h : setInletTypes fuel s self types = .ok s1) : Frame s s1 := by
  unfold setInletTypes at h
  simp only [bind_eq_ok] at h
  obtain ⟨n, _, ⟨b, s2⟩, h2, s3, h3, s4, h4, ⟨b5, s5⟩, h5, n5, _, h6⟩ := h
  obtain ⟨n2, hn2, rfl, rfl⟩ := blockSignals_eq s s2 self _ b h2
  obtain ⟨n4, hn4, _, rfl⟩ := blockSignals_eq s4 s5 self _ b5 h5
  refine Frame_blocked_section s s4 s1 self n2 n4 hn2
    ((shrinkInlets_frame fuel _ s3 self 0 h3).frame_trans
      (addInletsTyped_frame types s3 s4 self h4)) hn4 ?_
  split at h6
  · exact emitFromNode_frame _ s1 self _ h6
  · simp only [pure, Except.pure, Except.ok.injEq] at h6
    subst h6; exact Frame.frame_refl _

theorem setOutletTypes_frame (fuel : Nat) (s s1 : State) (self : Nat) (types : List String)
    (h : setOutletTypes fuel s self types = .ok s1) : Frame s s1 := by
  unfold setOutletTypes at h
  simp only [bind_eq_ok] at h
  obtain ⟨n, _, ⟨b, s2⟩, h2, s3, h3, s4, h4, ⟨b5, s5⟩, h5, n5, _, h6⟩ := h
  obtain ⟨n2, hn2, rfl, rfl⟩ := blockSignals_eq s s2 self _ b h2
  obtain ⟨n4, hn4, _, rfl⟩ := blockSignals_eq s4 s5 self _ b5 h5
  refine Frame_blocked_section s s4 s1 self n2 n4 hn2
    ((shrinkOutlets_frame fuel _ s3 self 0 h3).frame_trans
      (addOutletsTyped_frame types s3 s4 self h4)) hn4 ?_
  split at h6
  · exact emitFromNode_frame _ s1 self _ h6
  · simp only [pure, Except.pure, Except.ok.injEq] at h6
    subst h6; exact Frame.frame_refl _

theorem setValid_frame (s s1 : State) (self : Nat) (valid : Bool)
    (h : setValid s self valid = .ok s1) : Frame s s1 := by
  unfold setValid at h
  simp only [bind_eq_ok, State.getNode, load_eq_ok] at h
  obtain ⟨n, hn, h⟩ := h
  split at h
  · simp only [pure, Except.pure, Except.ok.injEq] at h
    subst h; exact Frame.frame_refl _
  · exact (Frame_setNode s self n { n with valid_ := valid } hn rfl rfl).frame_trans
      (emitFromNode_frame _ s1 self _ h)

theorem setPos_frame (s s1 : State) (self : Nat) (pos : QPoint)
    (h : setPos s self pos = .ok s1) : Frame s s1 := by
  unfold setPos at h
  simp only [bind_eq_ok, State.getNode, load_eq_ok] at h
  obtain ⟨n, hn, h⟩ := h
  split at h
  · simp only [pure, Except.pure, Except.ok.injEq] at h
    subst h; exact Frame.frame_refl _
  · exact (Frame_setNode s self n { n with pos_ := pos } hn rfl rfl).frame_trans
      (emitFromNode_frame _ s1 self _ h)

theorem setText_frame (s s1 : State) (self : Nat) (text : String)
    (h : setText s self text = .ok s1) : Frame s s1 := by
  unfold setText at h
  simp only [bind_eq_ok, State.getNode, load_eq_ok] at h
  obtain ⟨n, hn, h⟩ := h
  split at h
  · simp only [pure, Except.pure, Except.ok.injEq] at h
    subst h; exact Frame.frame_refl _
  · exact (Frame_setNode s self n { n with text_ := text } hn rfl rfl).frame_trans
      (emitFromNode_frame _ s1 self _ h)

theorem Frame_withConn (s : State) (co : QDataflowModelConnection) :
    Frame s (withConn s co) :=
  Frame_of_parts s _ (fun _ _ h => h) (fun _ _ h => h)
    (fun _ _ h => getElem?_append_some _ _ _ _ h) rfl (NodesKept_of_eq _ _ rfl rfl)

theorem connect_frame (s s1 : State) (sn : Option Nat) (so : Int) (dn : Option Nat) (di : Int)
    (r : Option Nat) (h : connect s sn so dn di = .ok (r, s1)) : Frame s s1 := by
  unfold connect at h
  split at h
  · simp only [bind_eq_ok] at h
    obtain ⟨found, _, h⟩ := h
    split at h
    · simp only [bind_eq_ok, newConnection, pure, Except.pure, Except.ok.injEq,
        Prod.mk.injEq] at h
      obtain ⟨a, ⟨n1, _, n2, _, rfl⟩, s3, h3, _, rfl⟩ := h
      exact (Frame_withConn s _).frame_trans (addConnection_frame _ s3 _ h3)
    · simp only [pure, Except.pure, Except.ok.injEq, Prod.mk.injEq] at h
      obtain ⟨_, rfl⟩ := h
      exact Frame.frame_refl _
  · simp only [Except.ok.injEq, Prod.mk.injEq] at h
    obtain ⟨_, rfl⟩ := h
    exact Frame.frame_refl _

theorem connect_conn_frame (s s1 : State) (conn r : Option Nat)
    (h : connect_conn s conn = .ok (r, s1)) : Frame s s1 := by
  unfold connect_conn at h
  split at h
  · simp only [Except.ok.injEq, Prod.mk.injEq] at h
    obtain ⟨_, rfl⟩ := h
    exact Frame.frame_refl _
  · simp only [bind_eq_ok] at h
    obtain ⟨found, _, h⟩ := h
    split at h
    · simp only [bind_eq_ok, pure, Except.pure, Except.ok.injEq, Prod.mk.injEq] at h
      obtain ⟨s2, h2, _, rfl⟩ := h
      exact addConnection_frame s s2 _ h2
    · simp only [pure, Except.pure, Except.ok.injEq, Prod.mk.injEq] at h
      obtain ⟨_, rfl⟩ := h
      exact Frame.frame_refl _

theorem removeInletConnections_frame (l : List Nat) (s s1 : State)
    (h : removeInletConnections s l = .ok s1) : Frame s s1 := by
  induction l generalizing s with
  | nil =>
    simp only [removeInletConnections, Except.ok.injEq] at h
    subst h; exact Frame.frame_refl _
  | cons c rest ih =>
    simp only [removeInletConnections, bind_eq_ok] at h
    obtain ⟨io, _, s2, h2, h3⟩ := h
    exact (removeEach_frame _ s s2 h2).frame_trans (ih s2 h3)

theorem removeOutletConnections_frame (l : List Nat) (s s1 : State)
    (h : removeOutletConnections s l = .ok s1) : Frame s s1 := by
  induction l generalizing s with
  | nil =>
    simp only [removeOutletConnections, Except.ok.injEq] at h
    subst h; exact Frame.frame_refl _
  | cons c rest ih =>
    simp only [removeOutletConnections, bind_eq_ok] at h
    obtain ⟨io, _, s2, h2, h3⟩ := h
    exact (removeEach_frame _ s s2 h2).frame_trans (ih s2 h3)

theorem NodeInv_kept (s s1 : State) (hinv : NodeInv s) (k : NodesKept s s1) : NodeInv s1 := by
  have back : ∀ (n : Nat) (nd1 : QDataflowModelNode), s1.nodeHeap[n]? = some nd1 →
      ∃ nd, s.nodeHeap[n]? = some nd ∧ nd1.relayed = nd.relayed ∧
        nd1.signalsBlocked = nd.signalsBlocked := by
    intro n nd1 h
    have hlt : n < s.nodeHeap.length := by
      rw [← k.length]
      exact (List.getElem?_eq_some_iff.mp h).1
    obtain ⟨nd2, a1, a2, a3⟩ := k.flags n (s.nodeHeap[n]) (List.getElem?_eq_getElem hlt)
    rw [h] at a1
    cases a1
    exact ⟨_, List.getElem?_eq_getElem hlt, a2, a3⟩
  constructor
  · intro n nd1 h
    obtain ⟨nd, a1, a2, _⟩ := back n nd1 h
    rw [a2, k.nodes]
    exact hinv.relay n nd a1
  · intro n nd1 h
    obtain ⟨nd, a1, _, a3⟩ := back n nd1 h
    rw [a3]
    exact hinv.unblocked n nd a1
  · intro n h
    rw [k.nodes] at h
    rw [k.length]
    exact hinv.known n h

theorem create_grows (s s1 : State) (pos : QPoint) (text : String) (ic oc : Int) (node : Nat)
    (h : create s pos text ic oc = .ok (node, s1)) : Grows s s1 := by
  unfold create newNode at h
  simp only [bind_eq_ok, pure, Except.pure, Except.ok.injEq, State.getNode, load_eq_ok,
    Prod.mk.injEq] at h
  obtain ⟨a, ⟨s3, h3, s4, h4, rfl⟩, n, hn, _, rfl⟩ := h
  have f := (addInlets_frame _ _ s3 _ h3).frame_trans (addOutlets_frame _ s3 s4 _ h4)
  refine Grows.grows_trans (Grows.grows_trans ?_ f.grows) (Grows_of_eq _ _ rfl rfl rfl rfl)
  exact Grows_of_eq _ _ rfl rfl rfl rfl

theorem create_nodeInv (s s1 : State) (pos : QPoint) (text : String) (ic oc : Int)
    (node : Nat) (hinv : NodeInv s) (h : create s pos text ic oc = .ok (node, s1)) :
    NodeInv s1 := by
  unfold create newNode at h
  simp only [bind_eq_ok, pure, Except.pure, Except.ok.injEq, State.getNode, load_eq_ok,
    Prod.mk.injEq] at h
  obtain ⟨a, ⟨s3, h3, s4, h4, rfl⟩, n, hn, _, rfl⟩ := h
  simp only at hn
  have hfresh : s.nodeHeap.length ∉ s.nodes_ := fun hm => Nat.lt_irrefl _ (hinv.known _ hm)
  have i0 : NodeInv { s with nodeHeap := s.nodeHeap ++ [(⟨false, pos, text, [], [], false,
      false⟩ : QDataflowModelNode)] } := by
    constructor
    · intro m nd hm
      rcases getElem?_append_singleton _ _ _ _ hm with hm1 | ⟨rfl, rfl⟩
      · exact hinv.relay m nd hm1
      · simp [hfresh]
    · intro m nd hm
      rcases getElem?_append_singleton _ _ _ _ hm with hm1 | ⟨rfl, rfl⟩
      · exact hinv.unblocked m nd hm1
      · rfl
    · intro m hm
      have := hinv.known m hm
      simp only [List.length_append, List.length_singleton]
      omega
  have i4 := NodeInv_kept _ s4 i0
    ((addInlets_frame _ _ s3 _ h3).frame_trans (addOutlets_frame _ s3 s4 _ h4)).kept
  have hlt : s.nodeHeap.length < s4.nodeHeap.length := (List.getElem?_eq_some_iff.mp hn).1
  have mem : ∀ m, m ∈ qsetInsert s4.nodes_ s.nodeHeap.length ↔
      m ∈ s4.nodes_ ∨ m = s.nodeHeap.length := by
    intro m
    unfold qsetInsert
    split
    · constructor
      · exact Or.inl
      · rintro (h | rfl)
        · exact h
        · assumption
    · simp
  constructor
  · intro m nd hm
    simp only [State.emit, State.setNode, List.getElem?_set] at hm
    show nd.relayed = true ↔ m ∈ qsetInsert s4.nodes_ s.nodeHeap.length
    rw [mem]
    by_cases e : s.nodeHeap.length = m
    · subst e
      simp only [hlt, if_true, Option.some.injEq] at hm
      subst hm
      simp
    · simp only [e, if_false] at hm
      rw [i4.relay m nd hm]
      constructor
      · exact Or.inl
      · rintro (h | rfl)
        · exact h
        · exact absurd rfl e
  · intro m nd hm
    simp only [State.emit, State.setNode, List.getElem?_set] at hm
    by_cases e : s.nodeHeap.length = m
    · subst e
      simp only [hlt, if_true, Option.some.injEq] at hm
      subst hm
      exact i4.unblocked _ n hn
    · simp only [e, if_false] at hm
      exact i4.unblocked m nd hm
  · intro m hm
    have hm1 : m ∈ qsetInsert s4.nodes_ s.nodeHeap.length := hm
    simp only [State.emit, State.setNode, List.length_set]
    rcases (mem m).mp hm1 with h | rfl
    · exact i4.known m h
    · exact hlt

theorem remove_grows (s s1 : State) (node : Option Nat) (h : remove s node = .ok s1) :
    Grows s s1 := by
  unfold remove at h
  split at h
  · simp only [Except.ok.injEq] at h
    subst h; exact Grows.grows_refl _
  · split at h
    · simp only [bind_eq_ok, pure, Except.pure, Except.ok.injEq, State.getNode,
        load_eq_ok] at h
      obtain ⟨n, _, s2, h2, n2, _, s3, h3, n3, hn3, rfl⟩ := h
      exact ((removeInletConnections_frame _ s s2 h2).frame_trans
        (removeOutletConnections_frame _ s2 s3 h3)).grows.grows_trans
        (Grows_of_eq _ _ rfl rfl rfl rfl)
    · simp only [Except.ok.injEq] at h
      subst h; exact Grows.grows_refl _

theorem remove_nodeInv (s s1 : State) (node : Option Nat) (hinv : NodeInv s)
    (h : remove s node = .ok s1) : NodeInv s1 := by
  unfold remove at h
  split at h
  · simp only [Except.ok.injEq] at h
    subst h; exact hinv
  · rename_i p
    split at h
    · simp only [bind_eq_ok, pure, Except.pure, Except.ok.injEq, State.getNode,
        load_eq_ok] at h
      obtain ⟨n, _, s2, h2, n2, _, s3, h3, n3, hn3, rfl⟩ := h
      have i3 := NodeInv_kept s s3 hinv ((removeInletConnections_frame _ s s2 h2).frame_trans
        (removeOutletConnections_frame _ s2 s3 h3)).kept
      have hlt : p < s3.nodeHeap.length := (List.getElem?_eq_some_iff.mp hn3).1
      constructor
      · intro m nd hm
        simp only [State.emit, State.setNode, List.getElem?_set] at hm
        show nd.relayed = true ↔ m ∈ qsetRemove s3.nodes_ p
        simp only [qsetRemove, List.mem_filter, decide_eq_true_eq]
        by_cases e : p = m
        · subst e
          simp only [hlt, if_true, Option.some.injEq] at hm
          subst hm
          simp
        · simp only [e, if_false] at hm
          rw [i3.relay m nd hm]
          exact ⟨fun h => ⟨h, fun h1 => e h1.symm⟩, fun h => h.1⟩
      · intro m nd hm
        simp only [State.emit, State.setNode, List.getElem?_set] at hm
        by_cases e : p = m
        · subst e
          simp only [hlt, if_true, Option.some.injEq] at hm
          subst hm
          exact i3.unblocked _ n3 hn3
        · simp only [e, if_false] at hm
          exact i3.unblocked m nd hm
      · intro m hm
        have hm1 : m ∈ qsetRemove s3.nodes_ p := hm
        simp only [qsetRemove, List.mem_filter] at hm1
        simp only [State.emit, State.setNode, List.length_set]
        exact i3.known m hm1.1
    · simp only [Except.ok.injEq] at h
      subst h; exact hinv

theorem Call.run_grows (c : Call) (fuel : Nat) (s s1 : State) (h : c.run fuel s = .ok s1) :
    Grows s s1 := by
  cases c with
  | create pos text ic oc =>
    obtain ⟨a, ha⟩ := map_snd_eq_ok _ _ h
    exact create_grows s s1 pos text ic oc a ha
  | remove node => exact remove_grows s s1 node h
  | connect sn so dn di =>
    obtain ⟨a, ha⟩ := map_snd_eq_ok _ _ h
    exact (connect_frame s s1 sn so dn di a ha).grows
  | connect_conn conn =>
    obtain ⟨a, ha⟩ := map_snd_eq_ok _ _ h
    exact (connect_conn_frame s s1 conn a ha).grows
  | disconnect sn so dn di => exact (disconnect_frame s s1 sn so dn di h).grows
  | disconnect_conn conn => exact (disconnect_conn_frame s s1 conn h).grows
  | setValid self valid => exact (setValid_frame s s1 self valid h).grows
  | setPos self pos => exact (setPos_frame s s1 self pos h).grows
  | setText self text => exact (setText_frame s s1 self text h).grows
  | addInlet self name type => exact (addInlet_frame s s1 self name type h).grows
  | addOutlet self name type => exact (addOutlet_frame s s1 self name type h).grows
  | removeLastInlet self => exact (removeLastInlet_frame s s1 self h).grows
  | removeLastOutlet self => exact (removeLastOutlet_frame s s1 self h).grows
  | setInletCount self count => exact (setInletCount_frame fuel s s1 self count h).grows
  | setOutletCount self count => exact (setOutletCount_frame fuel s s1 self count h).grows
  | setInletTypes self types => exact (setInletTypes_frame fuel s s1 self types h).grows
  | setOutletTypes self types => exact (setOutletTypes_frame fuel s s1 self types h).grows

theorem Call.run_nodeInv (c : Call) (fuel : Nat) (s s1 : State) (hinv : NodeInv s)
    (h : c.run fuel s = .ok s1) : NodeInv s1 := by
  cases c with
  | create pos text ic oc =>
    obtain ⟨a, ha⟩ := map_snd_eq_ok _ _ h
    exact create_nodeInv s s1 pos text ic oc a hinv ha
  | remove node => exact remove_nodeInv s s1 node hinv h
  | connect sn so dn di =>
    obtain ⟨a, ha⟩ := map_snd_eq_ok _ _ h
    exact NodeInv_kept s s1 hinv (connect_frame s s1 sn so dn di a ha).kept
  | connect_conn conn =>
    obtain ⟨a, ha⟩ := map_snd_eq_ok _ _ h
    exact NodeInv_kept s s1 hinv (connect_conn_frame s s1 conn a ha).kept
  | disconnect sn so dn di =>
    exact NodeInv_kept s s1 hinv (disconnect_frame s s1 sn so dn di h).kept
  | disconnect_conn conn => exact NodeInv_kept s s1 hinv (disconnect_conn_frame s s1 conn h).kept
  | setValid self valid => exact NodeInv_kept s s1 hinv (setValid_frame s s1 self valid h).kept
  | setPos self pos => exact NodeInv_kept s s1 hinv (setPos_frame s s1 self pos h).kept
  | setText self text => exact NodeInv_kept s s1 hinv (setText_frame s s1 self text h).kept
  | addInlet self name type =>
    exact NodeInv_kept s s1 hinv (addInlet_frame s s1 self name type h).kept
  | addOutlet self name type =>
    exact NodeInv_kept s s1 hinv (addOutlet_frame s s1 self name type h).kept
  | removeLastInlet self => exact NodeInv_kept s s1 hinv (removeLastInlet_frame s s1 self h).kept
  | removeLastOutlet self =>
    exact NodeInv_kept s s1 hinv (removeLastOutlet_frame s s1 self h).kept
  | setInletCount self count =>
    exact NodeInv_kept s s1 hinv (setInletCount_frame fuel s s1 self count h).kept
  | setOutletCount self count =>
    exact NodeInv_kept s s1 hinv (setOutletCount_frame fuel s s1 self count h).kept
  | setInletTypes self types =>
    exact NodeInv_kept s s1 hinv (setInletTypes_frame fuel s s1 self types h).kept
  | setOutletTypes self types =>
    exact NodeInv_kept s s1 hinv (setOutletTypes_frame fuel s s1 self types h).kept

theorem Reachable.nodeInv {s : State} (h : Reachable s) : NodeInv s := by
  induction h with
  | init =>
    refine ⟨?_, ?_, ?_⟩ <;> simp [State.empty]
  | step c fuel _ hrun ih => exact Call.run_nodeInv c fuel _ _ ih hrun

theorem Reachable.checked {s : State} (h : Reachable s) : ∀ c ∈ s.connections_, Checked s c := by
  induction h with
  | init => simp [State.empty]
  | step c fuel _ hrun ih =>
    intro d hd
    have g := Call.run_grows c fuel _ _ hrun
    rcases g.checked d hd with h1 | h1
    · exact Checked.mono g (ih d h1)
    · exact h1

theorem emitFromNode_eval (s : State) (self : Nat) (n : QDataflowModelNode) (sig : Signal)
    (hn : s.nodeHeap[self]? = some n) :
    emitFromNode s self sig
      = .ok (if n.signalsBlocked then s
          else if n.relayed then (s.signal sig).emit sig else s.signal sig) := by
  have h1 : s.getNode self = .ok n := (load_eq_ok _ _ _).mpr hn
  unfold emitFromNode
  simp only [h1, bind, Except.bind, pure, Except.pure]
  split
  · rfl
  · split <;> rfl

theorem getElem?_set_self {α : Type} (l : List α) (p : Nat) (a b : α) (h : l[p]? = some a) :
    (l.set p b)[p]? = some b := by
  have hlt : p < l.length := (List.getElem?_eq_some_iff.mp h).1
  simp [List.getElem?_set, hlt]

/-- C18: in a reachable model, for a node `self` that is in the node set (object `n`):
`setText`, `setPos` and `setValid` with the current value return the state as it is;
with another value they return the state in which exactly that member of the node
object is replaced, the node has sent its signal and the model has emitted exactly one
signal, `nodeTextChanged` / `nodePosChanged` / `nodeValidChanged`, carrying the node
and the new value. -/
theorem property_setters_effect (s : State) (hr : Reachable s) (self : Nat)
    (n : QDataflowModelNode) (hn : s.nodeHeap[self]? = some n) (hmem : self ∈ s.nodes_) :
    (∀ text, setText s self text = .ok (if n.text_ = text then s else
      { s with
        nodeHeap := s.nodeHeap.set self { n with text_ := text }
        emitted := s.emitted ++ [.nodeTextChanged self text]
        signalled := s.signalled ++ [.nodeTextChanged self text] })) ∧
    (∀ pos, setPos s self pos = .ok (if n.pos_ = pos then s else
      { s with
        nodeHeap := s.nodeHeap.set self { n with pos_ := pos }
        emitted := s.emitted ++ [.nodePosChanged self pos]
        signalled := s.signalled ++ [.nodePosChanged self pos] })) ∧
    (∀ valid, setValid s self valid = .ok (if n.valid_ = valid then s else
      { s with
        nodeHeap := s.nodeHeap.set self { n with valid_ := valid }
        emitted := s.emitted ++ [.nodeValidChanged self valid]
        signalled := s.signalled ++ [.nodeValidChanged self valid] })) := by
  have hrel : n.relayed = true := (hr.nodeInv.relay self n hn).mpr hmem
  have hblk : n.signalsBlocked = false := hr.nodeInv.unblocked self n hn
  have h1 : s.getNode self = .ok n := (load_eq_ok _ _ _).mpr hn
  refine ⟨?_, ?_, ?_⟩
  · intro text
    unfold setText
    simp only [h1, bind, Except.bind, pure, Except.pure]
    split
    · rfl
    · rw [emitFromNode_eval _ self { n with text_ := text } _
        (getElem?_set_self _ _ _ _ hn)]
      simp only [hrel, hblk, Bool.false_eq_true, if_false, if_true]
      rfl
  · intro pos
    unfold setPos
    simp only [h1, bind, Except.bind, pure, Except.pure]
    split
    · rfl
    · rw [emitFromNode_eval _ self { n with pos_ := pos } _
        (getElem?_set_self _ _ _ _ hn)]
      simp only [hrel, hblk, Bool.false_eq_true, if_false, if_true]
      rfl
  · intro valid
    unfold setValid
    simp only [h1, bind, Except.bind, pure, Except.pure]
    split
    · rfl
    · rw [emitFromNode_eval _ self { n with valid_ := valid } _
        (getElem?_set_self _ _ _ _ hn)]
      simp only [hrel, hblk, Bool.false_eq_true, if_false, if_true]
      rfl

/-- Witness for C18, at `patch`, for the node "osc". -/
theorem property_setters_effect_witness :
    Reachable patch ∧
    patch.nodeHeap[0]? = some ⟨false, ⟨0, 0⟩, "osc", [0], [0], false, true⟩ ∧
    0 ∈ patch.nodes_ ∧
    setText patch 0 "osc" = .ok patch ∧
    (setPos patch 0 ⟨5, 7⟩).map (fun s => s.emitted)
      = .ok (patch.emitted ++ [.nodePosChanged 0 ⟨5, 7⟩]) :=
  have h := property_setters_effect patch (reachable_stateOf _) 0
    ⟨false, ⟨0, 0⟩, "osc", [0], [0], false, true⟩ (by decide) (by decide)
  ⟨reachable_stateOf _, by decide, by decide, by simpa using h.1 "osc",
    by rw [h.2.1 ⟨5, 7⟩]; rfl⟩

/-- C19: in every reachable state each member of the connection set joins an existing
outlet to an existing inlet whose declared types pass both compatibility checks; and a
call of any public operation leaves the declared type of every existing port as it
is. -/
theorem connections_stay_compatible (s : State) (hr : Reachable s) :
    (∀ c ∈ s.connections_, Checked s c) ∧
    ∀ (call : Call) (fuel : Nat) (s1 : State), call.run fuel s = .ok s1 →
      (∀ (p : Nat) (io : QDataflowModelIOlet), s.outletHeap[p]? = some io →
        ∃ io1, s1.outletHeap[p]? = some io1 ∧ io1.type_ = io.type_) ∧
      (∀ (p : Nat) (io : QDataflowModelIOlet), s.inletHeap[p]? = some io →
        ∃ io1, s1.inletHeap[p]? = some io1 ∧ io1.type_ = io.type_) := by
  refine ⟨hr.checked, ?_⟩
  intro call fuel s1 hrun
  have g := Call.run_grows call fuel s s1 hrun
  constructor
  · intro p io h
    obtain ⟨io1, a1, a2⟩ := g.outlets p io h
    simp only [portIdent, Prod.mk.injEq] at a2
    exact ⟨io1, a1, a2.2.2.2⟩
  · intro p io h
    obtain ⟨io1, a1, a2⟩ := g.inlets p io h
    simp only [portIdent, Prod.mk.injEq] at a2
    exact ⟨io1, a1, a2.2.2.2⟩

/-- Witness for C19, at `patched`. -/
theorem connections_stay_compatible_witness :
    Reachable patched ∧ patched.connections_ = [0] ∧ Checked patched 0 :=
  ⟨reachable_stateOf _, by decide,
    (connections_stay_compatible patched (reachable_stateOf _)).1 0 (by decide)⟩

theorem without_nil (io : QDataflowModelIOlet) : io.without [] = io := by
  cases io
  simp [QDataflowModelIOlet.without]

theorem without_append (io : QDataflowModelIOlet) (a b : List Nat) :
    (io.without a).without b = io.without (a ++ b) := by
  simp only [QDataflowModelIOlet.without, List.filter_filter, List.mem_append, not_or]
  congr 1
  apply List.filter_congr
  intro x _
  by_cases h1 : x ∈ a <;> by_cases h2 : x ∈ b <;> simp [h1, h2]

theorem without_of_not_mem (io : QDataflowModelIOlet) (cs : List Nat)
    (h : ∀ c ∈ cs, c ∉ io.connections_) : io.without cs = io := by
  cases io with
  | mk conns node index name type =>
    simp only [QDataflowModelIOlet.without, QDataflowModelIOlet.mk.injEq, and_true,
      List.filter_eq_self, decide_eq_true_eq]
    intro x hx hx1
    exact h x hx1 hx

theorem dropConns_nil (s : State) : dropConns s [] = s := by
  cases s
  simp [dropConns, without_nil]

theorem dropConns_append (s : State) (a b : List Nat) :
    dropConns (dropConns s a) b = dropConns s (a ++ b) := by
  simp only [dropConns, List.map_map, List.filter_filter, List.map_append, List.append_assoc,
    List.mem_append, not_or]
  congr 1
  · apply List.map_congr_left
    intro io _
    exact without_append io a b
  · apply List.map_congr_left
    intro io _
    exact without_append io a b
  · apply List.filter_congr
    intro x _
    by_cases h1 : x ∈ a <;> by_cases h2 : x ∈ b <;> simp [h1, h2]

theorem set_eq_map_of {α : Type} (l : List α) (p : Nat) (a : α) (f : α → α)
    (hp : l[p]? = some a) (hf : ∀ (q : Nat) (x : α), l[q]? = some x → q ≠ p → f x = x) :
    l.set p (f a) = l.map f := by
  apply List.ext_getElem?
  intro i
  rw [List.getElem?_set, List.getElem?_map]
  have hlt : p < l.length := (List.getElem?_eq_some_iff.mp hp).1
  by_cases e : p = i
  · subst e
    simp [hlt, hp]
  · simp only [e, if_false]
    cases hi : l[i]? with
    | none => rfl
    | some x => simp [hf i x hi (Ne.symm e)]

theorem removeConnection_eq_without (io : QDataflowModelIOlet) (c : Nat) :
    io.removeConnection c = io.without [c] := by
  simp only [QDataflowModelIOlet.removeConnection, QDataflowModelIOlet.without,
    List.mem_singleton]

theorem unlink_eq_dropConns (s : State) (hinv : ConnInv s) (c sp dp : Nat)
    (src dst : QDataflowModelIOlet)
    (hco : s.connHeap[c]? = some { source_ := some sp, dest_ := some dp })
    (hs : s.outletHeap[sp]? = some src) (hd : s.inletHeap[dp]? = some dst) :
    unlink s c sp dp src dst = dropConns s [c] := by
  have h1 : s.outletHeap.set sp (src.removeConnection c)
      = s.outletHeap.map (fun io => io.without [c]) := by
    rw [removeConnection_eq_without]
    apply set_eq_map_of _ _ _ (fun io => io.without [c]) hs
    intro q x hq hne
    apply without_of_not_mem
    intro d hd1 hd2
    simp only [List.mem_singleton] at hd1
    subst hd1
    obtain ⟨_, co, a1, a2⟩ := hinv.outletLists q x hq d hd2
    rw [hco] at a1
    cases a1
    simp only [Option.some.injEq] at a2
    exact hne a2.symm
  have h2 : s.inletHeap.set dp (dst.removeConnection c)
      = s.inletHeap.map (fun io => io.without [c]) := by
    rw [removeConnection_eq_without]
    apply set_eq_map_of _ _ _ (fun io => io.without [c]) hd
    intro q x hq hne
    apply without_of_not_mem
    intro d hd1 hd2
    simp only [List.mem_singleton] at hd1
    subst hd1
    obtain ⟨_, co, a1, a2⟩ := hinv.inletLists q x hq d hd2
    rw [hco] at a1
    cases a1
    simp only [Option.some.injEq] at a2
    exact hne a2.symm
  have h3 : qsetRemove s.connections_ c
      = s.connections_.filter (fun x => decide (x ∉ [c])) := by
    unfold qsetRemove
    apply List.filter_congr
    intro x _
    simp
  simp only [unlink, dropConns, h1, h2, h3, List.map_cons, List.map_nil]

theorem removeConnection_eval (s : State) (hinv : Inv s) (c : Nat) (hc : c ∈ s.connections_) :
    removeConnection s (some c) = .ok (dropConns s [c]) := by
  obtain ⟨sp, dp, src, dst, h1, h2, h3, _, _⟩ := hinv.conn.linked c hc
  rw [← unlink_eq_dropConns s hinv.conn c sp dp src dst h1 h2 h3]
  have g1 : s.getConn c = .ok { source_ := some sp, dest_ := some dp } :=
    (load_eq_ok _ _ _).mpr h1
  have g2 : s.getOutlet sp = .ok src := (load_eq_ok _ _ _).mpr h2
  have g3 : ∀ x, (s.setOutlet sp x).getInlet dp = .ok dst := fun _ => (load_eq_ok _ _ _).mpr h3
  unfold removeConnection
  simp only [hc, if_true, g1, g2, g3, bind, Except.bind, deref, pure, Except.pure]
  rfl

theorem dropConns_cons (s : State) (c : Nat) (cs : List Nat) :
    dropConns (dropConns s [c]) cs = dropConns s (c :: cs) :=
  dropConns_append s [c] cs

theorem mem_dropConns (s : State) (cs : List Nat) (d : Nat) :
    d ∈ (dropConns s cs).connections_ ↔ d ∈ s.connections_ ∧ d ∉ cs := by
  simp [dropConns, List.mem_filter]

theorem removeEach_eval (cs : List Nat) (s : State) (hinv : Inv s) (hnd : cs.Nodup)
    (hsub : ∀ c ∈ cs, c ∈ s.connections_) : removeEach s cs = .ok (dropConns s cs) := by
  induction cs generalizing s with
  | nil => simp [removeEach, dropConns_nil]
  | cons c rest ih =>
    have h1 := removeConnection_eval s hinv c (hsub c (by simp))
    have hinv1 := removeConnection_inv s _ (some c) hinv h1
    have hnd1 := List.nodup_cons.mp hnd
    have hsub1 : ∀ d ∈ rest, d ∈ (dropConns s [c]).connections_ := by
      intro d hd
      rw [mem_dropConns]
      refine ⟨hsub d (by simp [hd]), ?_⟩
      simp only [List.mem_singleton]
      rintro rfl
      exact hnd1.1 hd
    unfold removeEach
    simp only [h1, bind, Except.bind]
    rw [ih _ hinv1 hnd1.2 hsub1, dropConns_cons]

theorem filter_eq_singleton (l : List Nat) (p : Nat → Bool) (c : Nat) (hnd : l.Nodup)
    (hc : c ∈ l) (hp : p c = true) (hu : ∀ d ∈ l, p d = true → d = c) :
    l.filter p = [c] := by
  induction l with
  | nil => cases hc
  | cons a rest ih =>
    have hnd1 := List.nodup_cons.mp hnd
    by_cases e : a = c
    · subst e
      have : rest.filter p = [] := by
        rw [List.filter_eq_nil_iff]
        intro d hd hpd
        have := hu d (by simp [hd]) hpd
        subst this
        exact hnd1.1 hd
      simp [List.filter_cons, hp, this]
    · have hpa : p a = false := by
        cases h : p a with
        | false => rfl
        | true => exact absurd (hu a (by simp) h) e
      have hc1 : c ∈ rest := by
        rcases List.mem_cons.mp hc with h | h
        · exact absurd h.symm e
        · exact h
      simp only [List.filter_cons, hpa, Bool.false_eq_true, if_false]
      exact ih hnd1.2 hc1 (fun d hd => hu d (by simp [hd]))

theorem findConnections_conn_member (s : State) (hinv : Inv s) (c : Nat)
    (hc : c ∈ s.connections_) : findConnections_conn s (some c) = .ok [c] := by
  obtain ⟨sp, dp, src, dst, h1, h2, h3, _, _⟩ := hinv.conn.linked c hc
  rw [findConnections_conn_eq s hinv.conn c sp dp src dst h1 h2 h3]
  congr 1
  apply filter_eq_singleton _ _ _ hinv.conn.nodup hc (by simp)
  intro d hd hp
  simp only [decide_eq_true_eq] at hp
  exact hinv.conn.unique d hd c hc hp

theorem disconnect_conn_eval (s : State) (hinv : Inv s) (c : Nat) (hc : c ∈ s.connections_) :
    disconnect_conn s (some c) = .ok (dropConns s [c]) := by
  unfold disconnect_conn
  simp only [findConnections_conn_member s hinv c hc, bind, Except.bind]
  exact removeEach_eval [c] s hinv (List.nodup_singleton c) (by simpa using hc)

theorem disconnectEach_eval (cs : List Nat) (s : State) (hinv : Inv s) (hnd : cs.Nodup)
    (hsub : ∀ c ∈ cs, c ∈ s.connections_) : disconnectEach s cs = .ok (dropConns s cs) := by
  induction cs generalizing s with
  | nil => simp [disconnectEach, dropConns_nil]
  | cons c rest ih =>
    have h1 := disconnect_conn_eval s hinv c (hsub c (by simp))
    have hinv1 := disconnect_conn_inv s _ (some c) hinv h1
    have hnd1 := List.nodup_cons.mp hnd
    have hsub1 : ∀ d ∈ rest, d ∈ (dropConns s [c]).connections_ := by
      intro d hd
      rw [mem_dropConns]
      refine ⟨hsub d (by simp [hd]), ?_⟩
      simp only [List.mem_singleton]
      rintro rfl
      exact hnd1.1 hd
    unfold disconnectEach
    simp only [h1, bind, Except.bind]
    rw [ih _ hinv1 hnd1.2 hsub1, dropConns_cons]

theorem portKey_map_without (heap : List QDataflowModelIOlet) (cs : List Nat) (q : Nat) :
    portKey (heap.map (fun io => io.without cs)) q = portKey heap q := by
  unfold portKey
  rw [List.getElem?_map]
  cases heap[q]? <;> rfl

theorem endpoints_dropConns (s : State) (cs : List Nat) (d : Nat) :
    endpoints (dropConns s cs) d = endpoints s d := by
  unfold endpoints
  simp only [dropConns, portKey_map_without]

theorem length_le_one_of_all_eq (l : List Nat) (hnd : l.Nodup)
    (h : ∀ a ∈ l, ∀ b ∈ l, a = b) : l.length ≤ 1 := by
  match l, hnd, h with
  | [], _, _ => simp
  | [_], _, _ => simp
  | a :: b :: rest, hnd, h =>
    have := h a (by simp) b (by simp)
    subst this
    simp at hnd

theorem outlet_kept_by_dropConns (s : State) (hinv : Inv s) (cs : List Nat) (p : Nat)
    (io : QDataflowModelIOlet) (hp : s.outletHeap[p]? = some io)
    (h : ∀ c ∈ cs, sourceOf s c ≠ some p) : (dropConns s cs).outletHeap[p]? = some io := by
  simp only [dropConns, List.getElem?_map, hp, Option.map_some', Option.some.injEq]
  apply without_of_not_mem
  intro c hc hm
  obtain ⟨_, co, a1, a2⟩ := hinv.conn.outletLists p io hp c hm
  exact h c hc (by simp [sourceOf, a1, a2])

theorem inlet_kept_by_dropConns (s : State) (hinv : Inv s) (cs : List Nat) (p : Nat)
    (io : QDataflowModelIOlet) (hp : s.inletHeap[p]? = some io)
    (h : ∀ c ∈ cs, destOf s c ≠ some p) : (dropConns s cs).inletHeap[p]? = some io := by
  simp only [dropConns, List.getElem?_map, hp, Option.map_some', Option.some.injEq]
  apply without_of_not_mem
  intro c hc hm
  obtain ⟨_, co, a1, a2⟩ := hinv.conn.inletLists p io hp c hm
  exact h c hc (by simp [destOf, a1, a2])

/-- C20: in a reachable model `disconnect(sourceNode, sourceOutlet, destNode, destInlet)`
returns. With `found` the members of the connection set whose endpoint quadruple (read
from the stored node and index of their two ports) is the given one (none when a node
is null, at most one otherwise), the state it leaves is `dropConns s found`: exactly the
found connections are gone from the connection set and from every port's list,
`connectionRemoved` was emitted once for each and nothing else, and the node set, the
node objects, the connection objects, the node signals and the other members of every
list are as before; a port that is not an endpoint of a found connection is unchanged
as a whole; afterwards no member of the connection set has the quadruple, and
`findConnections` for it is empty. -/
theorem disconnect_effect (s : State) (hr : Reachable s) (sourceNode destNode : Option Nat)
    (so di : Int) :
    ∃ (found : List Nat) (s1 : State),
      (∀ c, c ∈ found ↔ c ∈ s.connections_ ∧ ∃ sn dn, sourceNode = some sn ∧
        destNode = some dn ∧ endpoints s c = some ((sn, so), (dn, di))) ∧
      found.Nodup ∧ found.length ≤ 1 ∧
      disconnect s sourceNode so destNode di = .ok s1 ∧
      s1 = dropConns s found ∧
      s1.connections_ = s.connections_.filter (fun c => decide (c ∉ found)) ∧
      s1.outletHeap = s.outletHeap.map (fun io => io.without found) ∧
      s1.inletHeap = s.inletHeap.map (fun io => io.without found) ∧
      s1.emitted = s.emitted ++ found.map Signal.connectionRemoved ∧
      s1.nodes_ = s.nodes_ ∧ s1.nodeHeap = s.nodeHeap ∧ s1.connHeap = s.connHeap ∧
      s1.signalled = s.signalled ∧
      (∀ (p : Nat) (io : QDataflowModelIOlet), s.outletHeap[p]? = some io →
        (∀ c ∈ found, sourceOf s c ≠ some p) → s1.outletHeap[p]? = some io) ∧
      (∀ (p : Nat) (io : QDataflowModelIOlet), s.inletHeap[p]? = some io →
        (∀ c ∈ found, destOf s c ≠ some p) → s1.inletHeap[p]? = some io) ∧
      (∀ d ∈ s1.connections_, ∀ sn dn, sourceNode = some sn → destNode = some dn →
        endpoints s1 d ≠ some ((sn, so), (dn, di))) ∧
      findConnections s1 sourceNode so destNode di = .ok [] := by
  have hinv := hr.inv
  cases sourceNode with
  | none =>
    refine ⟨[], s, by simp, List.nodup_nil, by simp, rfl, (dropConns_nil s).symm, by simp,
      ?_, ?_, by simp, rfl, rfl, rfl, rfl, fun p io hp _ => hp, fun p io hp _ => hp, ?_, rfl⟩
    · have h := congrArg State.outletHeap (dropConns_nil s)
      exact h.symm
    · have h := congrArg State.inletHeap (dropConns_nil s)
      exact h.symm
    · intro d _ sn dn h
      cases h
  | some sn =>
    cases destNode with
    | none =>
      refine ⟨[], s, by simp, List.nodup_nil, by simp, rfl, (dropConns_nil s).symm, by simp,
        ?_, ?_, by simp, rfl, rfl, rfl, rfl, fun p io hp _ => hp, fun p io hp _ => hp, ?_, rfl⟩
      · have h := congrArg State.outletHeap (dropConns_nil s)
        exact h.symm
      · have h := congrArg State.inletHeap (dropConns_nil s)
        exact h.symm
      · intro d _ sn1 dn _ h
        cases h
    | some dn =>
      have hf := findConnections_eq s hinv.conn sn so dn di
      have hsub : ∀ c ∈ s.connections_.filter
          (fun c => decide (endpoints s c = some ((sn, so), (dn, di)))), c ∈ s.connections_ :=
        fun c hc => (List.mem_filter.mp hc).1
      have hnd := hinv.conn.nodup.filter
        (fun c => decide (endpoints s c = some ((sn, so), (dn, di))))
      have hrun : disconnect s (some sn) so (some dn) di = .ok (dropConns s
          (s.connections_.filter
            (fun c => decide (endpoints s c = some ((sn, so), (dn, di)))))) := by
        unfold disconnect
        simp only [hf, bind, Except.bind]
        exact removeEach_eval _ s hinv hnd hsub
      have hinv1 := disconnect_inv s _ _ _ _ _ hinv hrun
      have hgone : ∀ d ∈ (dropConns s (s.connections_.filter
          (fun c => decide (endpoints s c = some ((sn, so), (dn, di)))))).connections_,
          endpoints (dropConns s (s.connections_.filter
            (fun c => decide (endpoints s c = some ((sn, so), (dn, di)))))) d
            ≠ some ((sn, so), (dn, di)) := by
        intro d hd he
        rw [endpoints_dropConns] at he
        rw [mem_dropConns] at hd
        exact hd.2 (List.mem_filter.mpr ⟨hd.1, by simpa using he⟩)
      refine ⟨_, _, ?_, hnd, ?_, hrun, rfl, rfl, rfl, rfl, rfl, rfl, rfl, rfl, rfl, ?_, ?_, ?_, ?_⟩
      · intro c
        rw [List.mem_filter, decide_eq_true_eq]
        constructor
        · intro h
          exact ⟨h.1, sn, dn, rfl, rfl, h.2⟩
        · rintro ⟨h1, sn1, dn1, e1, e2, h2⟩
          cases e1
          cases e2
          exact ⟨h1, h2⟩
      · apply length_le_one_of_all_eq _ hnd
        intro a ha b hb
        simp only [List.mem_filter, decide_eq_true_eq] at ha hb
        exact hinv.conn.unique a ha.1 b hb.1 (ha.2.trans hb.2.symm)
      · exact fun p io hp h => outlet_kept_by_dropConns s hinv _ p io hp h
      · exact fun p io hp h => inlet_kept_by_dropConns s hinv _ p io hp h
      · intro d hd sn1 dn1 e1 e2
        cases e1
        cases e2
        exact hgone d hd
      · rw [findConnections_eq _ hinv1.conn]
        simp only [Except.ok.injEq, List.filter_eq_nil_iff, decide_eq_true_eq]
        exact hgone

/-- Witness for C20, at `fanned`, where the second outlet of "osc" feeds both inlets of
"gain": disconnecting it from the second inlet removes connection 1 and leaves
connections 0 and 2, of which connection 0 shares the outlet. -/
theorem disconnect_effect_witness :
    Reachable fanned ∧ fanned.connections_ = [0, 1, 2] ∧
    endpoints fanned 0 = some ((0, 1), (1, 0)) ∧
    endpoints fanned 1 = some ((0, 1), (1, 1)) ∧
    endpoints fanned 2 = some ((0, 0), (1, 0)) ∧
    disconnect fanned (some 0) 1 (some 1) 1 = .ok (dropConns fanned [1]) ∧
    (dropConns fanned [1]).connections_ = [0, 2] ∧
    (dropConns fanned [1]).emitted = fanned.emitted ++ [.connectionRemoved 1] ∧
    (dropConns fanned [1]).outletHeap.map (fun io => io.connections_) = [[2], [0], []] ∧
    (dropConns fanned [1]).inletHeap.map (fun io => io.connections_) = [[], [0, 2], []] := by
  obtain ⟨found, s1, hchar, _, hlen, hrun, heq, _⟩ :=
    disconnect_effect fanned (reachable_stateOf _) (some 0) (some 1) 1 1
  have h1 : 1 ∈ found := (hchar 1).mpr ⟨by decide, 0, 1, rfl, rfl, by decide⟩
  have hfound : found = [1] := by
    match found, hlen, h1 with
    | [a], _, h1 =>
      simp only [List.mem_singleton] at h1
      rw [h1]
  subst hfound
  subst heq
  exact ⟨reachable_stateOf _, by decide, by decide, by decide, by decide, hrun, by decide,
    by decide, by decide, by decide⟩

theorem mem_outlet_list_iff (s : State) (hinv : Inv s) (p : Nat) (io : QDataflowModelIOlet)
    (hp : s.outletHeap[p]? = some io) (c : Nat) :
    c ∈ io.connections_ ↔ c ∈ s.connections_ ∧ sourceOf s c = some p := by
  constructor
  · intro h
    obtain ⟨hm, co, a1, a2⟩ := hinv.conn.outletLists p io hp c h
    exact ⟨hm, by simp [sourceOf, a1, a2]⟩
  · rintro ⟨hm, hsrc⟩
    obtain ⟨sp, dp, src, dst, h1, h2, _, h4, _⟩ := hinv.conn.linked c hm
    simp only [sourceOf, h1, Option.some_bind, Option.some.injEq] at hsrc
    subst hsrc
    rw [hp] at h2
    cases h2
    apply List.count_pos_iff.mp
    omega

theorem mem_inlet_list_iff (s : State) (hinv : Inv s) (p : Nat) (io : QDataflowModelIOlet)
    (hp : s.inletHeap[p]? = some io) (c : Nat) :
    c ∈ io.connections_ ↔ c ∈ s.connections_ ∧ destOf s c = some p := by
  constructor
  · intro h
    obtain ⟨hm, co, a1, a2⟩ := hinv.conn.inletLists p io hp c h
    exact ⟨hm, by simp [destOf, a1, a2]⟩
  · rintro ⟨hm, hdst⟩
    obtain ⟨sp, dp, src, dst, h1, _, h3, _, h5⟩ := hinv.conn.linked c hm
    simp only [destOf, h1, Option.some_bind, Option.some.injEq] at hdst
    subst hdst
    rw [hp] at h3
    cases h3
    apply List.count_pos_iff.mp
    omega

theorem outlet_list_nodup (s : State) (hinv : Inv s) (p : Nat) (io : QDataflowModelIOlet)
    (hp : s.outletHeap[p]? = some io) : io.connections_.Nodup := by
  rw [List.nodup_iff_count_le_one]
  intro c
  by_cases hc : c ∈ io.connections_
  · obtain ⟨hm, co, a1, a2⟩ := hinv.conn.outletLists p io hp c hc
    obtain ⟨sp, dp, src, dst, h1, h2, _, h4, _⟩ := hinv.conn.linked c hm
    rw [a1] at h1
    cases h1
    simp only [Option.some.injEq] at a2
    subst a2
    rw [hp] at h2
    cases h2
    omega
  · rw [List.count_eq_zero_of_not_mem hc]
    omega

theorem inlet_list_nodup (s : State) (hinv : Inv s) (p : Nat) (io : QDataflowModelIOlet)
    (hp : s.inletHeap[p]? = some io) : io.connections_.Nodup := by
  rw [List.nodup_iff_count_le_one]
  intro c
  by_cases hc : c ∈ io.connections_
  · obtain ⟨hm, co, a1, a2⟩ := hinv.conn.inletLists p io hp c hc
    obtain ⟨sp, dp, src, dst, h1, _, h3, _, h5⟩ := hinv.conn.linked c hm
    rw [a1] at h1
    cases h1
    simp only [Option.some.injEq] at a2
    subst a2
    rw [hp] at h3
    cases h3
    omega
  · rw [List.count_eq_zero_of_not_mem hc]
    omega

theorem outlet_exists (s : State) (hinv : Inv s) (self : Nat) (n : QDataflowModelNode)
    (hn : s.nodeHeap[self]? = some n) (i p : Nat) (hp : n.outlets_[i]? = some p) :
    ∃ io, s.outletHeap[p]? = some io ∧ io.node_ = self ∧ io.index_ = (i : Int) := by
  have h := hinv.port.outlets self n hn i p hp
  unfold portKey at h
  cases ho : s.outletHeap[p]? with
  | none => simp [ho] at h
  | some io =>
    simp only [ho, Option.map_some', Option.some.injEq, Prod.mk.injEq] at h
    exact ⟨io, rfl, h.1, h.2⟩

theorem inlet_exists (s : State) (hinv : Inv s) (self : Nat) (n : QDataflowModelNode)
    (hn : s.nodeHeap[self]? = some n) (i p : Nat) (hp : n.inlets_[i]? = some p) :
    ∃ io, s.inletHeap[p]? = some io ∧ io.node_ = self ∧ io.index_ = (i : Int) := by
  have h := hinv.port.inlets self n hn i p hp
  unfold portKey at h
  cases ho : s.inletHeap[p]? with
  | none => simp [ho] at h
  | some io =>
    simp only [ho, Option.map_some', Option.some.injEq, Prod.mk.injEq] at h
    exact ⟨io, rfl, h.1, h.2⟩

theorem setNode_self (s : State) (p : Nat) (n : QDataflowModelNode)
    (h : s.nodeHeap[p]? = some n) : s.setNode p n = s := by
  have : s.nodeHeap.set p n = s.nodeHeap := by
    apply List.ext_getElem?
    intro i
    rw [List.getElem?_set]
    by_cases e : p = i
    · subst e
      have hlt : p < s.nodeHeap.length := (List.getElem?_eq_some_iff.mp h).1
      simp [hlt, h]
    · simp [e]
  cases s
  simp only [State.setNode] at this ⊢
  rw [this]

theorem setNode_setNode (s : State) (p : Nat) (a b : QDataflowModelNode) :
    (s.setNode p a).setNode p b = s.setNode p b := by
  simp [State.setNode, List.set_set]

theorem dropConns_setNode (s : State) (p : Nat) (a : QDataflowModelNode) (cs : List Nat) :
    dropConns (s.setNode p a) cs = (dropConns s cs).setNode p a := rfl

theorem getNode_setNode (s : State) (p : Nat) (n a : QDataflowModelNode)
    (h : s.nodeHeap[p]? = some n) : (s.setNode p a).nodeHeap[p]? = some a :=
  getElem?_set_self _ _ _ _ h

theorem emitFromNode_blocked (s : State) (self : Nat) (n : QDataflowModelNode) (sig : Signal)
    (hn : s.nodeHeap[self]? = some n) (hb : n.signalsBlocked = true) :
    emitFromNode s self sig = .ok s := by
  rw [emitFromNode_eval s self n sig hn]
  simp [hb]

theorem removeLastOutlet_eval (s : State) (hinv : Inv s) (self : Nat)
    (n : QDataflowModelNode) (hn : s.nodeHeap[self]? = some n) (hb : n.signalsBlocked = true)
    (o : Nat) (io : QDataflowModelIOlet) (hlast : n.outlets_.getLast? = some o)
    (ho : s.outletHeap[o]? = some io) :
    removeLastOutlet s self
      = .ok ((dropConns s io.connections_).setNode self
          { n with outlets_ := n.outlets_.dropLast }) := by
  have g1 : s.getNode self = .ok n := (load_eq_ok _ _ _).mpr hn
  have g2 : s.getOutlet o = .ok io := (load_eq_ok _ _ _).mpr ho
  have g3 := disconnectEach_eval io.connections_ s hinv (outlet_list_nodup s hinv o io ho)
    (fun c hc => (hinv.conn.outletLists o io ho c hc).1)
  have g4 : (dropConns s io.connections_).getNode self = .ok n := (load_eq_ok _ _ _).mpr hn
  have g5 : ((dropConns s io.connections_).setNode self
      { n with outlets_ := n.outlets_.dropLast }).getNode self
      = .ok { n with outlets_ := n.outlets_.dropLast } :=
    (load_eq_ok _ _ _).mpr (getNode_setNode _ _ n _ hn)
  unfold removeLastOutlet
  simp only [g1, bind, Except.bind, hlast, g2, g3, g4, g5]
  exact emitFromNode_blocked _ self { n with outlets_ := n.outlets_.dropLast } _
    (getNode_setNode _ _ n _ hn) hb

theorem removeLastInlet_eval (s : State) (hinv : Inv s) (self : Nat)
    (n : QDataflowModelNode) (hn : s.nodeHeap[self]? = some n) (hb : n.signalsBlocked = true)
    (o : Nat) (io : QDataflowModelIOlet) (hlast : n.inlets_.getLast? = some o)
    (ho : s.inletHeap[o]? = some io) :
    removeLastInlet s self
      = .ok ((dropConns s io.connections_).setNode self
          { n with inlets_ := n.inlets_.dropLast }) := by
  have g1 : s.getNode self = .ok n := (load_eq_ok _ _ _).mpr hn
  have g2 : s.getInlet o = .ok io := (load_eq_ok _ _ _).mpr ho
  have g3 := disconnectEach_eval io.connections_ s hinv (inlet_list_nodup s hinv o io ho)
    (fun c hc => (hinv.conn.inletLists o io ho c hc).1)
  have g4 : (dropConns s io.connections_).getNode self = .ok n := (load_eq_ok _ _ _).mpr hn
  have g5 : ((dropConns s io.connections_).setNode self
      { n with inlets_ := n.inlets_.dropLast }).getNode self
      = .ok { n with inlets_ := n.inlets_.dropLast } :=
    (load_eq_ok _ _ _).mpr (getNode_setNode _ _ n _ hn)
  unfold removeLastInlet
  simp only [g1, bind, Except.bind, hlast, g2, g3, g4, g5]
  exact emitFromNode_blocked _ self { n with inlets_ := n.inlets_.dropLast } _
    (getNode_setNode _ _ n _ hn) hb

theorem node_eta_outlets (n : QDataflowModelNode) : { n with outlets_ := n.outlets_ } = n := by
  cases n; rfl

theorem node_eta_inlets (n : QDataflowModelNode) : { n with inlets_ := n.inlets_ } = n := by
  cases n; rfl

theorem cutOutlets_nil (s : State) (self : Nat) (n : QDataflowModelNode) (m : Nat)
    (hn : s.nodeHeap[self]? = some n) (hm : n.outlets_.length ≤ m) :
    cutOutlets s self n m [] = s := by
  unfold cutOutlets
  rw [dropConns_nil, List.take_of_length_le hm, node_eta_outlets, setNode_self s self n hn]

theorem take_dropLast {α : Type} (l : List α) (m : Nat) (h : m < l.length) :
    l.dropLast.take m = l.take m := by
  rw [List.dropLast_eq_take, List.take_take]
  congr 1
  omega

theorem cutOutlets_step (s : State) (self : Nat) (n : QDataflowModelNode) (m : Nat)
    (a b : List Nat) (h : m < n.outlets_.length) :
    cutOutlets ((dropConns s a).setNode self { n with outlets_ := n.outlets_.dropLast })
        self { n with outlets_ := n.outlets_.dropLast } m b
      = cutOutlets s self n m (a ++ b) := by
  unfold cutOutlets
  rw [dropConns_setNode, setNode_setNode, dropConns_append]
  simp only [take_dropLast _ _ h]

theorem shrinkOutlets_eval (self m : Nat) : ∀ (k fuel : Nat) (s : State)
    (n : QDataflowModelNode), Inv s → s.nodeHeap[self]? = some n →
    n.signalsBlocked = true → n.outlets_.length = m + k → k < fuel →
    ∃ removed, removed.Nodup ∧
      (∀ c, c ∈ removed ↔
        c ∈ s.connections_ ∧ ∃ p ∈ n.outlets_.drop m, sourceOf s c = some p) ∧
      shrinkOutlets fuel s self (m : Int) = .ok (cutOutlets s self n m removed) := by
  intro k
  induction k with
  | zero =>
    intro fuel s n hinv hn hb hlen hfuel
    obtain ⟨f, rfl⟩ : ∃ f, fuel = f + 1 := ⟨fuel - 1, by omega⟩
    have g1 : s.getNode self = .ok n := (load_eq_ok _ _ _).mpr hn
    refine ⟨[], List.nodup_nil, ?_, ?_⟩
    · intro c
      have hd : n.outlets_.drop m = [] := List.drop_of_length_le (by omega)
      simp [hd]
    · have hc : ¬ (n.outletCount > (m : Int)) := by
        simp only [QDataflowModelNode.outletCount]
        omega
      unfold shrinkOutlets
      simp only [g1, bind, Except.bind, hc, if_false, pure, Except.pure]
      rw [cutOutlets_nil s self n m hn (by omega)]
  | succ k ih =>
    intro fuel s n hinv hn hb hlen hfuel
    obtain ⟨f, rfl⟩ : ∃ f, fuel = f + 1 := ⟨fuel - 1, by omega⟩
    have g1 : s.getNode self = .ok n := (load_eq_ok _ _ _).mpr hn
    have hne : n.outlets_ ≠ [] := by
      intro h
      rw [h] at hlen
      simp only [List.length_nil] at hlen
      omega
    have hlast : n.outlets_.getLast? = some (n.outlets_.getLast hne) :=
      List.getLast?_eq_getLast _ hne
    have hidx : n.outlets_[m + k]? = some (n.outlets_.getLast hne) := by
      rw [List.getLast_eq_getElem]
      have : n.outlets_.length - 1 = m + k := by omega
      simp only [this]
      exact List.getElem?_eq_getElem (by omega)
    obtain ⟨io, ho, _, _⟩ := outlet_exists s hinv self n hn _ _ hidx
    have hstep := removeLastOutlet_eval s hinv self n hn hb _ io hlast ho
    have hinv1 := removeLastOutlet_inv s _ self hinv hstep
    have hn1 : ((dropConns s io.connections_).setNode self
        { n with outlets_ := n.outlets_.dropLast }).nodeHeap[self]?
        = some { n with outlets_ := n.outlets_.dropLast } := getNode_setNode _ _ n _ hn
    obtain ⟨removed1, hnd1, hchar1, hrun1⟩ := ih f _ { n with outlets_ := n.outlets_.dropLast }
      hinv1 hn1 hb (by simp [List.length_dropLast]; omega) (by omega)
    have hsplit : n.outlets_.drop m = n.outlets_.dropLast.drop m ++ [n.outlets_.getLast hne] := by
      conv_lhs => rw [← List.dropLast_append_getLast hne]
      rw [List.drop_append_of_le_length (by simp [List.length_dropLast]; omega)]
    refine ⟨io.connections_ ++ removed1, ?_, ?_, ?_⟩
    · refine List.Nodup.append (outlet_list_nodup s hinv _ io ho) hnd1 ?_
      intro c hc1 hc2
      have := ((hchar1 c).mp hc2).1
      rw [show ((dropConns s io.connections_).setNode self
        { n with outlets_ := n.outlets_.dropLast }).connections_
          = (dropConns s io.connections_).connections_ from rfl, mem_dropConns] at this
      exact this.2 hc1
    · intro c
      rw [List.mem_append, mem_outlet_list_iff s hinv _ io ho, hchar1 c, hsplit]
      rw [show ((dropConns s io.connections_).setNode self
        { n with outlets_ := n.outlets_.dropLast }).connections_
          = (dropConns s io.connections_).connections_ from rfl, mem_dropConns,
        mem_outlet_list_iff s hinv _ io ho]
      have hsrc : sourceOf ((dropConns s io.connections_).setNode self
          { n with outlets_ := n.outlets_.dropLast }) c = sourceOf s c := rfl
      rw [hsrc]
      constructor
      · rintro (⟨h1, h2⟩ | ⟨⟨h1, _⟩, p, hp, h2⟩)
        · exact ⟨h1, _, by simp, h2⟩
        · exact ⟨h1, p, by simp [hp], h2⟩
      · rintro ⟨h1, p, hp, h2⟩
        by_cases e : sourceOf s c = some (n.outlets_.getLast hne)
        · exact Or.inl ⟨h1, e⟩
        · right
          refine ⟨⟨h1, fun h => e h.2⟩, p, ?_, h2⟩
          rcases List.mem_append.mp hp with hp1 | hp1
          · exact hp1
          · simp only [List.mem_singleton] at hp1
            subst hp1
            exact absurd h2 e
    · have hc : n.outletCount > (m : Int) := by
        simp only [QDataflowModelNode.outletCount]
        omega
      unfold shrinkOutlets
      simp only [g1, bind, Except.bind, hc, if_true, hstep]
      rw [hrun1, cutOutlets_step s self n m _ _ (by omega)]

theorem cutInlets_nil (s : State) (self : Nat) (n : QDataflowModelNode) (m : Nat)
    (hn : s.nodeHeap[self]? = some n) (hm : n.inlets_.length ≤ m) :
    cutInlets s self n m [] = s := by
  unfold cutInlets
  rw [dropConns_nil, List.take_of_length_le hm, node_eta_inlets, setNode_self s self n hn]

theorem cutInlets_step (s : State) (self : Nat) (n : QDataflowModelNode) (m : Nat)
    (a b : List Nat) (h : m < n.inlets_.length) :
    cutInlets ((dropConns s a).setNode self { n with inlets_ := n.inlets_.dropLast })
        self { n with inlets_ := n.inlets_.dropLast } m b
      = cutInlets s self n m (a ++ b) := by
  unfold cutInlets
  rw [dropConns_setNode, setNode_setNode, dropConns_append]
  simp only [take_dropLast _ _ h]

theorem shrinkInlets_eval (self m : Nat) : ∀ (k fuel : Nat) (s : State)
    (n : QDataflowModelNode), Inv s → s.nodeHeap[self]? = some n →
    n.signalsBlocked = true → n.inlets_.length = m + k → k < fuel →
    ∃ removed, removed.Nodup ∧
      (∀ c, c ∈ removed ↔
        c ∈ s.connections_ ∧ ∃ p ∈ n.inlets_.drop m, destOf s c = some p) ∧
      shrinkInlets fuel s self (m : Int) = .ok (cutInlets s self n m removed) := by
  intro k
  induction k with
  | zero =>
    intro fuel s n hinv hn hb hlen hfuel
    obtain ⟨f, rfl⟩ : ∃ f, fuel = f + 1 := ⟨fuel - 1, by omega⟩
    have g1 : s.getNode self = .ok n := (load_eq_ok _ _ _).mpr hn
    refine ⟨[], List.nodup_nil, ?_, ?_⟩
    · intro c
      have hd : n.inlets_.drop m = [] := List.drop_of_length_le (by omega)
      simp [hd]
    · have hc : ¬ (n.inletCount > (m : Int)) := by
        simp only [QDataflowModelNode.inletCount]
        omega
      unfold shrinkInlets
      simp only [g1, bind, Except.bind, hc, if_false, pure, Except.pure]
      rw [cutInlets_nil s self n m hn (by omega)]
  | succ k ih =>
    intro fuel s n hinv hn hb hlen hfuel
    obtain ⟨f, rfl⟩ : ∃ f, fuel = f + 1 := ⟨fuel - 1, by omega⟩
    have g1 : s.getNode self = .ok n := (load_eq_ok _ _ _).mpr hn
    have hne : n.inlets_ ≠ [] := by
      intro h
      rw [h] at hlen
      simp only [List.length_nil] at hlen
      omega
    have hlast : n.inlets_.getLast? = some (n.inlets_.getLast hne) :=
      List.getLast?_eq_getLast _ hne
    have hidx : n.inlets_[m + k]? = some (n.inlets_.getLast hne) := by
      rw [List.getLast_eq_getElem]
      have : n.inlets_.length - 1 = m + k := by omega
      simp only [this]
      exact List.getElem?_eq_getElem (by omega)
    obtain ⟨io, ho, _, _⟩ := inlet_exists s hinv self n hn _ _ hidx
    have hstep := removeLastInlet_eval s hinv self n hn hb _ io hlast ho
    have hinv1 := removeLastInlet_inv s _ self hinv hstep
    have hn1 : ((dropConns s io.connections_).setNode self
        { n with inlets_ := n.inlets_.dropLast }).nodeHeap[self]?
        = some { n with inlets_ := n.inlets_.dropLast } := getNode_setNode _ _ n _ hn
    obtain ⟨removed1, hnd1, hchar1, hrun1⟩ := ih f _ { n with inlets_ := n.inlets_.dropLast }
      hinv1 hn1 hb (by simp [List.length_dropLast]; omega) (by omega)
    have hsplit : n.inlets_.drop m = n.inlets_.dropLast.drop m ++ [n.inlets_.getLast hne] := by
      conv_lhs => rw [← List.dropLast_append_getLast hne]
      rw [List.drop_append_of_le_length (by simp [List.length_dropLast]; omega)]
    refine ⟨io.connections_ ++ removed1, ?_, ?_, ?_⟩
    · refine List.Nodup.append (inlet_list_nodup s hinv _ io ho) hnd1 ?_
      intro c hc1 hc2
      have := ((hchar1 c).mp hc2).1
      rw [show ((dropConns s io.connections_).setNode self
        { n with inlets_ := n.inlets_.dropLast }).connections_
          = (dropConns s io.connections_).connections_ from rfl, mem_dropConns] at this
      exact this.2 hc1
    · intro c
      rw [List.mem_append, mem_inlet_list_iff s hinv _ io ho, hchar1 c, hsplit]
      rw [show ((dropConns s io.connections_).setNode self
        { n with inlets_ := n.inlets_.dropLast }).connections_
          = (dropConns s io.connections_).connections_ from rfl, mem_dropConns,
        mem_inlet_list_iff s hinv _ io ho]
      have hsrc : destOf ((dropConns s io.connections_).setNode self
          { n with inlets_ := n.inlets_.dropLast }) c = destOf s c := rfl
      rw [hsrc]
      constructor
      · rintro (⟨h1, h2⟩ | ⟨⟨h1, _⟩, p, hp, h2⟩)
        · exact ⟨h1, _, by simp, h2⟩
        · exact ⟨h1, p, by simp [hp], h2⟩
      · rintro ⟨h1, p, hp, h2⟩
        by_cases e : destOf s c = some (n.inlets_.getLast hne)
        · exact Or.inl ⟨h1, e⟩
        · right
          refine ⟨⟨h1, fun h => e h.2⟩, p, ?_, h2⟩
          rcases List.mem_append.mp hp with hp1 | hp1
          · exact hp1
          · simp only [List.mem_singleton] at hp1
            subst hp1
            exact absurd h2 e
    · have hc : n.inletCount > (m : Int) := by
        simp only [QDataflowModelNode.inletCount]
        omega
      unfold shrinkInlets
      simp only [g1, bind, Except.bind, hc, if_true, hstep]
      rw [hrun1, cutInlets_step s self n m _ _ (by omega)]

theorem withOutlets_nil (s : State) (self : Nat) (n : QDataflowModelNode)
    (hn : s.nodeHeap[self]? = some n) : withOutlets s self n [] = s := by
  have h := setNode_self s self n hn
  cases s
  simp only [State.setNode] at h
  simp only [withOutlets, freshPorts, List.append_nil, List.length_nil, List.range'_zero,
    node_eta_outlets]
  exact h

theorem withOutlets_cons (s : State) (self : Nat) (n : QDataflowModelNode) (t : String)
    (ts : List String) :
    withOutlets (withOutlets s self n [t]) self
        { n with outlets_ := n.outlets_ ++ [s.outletHeap.length] } ts
      = withOutlets s self n (t :: ts) := by
  simp only [withOutlets, freshPorts, List.length_append, List.length_singleton,
    List.length_nil, List.append_assoc, List.singleton_append, List.set_set, List.length_cons,
    List.range'_succ, List.range'_zero, List.nil_append, Nat.zero_add]

theorem addOutlet_eval (s : State) (self : Nat) (n : QDataflowModelNode) (t : String)
    (hn : s.nodeHeap[self]? = some n) (hb : n.signalsBlocked = true) :
    addOutlet s self "" t = .ok (withOutlets s self n [t]) := by
  have g1 : s.getNode self = .ok n := (load_eq_ok _ _ _).mpr hn
  have hlt : self < s.nodeHeap.length := (List.getElem?_eq_some_iff.mp hn).1
  unfold addOutlet addOutlet_obj
  simp only [g1, bind, Except.bind, State.getNode, load, State.setNode, hn,
    List.getElem?_set, hlt, if_true]
  rw [emitFromNode_blocked _ self { n with outlets_ := n.outlets_ ++ [s.outletHeap.length] } _
    (by simp [List.getElem?_set, hlt]) hb]
  simp [withOutlets, freshPorts, QDataflowModelNode.outletCount, List.range'_succ]

theorem addOutletsTyped_eval (self : Nat) : ∀ (types : List String) (s : State)
    (n : QDataflowModelNode), s.nodeHeap[self]? = some n → n.signalsBlocked = true →
    addOutletsTyped s self types = .ok (withOutlets s self n types) := by
  intro types
  induction types with
  | nil =>
    intro s n hn _
    simp [addOutletsTyped, withOutlets_nil s self n hn]
  | cons t ts ih =>
    intro s n hn hb
    have h1 := addOutlet_eval s self n t hn hb
    have hn1 : (withOutlets s self n [t]).nodeHeap[self]?
        = some { n with outlets_ := n.outlets_ ++ [s.outletHeap.length] } := by
      have hlt : self < s.nodeHeap.length := (List.getElem?_eq_some_iff.mp hn).1
      simp [withOutlets, List.getElem?_set, hlt, List.range'_succ]
    unfold addOutletsTyped
    simp only [h1, bind, Except.bind]
    rw [ih _ _ hn1 hb, withOutlets_cons]

theorem growOutlets_eval (self m : Nat) : ∀ (k fuel : Nat) (s : State)
    (n : QDataflowModelNode), s.nodeHeap[self]? = some n → n.signalsBlocked = true →
    n.outlets_.length + k = m → k < fuel →
    growOutlets fuel s self (m : Int) = .ok (withOutlets s self n (List.replicate k "*")) := by
  intro k
  induction k with
  | zero =>
    intro fuel s n hn _ hlen hfuel
    obtain ⟨f, rfl⟩ : ∃ f, fuel = f + 1 := ⟨fuel - 1, by omega⟩
    have g1 : s.getNode self = .ok n := (load_eq_ok _ _ _).mpr hn
    have hc : ¬ (n.outletCount < (m : Int)) := by
      simp only [QDataflowModelNode.outletCount]
      omega
    unfold growOutlets
    simp only [g1, bind, Except.bind, hc, if_false, pure, Except.pure, List.replicate_zero,
      withOutlets_nil s self n hn]
  | succ k ih =>
    intro fuel s n hn hb hlen hfuel
    obtain ⟨f, rfl⟩ : ∃ f, fuel = f + 1 := ⟨fuel - 1, by omega⟩
    have g1 : s.getNode self = .ok n := (load_eq_ok _ _ _).mpr hn
    have hc : n.outletCount < (m : Int) := by
      simp only [QDataflowModelNode.outletCount]
      omega
    have h1 := addOutlet_eval s self n "*" hn hb
    have hn1 : (withOutlets s self n ["*"]).nodeHeap[self]?
        = some { n with outlets_ := n.outlets_ ++ [s.outletHeap.length] } := by
      have hlt : self < s.nodeHeap.length := (List.getElem?_eq_some_iff.mp hn).1
      simp [withOutlets, List.getElem?_set, hlt, List.range'_succ]
    unfold growOutlets
    simp only [g1, bind, Except.bind, hc, if_true, h1]
    rw [ih f _ _ hn1 hb (by simp; omega) (by omega), withOutlets_cons, List.replicate_succ]

theorem growOutlets_noop (fuel : Nat) (s : State) (self : Nat) (n : QDataflowModelNode)
    (count : Int) (hn : s.nodeHeap[self]? = some n) (hc : ¬ (n.outletCount < count))
    (hfuel : 0 < fuel) : growOutlets fuel s self count = .ok s := by
  obtain ⟨f, rfl⟩ : ∃ f, fuel = f + 1 := ⟨fuel - 1, by omega⟩
  have g1 : s.getNode self = .ok n := (load_eq_ok _ _ _).mpr hn
  unfold growOutlets
  simp only [g1, bind, Except.bind, hc, if_false, pure, Except.pure]

theorem shrinkOutlets_noop (fuel : Nat) (s : State) (self : Nat) (n : QDataflowModelNode)
    (count : Int) (hn : s.nodeHeap[self]? = some n) (hc : ¬ (n.outletCount > count))
    (hfuel : 0 < fuel) : shrinkOutlets fuel s self count = .ok s := by
  obtain ⟨f, rfl⟩ : ∃ f, fuel = f + 1 := ⟨fuel - 1, by omega⟩
  have g1 : s.getNode self = .ok n := (load_eq_ok _ _ _).mpr hn
  unfold shrinkOutlets
  simp only [g1, bind, Except.bind, hc, if_false, pure, Except.pure]

theorem withInlets_nil (s : State) (self : Nat) (n : QDataflowModelNode)
    (hn : s.nodeHeap[self]? = some n) : withInlets s self n [] = s := by
  have h := setNode_self s self n hn
  cases s
  simp only [State.setNode] at h
  simp only [withInlets, freshPorts, List.append_nil, List.length_nil, List.range'_zero,
    node_eta_inlets]
  exact h

theorem withInlets_cons (s : State) (self : Nat) (n : QDataflowModelNode) (t : String)
    (ts : List String) :
    withInlets (withInlets s self n [t]) self
        { n with inlets_ := n.inlets_ ++ [s.inletHeap.length] } ts
      = withInlets s self n (t :: ts) := by
  simp only [withInlets, freshPorts, List.length_append, List.length_singleton,
    List.length_nil, List.append_assoc, List.singleton_append, List.set_set, List.length_cons,
    List.range'_succ, List.range'_zero, List.nil_append, Nat.zero_add]

theorem addInlet_eval (s : State) (self : Nat) (n : QDataflowModelNode) (t : String)
    (hn : s.nodeHeap[self]? = some n) (hb : n.signalsBlocked = true) :
    addInlet s self "" t = .ok (withInlets s self n [t]) := by
  have g1 : s.getNode self = .ok n := (load_eq_ok _ _ _).mpr hn
  have hlt : self < s.nodeHeap.length := (List.getElem?_eq_some_iff.mp hn).1
  unfold addInlet addInlet_obj
  simp only [g1, bind, Except.bind, State.getNode, load, State.setNode, hn,
    List.getElem?_set, hlt, if_true]
  rw [emitFromNode_blocked _ self { n with inlets_ := n.inlets_ ++ [s.inletHeap.length] } _
    (by simp [List.getElem?_set, hlt]) hb]
  simp [withInlets, freshPorts, QDataflowModelNode.inletCount, List.range'_succ]

theorem addInletsTyped_eval (self : Nat) : ∀ (types : List String) (s : State)
    (n : QDataflowModelNode), s.nodeHeap[self]? = some n → n.signalsBlocked = true →
    addInletsTyped s self types = .ok (withInlets s self n types) := by
  intro types
  induction types with
  | nil =>
    intro s n hn _
    simp [addInletsTyped, withInlets_nil s self n hn]
  | cons t ts ih =>
    intro s n hn hb
    have h1 := addInlet_eval s self n t hn hb
    have hn1 : (withInlets s self n [t]).nodeHeap[self]?
        = some { n with inlets_ := n.inlets_ ++ [s.inletHeap.length] } := by
      have hlt : self < s.nodeHeap.length := (List.getElem?_eq_some_iff.mp hn).1
      simp [withInlets, List.getElem?_set, hlt, List.range'_succ]
    unfold addInletsTyped
    simp only [h1, bind, Except.bind]
    rw [ih _ _ hn1 hb, withInlets_cons]

theorem growInlets_eval (self m : Nat) : ∀ (k fuel : Nat) (s : State)
    (n : QDataflowModelNode), s.nodeHeap[self]? = some n → n.signalsBlocked = true →
    n.inlets_.length + k = m → k < fuel →
    growInlets fuel s self (m : Int) = .ok (withInlets s self n (List.replicate k "*")) := by
  intro k
  induction k with
  | zero =>
    intro fuel s n hn _ hlen hfuel
    obtain ⟨f, rfl⟩ : ∃ f, fuel = f + 1 := ⟨fuel - 1, by omega⟩
    have g1 : s.getNode self = .ok n := (load_eq_ok _ _ _).mpr hn
    have hc : ¬ (n.inletCount < (m : Int)) := by
      simp only [QDataflowModelNode.inletCount]
      omega
    unfold growInlets
    simp only [g1, bind, Except.bind, hc, if_false, pure, Except.pure, List.replicate_zero,
      withInlets_nil s self n hn]
  | succ k ih =>
    intro fuel s n hn hb hlen hfuel
    obtain ⟨f, rfl⟩ : ∃ f, fuel = f + 1 := ⟨fuel - 1, by omega⟩
    have g1 : s.getNode self = .ok n := (load_eq_ok _ _ _).mpr hn
    have hc : n.inletCount < (m : Int) := by
      simp only [QDataflowModelNode.inletCount]
      omega
    have h1 := addInlet_eval s self n "*" hn hb
    have hn1 : (withInlets s self n ["*"]).nodeHeap[self]?
        = some { n with inlets_ := n.inlets_ ++ [s.inletHeap.length] } := by
      have hlt : self < s.nodeHeap.length := (List.getElem?_eq_some_iff.mp hn).1
      simp [withInlets, List.getElem?_set, hlt, List.range'_succ]
    unfold growInlets
    simp only [g1, bind, Except.bind, hc, if_true, h1]
    rw [ih f _ _ hn1 hb (by simp; omega) (by omega), withInlets_cons, List.replicate_succ]

theorem growInlets_noop (fuel : Nat) (s : State) (self : Nat) (n : QDataflowModelNode)
    (count : Int) (hn : s.nodeHeap[self]? = some n) (hc : ¬ (n.inletCount < count))
    (hfuel : 0 < fuel) : growInlets fuel s self count = .ok s := by
  obtain ⟨f, rfl⟩ : ∃ f, fuel = f + 1 := ⟨fuel - 1, by omega⟩
  have g1 : s.getNode self = .ok n := (load_eq_ok _ _ _).mpr hn
  unfold growInlets
  simp only [g1, bind, Except.bind, hc, if_false, pure, Except.pure]

theorem shrinkInlets_noop (fuel : Nat) (s : State) (self : Nat) (n : QDataflowModelNode)
    (count : Int) (hn : s.nodeHeap[self]? = some n) (hc : ¬ (n.inletCount > count))
    (hfuel : 0 < fuel) : shrinkInlets fuel s self count = .ok s := by
  obtain ⟨f, rfl⟩ : ∃ f, fuel = f + 1 := ⟨fuel - 1, by omega⟩
  have g1 : s.getNode self = .ok n := (load_eq_ok _ _ _).mpr hn
  unfold shrinkInlets
  simp only [g1, bind, Except.bind, hc, if_false, pure, Except.pure]

theorem blockSignals_eval (s : State) (self : Nat) (n : QDataflowModelNode) (b : Bool)
    (hn : s.nodeHeap[self]? = some n) :
    blockSignals s self b = .ok (n.signalsBlocked, s.setNode self { n with signalsBlocked := b }) := by
  have g1 : s.getNode self = .ok n := (load_eq_ok _ _ _).mpr hn
  unfold blockSignals
  simp only [g1, bind, Except.bind, pure, Except.pure]

theorem withOutlets_setNode (s : State) (self : Nat) (a n : QDataflowModelNode)
    (ts : List String) : withOutlets (s.setNode self a) self n ts = withOutlets s self n ts := by
  simp [withOutlets, State.setNode, List.set_set]

theorem cutOutlets_setNode (s : State) (self : Nat) (a n : QDataflowModelNode) (m : Nat)
    (r : List Nat) : cutOutlets (s.setNode self a) self n m r = cutOutlets s self n m r := by
  unfold cutOutlets
  rw [dropConns_setNode, setNode_setNode]

theorem withOutlets_node (s : State) (self : Nat) (n0 n : QDataflowModelNode)
    (ts : List String) (hn : s.nodeHeap[self]? = some n0) :
    (withOutlets s self n ts).nodeHeap[self]?
      = some { n with outlets_ := n.outlets_ ++ List.range' s.outletHeap.length ts.length } := by
  have hlt : self < s.nodeHeap.length := (List.getElem?_eq_some_iff.mp hn).1
  simp [withOutlets, List.getElem?_set, hlt]

theorem cutOutlets_node (s : State) (self : Nat) (n0 n : QDataflowModelNode) (m : Nat)
    (r : List Nat) (hn : s.nodeHeap[self]? = some n0) :
    (cutOutlets s self n m r).nodeHeap[self]? = some { n with outlets_ := n.outlets_.take m } :=
  getNode_setNode (dropConns s r) self n0 _ hn

theorem withOutlets_unblock (s : State) (self : Nat) (n : QDataflowModelNode) (b : Bool)
    (ts : List String) :
    (withOutlets s self { n with signalsBlocked := b } ts).setNode self
        { n with outlets_ := n.outlets_ ++ List.range' s.outletHeap.length ts.length }
      = withOutlets s self n ts := by
  simp [withOutlets, State.setNode, List.set_set]

theorem cutOutlets_unblock (s : State) (self : Nat) (n : QDataflowModelNode) (b : Bool)
    (m : Nat) (r : List Nat) :
    (cutOutlets s self { n with signalsBlocked := b } m r).setNode self
        { n with outlets_ := n.outlets_.take m }
      = cutOutlets s self n m r := by
  unfold cutOutlets
  rw [setNode_setNode]

theorem emitFromNode_announce (s : State) (self : Nat) (n0 n : QDataflowModelNode)
    (sig : Signal) (hn : s.nodeHeap[self]? = some n0) (hb : n0.signalsBlocked = false)
    (hr : n0.relayed = n.relayed) : emitFromNode s self sig = .ok (announce s n sig) := by
  rw [emitFromNode_eval s self n0 sig hn]
  cases hrel : n.relayed <;>
    simp [hb, hr, hrel, announce, State.signal, State.emit]

theorem setOutletCount_same (fuel : Nat) (s : State) (self : Nat) (n : QDataflowModelNode)
    (hn : s.nodeHeap[self]? = some n) :
    setOutletCount fuel s self n.outlets_.length = .ok s := by
  have g1 : s.getNode self = .ok n := (load_eq_ok _ _ _).mpr hn
  unfold setOutletCount
  simp only [g1, bind, Except.bind, QDataflowModelNode.outletCount, if_true, pure, Except.pure]

theorem setOutletCount_eval (fuel : Nat) (s : State) (hinv : Inv s) (self : Nat)
    (n : QDataflowModelNode) (m : Nat) (hn : s.nodeHeap[self]? = some n)
    (hub : n.signalsBlocked = false) (hne : m ≠ n.outlets_.length)
    (hfuel : n.outlets_.length + m < fuel) :
    ∃ removed, removed.Nodup ∧
      (∀ c, c ∈ removed ↔
        c ∈ s.connections_ ∧ ∃ p ∈ n.outlets_.drop m, sourceOf s c = some p) ∧
      setOutletCount fuel s self (m : Int) = .ok (resizedOutlets s self n m removed) := by
  have g1 : s.getNode self = .ok n := (load_eq_ok _ _ _).mpr hn
  have hcne : ¬ (n.outletCount = (m : Int)) := by
    simp only [QDataflowModelNode.outletCount]
    omega
  have hb1 := blockSignals_eval s self n true hn
  have hn1 : (s.setNode self { n with signalsBlocked := true }).nodeHeap[self]?
      = some { n with signalsBlocked := true } := getNode_setNode s self n _ hn
  have hinv1 : Inv (s.setNode self { n with signalsBlocked := true }) :=
    Inv_setNode s self n _ hinv hn (fun _ _ h => h) (fun _ _ h => h)
  rcases Nat.lt_or_gt_of_ne hne with hlt | hgt
  · -- shrinking
    obtain ⟨removed, hnd, hchar, hrun⟩ := shrinkOutlets_eval self m (n.outlets_.length - m) fuel
      _ { n with signalsBlocked := true } hinv1 hn1 rfl (by simp; omega) (by omega)
    refine ⟨removed, hnd, hchar, ?_⟩
    have hgrow := growOutlets_noop fuel _ self { n with signalsBlocked := true } (m : Int) hn1
      (by simp only [QDataflowModelNode.outletCount]; omega) (by omega)
    rw [cutOutlets_setNode] at hrun
    have hn4 := cutOutlets_node s self n { n with signalsBlocked := true } m removed hn
    have hb4 := blockSignals_eval _ self _ n.signalsBlocked hn4
    have hfin : resizedOutlets s self n m removed
        = announce (cutOutlets s self n m removed) n (.nodeOutletCountChanged self m) := by
      unfold resizedOutlets
      rw [show m - n.outlets_.length = 0 by omega, List.replicate_zero,
        withOutlets_nil _ self _ (cutOutlets_node s self n n m removed hn)]
    unfold setOutletCount
    simp only [g1, bind, Except.bind, hcne, if_false, hb1, hgrow, hrun, hb4]
    rw [hfin]
    have := cutOutlets_unblock s self n true m removed
    simp only at this ⊢
    rw [this]
    exact emitFromNode_announce _ self _ n _ (cutOutlets_node s self n n m removed hn) hub rfl
  · -- growing
    have hd : n.outlets_.drop m = [] := List.drop_of_length_le (by omega)
    refine ⟨[], List.nodup_nil, by simp [hd], ?_⟩
    have hgrow := growOutlets_eval self m (m - n.outlets_.length) fuel _
      { n with signalsBlocked := true } hn1 rfl (by simp; omega) (by omega)
    rw [withOutlets_setNode] at hgrow
    have hn3 := withOutlets_node s self n { n with signalsBlocked := true }
      (List.replicate (m - n.outlets_.length) "*") hn
    have hshrink := shrinkOutlets_noop fuel _ self _ (m : Int) hn3
      (by simp only [QDataflowModelNode.outletCount, List.length_append, List.length_range',
        List.length_replicate]; omega) (by omega)
    have hb4 := blockSignals_eval _ self _ n.signalsBlocked hn3
    have hfin : resizedOutlets s self n m []
        = announce (withOutlets s self n (List.replicate (m - n.outlets_.length) "*")) n
          (.nodeOutletCountChanged self m) := by
      unfold resizedOutlets
      rw [cutOutlets_nil s self n m hn (by omega), List.take_of_length_le (by omega),
        node_eta_outlets]
    unfold setOutletCount
    simp only [g1, bind, Except.bind, hcne, if_false, hb1, hgrow, hshrink, hb4]
    rw [hfin]
    have := withOutlets_unblock s self n true (List.replicate (m - n.outlets_.length) "*")
    simp only at this ⊢
    rw [this]
    exact emitFromNode_announce _ self _ n _
      (withOutlets_node s self n n _ hn) hub rfl

theorem setOutletTypes_eval (fuel : Nat) (s : State) (hinv : Inv s) (self : Nat)
    (n : QDataflowModelNode) (types : List String) (hn : s.nodeHeap[self]? = some n)
    (hub : n.signalsBlocked = false) (hfuel : n.outlets_.length < fuel) :
    ∃ removed, removed.Nodup ∧
      (∀ c, c ∈ removed ↔ c ∈ s.connections_ ∧ ∃ p ∈ n.outlets_, sourceOf s c = some p) ∧
      setOutletTypes fuel s self types = .ok (retypedOutlets s self n types removed) := by
  have g1 : s.getNode self = .ok n := (load_eq_ok _ _ _).mpr hn
  have hb1 := blockSignals_eval s self n true hn
  have hn1 : (s.setNode self { n with signalsBlocked := true }).nodeHeap[self]?
      = some { n with signalsBlocked := true } := getNode_setNode s self n _ hn
  have hinv1 : Inv (s.setNode self { n with signalsBlocked := true }) :=
    Inv_setNode s self n _ hinv hn (fun _ _ h => h) (fun _ _ h => h)
  obtain ⟨removed, hnd, hchar, hrun⟩ := shrinkOutlets_eval self 0 n.outlets_.length fuel
    _ { n with signalsBlocked := true } hinv1 hn1 rfl (by simp) hfuel
  refine ⟨removed, hnd, by simpa using hchar, ?_⟩
  rw [cutOutlets_setNode, Nat.cast_zero] at hrun
  have hn2 := cutOutlets_node s self n { n with signalsBlocked := true } 0 removed hn
  have hadd := addOutletsTyped_eval self types _ _ hn2 rfl
  have hn3 := withOutlets_node _ self _
    { n with signalsBlocked := true, outlets_ := n.outlets_.take 0 } types hn2
  have hb4 := blockSignals_eval _ self _ n.signalsBlocked hn3
  have hun : (withOutlets (cutOutlets s self { n with signalsBlocked := true } 0 removed) self
      { n with signalsBlocked := true, outlets_ := n.outlets_.take 0 } types).setNode self
        { n with outlets_ := n.outlets_.take 0 ++
          List.range' (cutOutlets s self { n with signalsBlocked := true } 0
            removed).outletHeap.length types.length }
      = withOutlets (cutOutlets s self n 0 removed) self
          { n with outlets_ := n.outlets_.take 0 } types := by
    simp [withOutlets, cutOutlets, State.setNode, List.set_set, dropConns]
  have hn5 := withOutlets_node (cutOutlets s self n 0 removed) self
    { n with outlets_ := n.outlets_.take 0 } { n with outlets_ := n.outlets_.take 0 } types
    (cutOutlets_node s self n n 0 removed hn)
  have g5 : (withOutlets (cutOutlets s self n 0 removed) self
      { n with outlets_ := n.outlets_.take 0 } types).getNode self = .ok _ :=
    (load_eq_ok _ _ _).mpr hn5
  unfold setOutletTypes
  simp only [g1, bind, Except.bind, hb1, hrun, hadd, hb4]
  simp only at hun ⊢
  rw [hun, g5]
  simp only [QDataflowModelNode.outletCount, List.take_zero, List.nil_append,
    List.length_range', ne_eq, Nat.cast_inj, retypedOutlets]
  by_cases e : n.outlets_.length = types.length
  · simp only [e, not_true_eq_false, if_false, pure, Except.pure]
  · simp only [e, not_false_eq_true, if_true]
    exact emitFromNode_announce _ self _ n _ hn5 hub rfl

theorem withInlets_setNode (s : State) (self : Nat) (a n : QDataflowModelNode)
    (ts : List String) : withInlets (s.setNode self a) self n ts = withInlets s self n ts := by
  simp [withInlets, State.setNode, List.set_set]

theorem cutInlets_setNode (s : State) (self : Nat) (a n : QDataflowModelNode) (m : Nat)
    (r : List Nat) : cutInlets (s.setNode self a) self n m r = cutInlets s self n m r := by
  unfold cutInlets
  rw [dropConns_setNode, setNode_setNode]

theorem withInlets_node (s : State) (self : Nat) (n0 n : QDataflowModelNode)
    (ts : List String) (hn : s.nodeHeap[self]? = some n0) :
    (withInlets s self n ts).nodeHeap[self]?
      = some { n with inlets_ := n.inlets_ ++ List.range' s.inletHeap.length ts.length } := by
  have hlt : self < s.nodeHeap.length := (List.getElem?_eq_some_iff.mp hn).1
  simp [withInlets, List.getElem?_set, hlt]

theorem cutInlets_node (s : State) (self : Nat) (n0 n : QDataflowModelNode) (m : Nat)
    (r : List Nat) (hn : s.nodeHeap[self]? = some n0) :
    (cutInlets s self n m r).nodeHeap[self]? = some { n with inlets_ := n.inlets_.take m } :=
  getNode_setNode (dropConns s r) self n0 _ hn

theorem withInlets_unblock (s : State) (self : Nat) (n : QDataflowModelNode) (b : Bool)
    (ts : List String) :
    (withInlets s self { n with signalsBlocked := b } ts).setNode self
        { n with inlets_ := n.inlets_ ++ List.range' s.inletHeap.length ts.length }
      = withInlets s self n ts := by
  simp [withInlets, State.setNode, List.set_set]

theorem cutInlets_unblock (s : State) (self : Nat) (n : QDataflowModelNode) (b : Bool)
    (m : Nat) (r : List Nat) :
    (cutInlets s self { n with signalsBlocked := b } m r).setNode self
        { n with inlets_ := n.inlets_.take m }
      = cutInlets s self n m r := by
  unfold cutInlets
  rw [setNode_setNode]

theorem setInletCount_same (fuel : Nat) (s : State) (self : Nat) (n : QDataflowModelNode)
    (hn : s.nodeHeap[self]? = some n) :
    setInletCount fuel s self n.inlets_.length = .ok s := by
  have g1 : s.getNode self = .ok n := (load_eq_ok _ _ _).mpr hn
  unfold setInletCount
  simp only [g1, bind, Except.bind, QDataflowModelNode.inletCount, if_true, pure, Except.pure]

theorem setInletCount_eval (fuel : Nat) (s : State) (hinv : Inv s) (self : Nat)
    (n : QDataflowModelNode) (m : Nat) (hn : s.nodeHeap[self]? = some n)
    (hub : n.signalsBlocked = false) (hne : m ≠ n.inlets_.length)
    (hfuel : n.inlets_.length + m < fuel) :
    ∃ removed, removed.Nodup ∧
      (∀ c, c ∈ removed ↔
        c ∈ s.connections_ ∧ ∃ p ∈ n.inlets_.drop m, destOf s c = some p) ∧
      setInletCount fuel s self (m : Int) = .ok (resizedInlets s self n m removed) := by
  have g1 : s.getNode self = .ok n := (load_eq_ok _ _ _).mpr hn
  have hcne : ¬ (n.inletCount = (m : Int)) := by
    simp only [QDataflowModelNode.inletCount]
    omega
  have hb1 := blockSignals_eval s self n true hn
  have hn1 : (s.setNode self { n with signalsBlocked := true }).nodeHeap[self]?
      = some { n with signalsBlocked := true } := getNode_setNode s self n _ hn
  have hinv1 : Inv (s.setNode self { n with signalsBlocked := true }) :=
    Inv_setNode s self n _ hinv hn (fun _ _ h => h) (fun _ _ h => h)
  rcases Nat.lt_or_gt_of_ne hne with hlt | hgt
  · -- shrinking
    obtain ⟨removed, hnd, hchar, hrun⟩ := shrinkInlets_eval self m (n.inlets_.length - m) fuel
      _ { n with signalsBlocked := true } hinv1 hn1 rfl (by simp; omega) (by omega)
    refine ⟨removed, hnd, hchar, ?_⟩
    have hgrow := growInlets_noop fuel _ self { n with signalsBlocked := true } (m : Int) hn1
      (by simp only [QDataflowModelNode.inletCount]; omega) (by omega)
    rw [cutInlets_setNode] at hrun
    have hn4 := cutInlets_node s self n { n with signalsBlocked := true } m removed hn
    have hb4 := blockSignals_eval _ self _ n.signalsBlocked hn4
    have hfin : resizedInlets s self n m removed
        = announce (cutInlets s self n m removed) n (.nodeInletCountChanged self m) := by
      unfold resizedInlets
      rw [show m - n.inlets_.length = 0 by omega, List.replicate_zero,
        withInlets_nil _ self _ (cutInlets_node s self n n m removed hn)]
    unfold setInletCount
    simp only [g1, bind, Except.bind, hcne, if_false, hb1, hgrow, hrun, hb4]
    rw [hfin]
    have := cutInlets_unblock s self n true m removed
    simp only at this ⊢
    rw [this]
    exact emitFromNode_announce _ self _ n _ (cutInlets_node s self n n m removed hn) hub rfl
  · -- growing
    have hd : n.inlets_.drop m = [] := List.drop_of_length_le (by omega)
    refine ⟨[], List.nodup_nil, by simp [hd], ?_⟩
    have hgrow := growInlets_eval self m (m - n.inlets_.length) fuel _
      { n with signalsBlocked := true } hn1 rfl (by simp; omega) (by omega)
    rw [withInlets_setNode] at hgrow
    have hn3 := withInlets_node s self n { n with signalsBlocked := true }
      (List.replicate (m - n.inlets_.length) "*") hn
    have hshrink := shrinkInlets_noop fuel _ self _ (m : Int) hn3
      (by simp only [QDataflowModelNode.inletCount, List.length_append, List.length_range',
        List.length_replicate]; omega) (by omega)
    have hb4 := blockSignals_eval _ self _ n.signalsBlocked hn3
    have hfin : resizedInlets s self n m []
        = announce (withInlets s self n (List.replicate (m - n.inlets_.length) "*")) n
          (.nodeInletCountChanged self m) := by
      unfold resizedInlets
      rw [cutInlets_nil s self n m hn (by omega), List.take_of_length_le (by omega),
        node_eta_inlets]
    unfold setInletCount
    simp only [g1, bind, Except.bind, hcne, if_false, hb1, hgrow, hshrink, hb4]
    rw [hfin]
    have := withInlets_unblock s self n true (List.replicate (m - n.inlets_.length) "*")
    simp only at this ⊢
    rw [this]
    exact emitFromNode_announce _ self _ n _
      (withInlets_node s self n n _ hn) hub rfl

theorem setInletTypes_eval (fuel : Nat) (s : State) (hinv : Inv s) (self : Nat)
    (n : QDataflowModelNode) (types : List String) (hn : s.nodeHeap[self]? = some n)
    (hub : n.signalsBlocked = false) (hfuel : n.inlets_.length < fuel) :
    ∃ removed, removed.Nodup ∧
      (∀ c, c ∈ removed ↔ c ∈ s.connections_ ∧ ∃ p ∈ n.inlets_, destOf s c = some p) ∧
      setInletTypes fuel s self types = .ok (retypedInlets s self n types removed) := by
  have g1 : s.getNode self = .ok n := (load_eq_ok _ _ _).mpr hn
  have hb1 := blockSignals_eval s self n true hn
  have hn1 : (s.setNode self { n with signalsBlocked := true }).nodeHeap[self]?
      = some { n with signalsBlocked := true } := getNode_setNode s self n _ hn
  have hinv1 : Inv (s.setNode self { n with signalsBlocked := true }) :=
    Inv_setNode s self n _ hinv hn (fun _ _ h => h) (fun _ _ h => h)
  obtain ⟨removed, hnd, hchar, hrun⟩ := shrinkInlets_eval self 0 n.inlets_.length fuel
    _ { n with signalsBlocked := true } hinv1 hn1 rfl (by simp) hfuel
  refine ⟨removed, hnd, by simpa using hchar, ?_⟩
  rw [cutInlets_setNode, Nat.cast_zero] at hrun
  have hn2 := cutInlets_node s self n { n with signalsBlocked := true } 0 removed hn
  have hadd := addInletsTyped_eval self types _ _ hn2 rfl
  have hn3 := withInlets_node _ self _
    { n with signalsBlocked := true, inlets_ := n.inlets_.take 0 } types hn2
  have hb4 := blockSignals_eval _ self _ n.signalsBlocked hn3
  have hun : (withInlets (cutInlets s self { n with signalsBlocked := true } 0 removed) self
      { n with signalsBlocked := true, inlets_ := n.inlets_.take 0 } types).setNode self
        { n with inlets_ := n.inlets_.take 0 ++
          List.range' (cutInlets s self { n with signalsBlocked := true } 0
            removed).inletHeap.length types.length }
      = withInlets (cutInlets s self n 0 removed) self
          { n with inlets_ := n.inlets_.take 0 } types := by
    simp [withInlets, cutInlets, State.setNode, List.set_set, dropConns]
  have hn5 := withInlets_node (cutInlets s self n 0 removed) self
    { n with inlets_ := n.inlets_.take 0 } { n with inlets_ := n.inlets_.take 0 } types
    (cutInlets_node s self n n 0 removed hn)
  have g5 : (withInlets (cutInlets s self n 0 removed) self
      { n with inlets_ := n.inlets_.take 0 } types).getNode self = .ok _ :=
    (load_eq_ok _ _ _).mpr hn5
  unfold setInletTypes
  simp only [g1, bind, Except.bind, hb1, hrun, hadd, hb4]
  simp only at hun ⊢
  rw [hun, g5]
  simp only [QDataflowModelNode.inletCount, List.take_zero, List.nil_append,
    List.length_range', ne_eq, Nat.cast_inj, retypedInlets]
  by_cases e : n.inlets_.length = types.length
  · simp only [e, not_true_eq_false, if_false, pure, Except.pure]
  · simp only [e, not_false_eq_true, if_true]
    exact emitFromNode_announce _ self _ n _ hn5 hub rfl

theorem node_outlets_nodup (s : State) (hinv : Inv s) (self : Nat) (n : QDataflowModelNode)
    (hn : s.nodeHeap[self]? = some n) : n.outlets_.Nodup := by
  rw [List.nodup_iff_getElem?_ne_getElem?]
  intro i j hij hj he
  have hp : n.outlets_[j]? = some n.outlets_[j] := List.getElem?_eq_getElem hj
  have h1 := hinv.port.outlets self n hn j _ hp
  have h2 := hinv.port.outlets self n hn i _ (he.trans hp)
  rw [h1] at h2
  simp only [Option.some.injEq, Prod.mk.injEq, Nat.cast_inj, true_and] at h2
  omega

theorem node_inlets_nodup (s : State) (hinv : Inv s) (self : Nat) (n : QDataflowModelNode)
    (hn : s.nodeHeap[self]? = some n) : n.inlets_.Nodup := by
  rw [List.nodup_iff_getElem?_ne_getElem?]
  intro i j hij hj he
  have hp : n.inlets_[j]? = some n.inlets_[j] := List.getElem?_eq_getElem hj
  have h1 := hinv.port.inlets self n hn j _ hp
  have h2 := hinv.port.inlets self n hn i _ (he.trans hp)
  rw [h1] at h2
  simp only [Option.some.injEq, Prod.mk.injEq, Nat.cast_inj, true_and] at h2
  omega

theorem take_drop_disjoint (l : List Nat) (m : Nat) (hnd : l.Nodup) (p : Nat)
    (h1 : p ∈ l.take m) (h2 : p ∈ l.drop m) : False := by
  have : (l.take m ++ l.drop m).Nodup := by rw [List.take_append_drop]; exact hnd
  exact List.disjoint_of_nodup_append this h1 h2

theorem setOutletCount_shrink_effect (s : State) (hr : Reachable s) (self : Nat)
    (n : QDataflowModelNode) (hn : s.nodeHeap[self]? = some n) (hmem : self ∈ s.nodes_)
    (m fuel : Nat) (hlt : m < n.outlets_.length) (hfuel : n.outlets_.length + m < fuel) :
    ∃ removed, removed.Nodup ∧
      (∀ c, c ∈ removed ↔
        c ∈ s.connections_ ∧ ∃ p ∈ n.outlets_.drop m, sourceOf s c = some p) ∧
      setOutletCount fuel s self (m : Int) = .ok (resizedOutlets s self n m removed) ∧
      (resizedOutlets s self n m removed).connections_
        = s.connections_.filter (fun c => decide (c ∉ removed)) ∧
      (resizedOutlets s self n m removed).inletHeap
        = s.inletHeap.map (fun io => io.without removed) ∧
      (∀ c ∈ s.connections_, (∃ p ∈ n.outlets_.take m, sourceOf s c = some p) →
        c ∈ (resizedOutlets s self n m removed).connections_) ∧
      (resizedOutlets s self n m removed).emitted
        = s.emitted ++ removed.map Signal.connectionRemoved
          ++ [.nodeOutletCountChanged self m] := by
  have hinv := hr.inv
  have hrel : n.relayed = true := (hr.nodeInv.relay self n hn).mpr hmem
  have hub : n.signalsBlocked = false := hr.nodeInv.unblocked self n hn
  obtain ⟨removed, hnd, hchar, hrun⟩ := setOutletCount_eval fuel s hinv self n m hn hub
    (by omega) hfuel
  refine ⟨removed, hnd, hchar, hrun, rfl, rfl, ?_, ?_⟩
  · intro c hc ⟨p, hp, hsrc⟩
    show c ∈ s.connections_.filter (fun c => decide (c ∉ removed))
    rw [List.mem_filter]
    refine ⟨hc, ?_⟩
    simp only [decide_eq_true_eq]
    intro hrem
    obtain ⟨_, q, hq, hsrc1⟩ := (hchar c).mp hrem
    rw [hsrc] at hsrc1
    cases hsrc1
    exact take_drop_disjoint _ m (node_outlets_nodup s hinv self n hn) p hp hq
  · simp [resizedOutlets, announce, withOutlets, cutOutlets, dropConns, State.setNode, hrel]

theorem setInletCount_shrink_effect (s : State) (hr : Reachable s) (self : Nat)
    (n : QDataflowModelNode) (hn : s.nodeHeap[self]? = some n) (hmem : self ∈ s.nodes_)
    (m fuel : Nat) (hlt : m < n.inlets_.length) (hfuel : n.inlets_.length + m < fuel) :
    ∃ removed, removed.Nodup ∧
      (∀ c, c ∈ removed ↔
        c ∈ s.connections_ ∧ ∃ p ∈ n.inlets_.drop m, destOf s c = some p) ∧
      setInletCount fuel s self (m : Int) = .ok (resizedInlets s self n m removed) ∧
      (resizedInlets s self n m removed).connections_
        = s.connections_.filter (fun c => decide (c ∉ removed)) ∧
      (resizedInlets s self n m removed).outletHeap
        = s.outletHeap.map (fun io => io.without removed) ∧
      (∀ c ∈ s.connections_, (∃ p ∈ n.inlets_.take m, destOf s c = some p) →
        c ∈ (resizedInlets s self n m removed).connections_) ∧
      (resizedInlets s self n m removed).emitted
        = s.emitted ++ removed.map Signal.connectionRemoved
          ++ [.nodeInletCountChanged self m] := by
  have hinv := hr.inv
  have hrel : n.relayed = true := (hr.nodeInv.relay self n hn).mpr hmem
  have hub : n.signalsBlocked = false := hr.nodeInv.unblocked self n hn
  obtain ⟨removed, hnd, hchar, hrun⟩ := setInletCount_eval fuel s hinv self n m hn hub
    (by omega) hfuel
  refine ⟨removed, hnd, hchar, hrun, rfl, rfl, ?_, ?_⟩
  · intro c hc ⟨p, hp, hsrc⟩
    show c ∈ s.connections_.filter (fun c => decide (c ∉ removed))
    rw [List.mem_filter]
    refine ⟨hc, ?_⟩
    simp only [decide_eq_true_eq]
    intro hrem
    obtain ⟨_, q, hq, hsrc1⟩ := (hchar c).mp hrem
    rw [hsrc] at hsrc1
    cases hsrc1
    exact take_drop_disjoint _ m (node_inlets_nodup s hinv self n hn) p hp hq
  · simp [resizedInlets, announce, withInlets, cutInlets, dropConns, State.setNode, hrel]

theorem freshPorts_length (self : Nat) (ts : List String) :
    ∀ start, (freshPorts self start ts).length = ts.length := by
  induction ts with
  | nil => intro _; rfl
  | cons t rest ih => intro start; simp [freshPorts, ih]

theorem freshPorts_getElem? (self : Nat) (ts : List String) :
    ∀ (start k : Nat), (freshPorts self start ts)[k]?
      = ts[k]?.map (fun t => (⟨[], self, ((start + k : Nat) : Int), "", t⟩ : QDataflowModelIOlet)) := by
  induction ts with
  | nil => intro _ _; rfl
  | cons t rest ih =>
    intro start k
    cases k with
    | zero => simp [freshPorts]
    | succ k =>
      simp only [freshPorts, List.getElem?_cons_succ, ih]
      congr 1
      funext t
      congr 2
      omega

/-- The outlet side of node `self` after its outlet list was cut to `m` entries and
outlets of the types `ts` were appended. -/
theorem rebuilt_outlets (s : State) (hinv : Inv s) (self : Nat) (n : QDataflowModelNode)
    (hn : s.nodeHeap[self]? = some n) (m : Nat) (removed : List Nat) (ts : List String)
    (hrem : ∀ c ∈ removed, ∃ p ∈ n.outlets_.drop m, sourceOf s c = some p) :
    (withOutlets (cutOutlets s self n m removed) self
        { n with outlets_ := n.outlets_.take m } ts).nodeHeap[self]?
      = some { n with outlets_ := n.outlets_.take m
                ++ List.range' s.outletHeap.length ts.length } ∧
    (∀ p ∈ n.outlets_.take m,
      (withOutlets (cutOutlets s self n m removed) self
        { n with outlets_ := n.outlets_.take m } ts).outletHeap[p]? = s.outletHeap[p]?) ∧
    (∀ (k : Nat) (t : String), ts[k]? = some t →
      (withOutlets (cutOutlets s self n m removed) self
        { n with outlets_ := n.outlets_.take m } ts).outletHeap[s.outletHeap.length + k]?
        = some ⟨[], self, ((min m n.outlets_.length + k : Nat) : Int), "", t⟩) := by
  refine ⟨?_, ?_, ?_⟩
  · have h := withOutlets_node (cutOutlets s self n m removed) self _
      { n with outlets_ := n.outlets_.take m } ts (cutOutlets_node s self n n m removed hn)
    rw [h]
    simp [cutOutlets, dropConns, State.setNode]
  · intro p hp
    have hpn : p ∈ n.outlets_ := List.mem_of_mem_take hp
    obtain ⟨i, hi⟩ := List.mem_iff_getElem?.mp hpn
    have hk := hinv.port.outlets self n hn i p hi
    unfold portKey at hk
    cases hio : s.outletHeap[p]? with
    | none => rw [hio] at hk; cases hk
    | some io =>
      have h1 : (dropConns s removed).outletHeap[p]? = some io := by
        apply outlet_kept_by_dropConns s hinv removed p io hio
        intro c hc hsrc
        obtain ⟨q, hq, hsrc1⟩ := hrem c hc
        rw [hsrc] at hsrc1
        cases hsrc1
        exact take_drop_disjoint _ m (node_outlets_nodup s hinv self n hn) p hp hq
      show ((dropConns s removed).outletHeap ++ _)[p]? = some io
      exact getElem?_append_some _ _ _ _ h1
  · intro k t hk
    show ((dropConns s removed).outletHeap ++ freshPorts self (n.outlets_.take m).length ts)[
      s.outletHeap.length + k]? = _
    have hl : (dropConns s removed).outletHeap.length = s.outletHeap.length := by
      simp [dropConns]
    rw [List.getElem?_append_right (by omega), hl, Nat.add_sub_cancel_left,
      freshPorts_getElem?, hk, List.length_take]
    rfl

theorem setOutletCount_effect (s : State) (hr : Reachable s) (self : Nat)
    (n : QDataflowModelNode) (hn : s.nodeHeap[self]? = some n) (m fuel : Nat)
    (hfuel : n.outlets_.length + m < fuel) :
    (m = n.outlets_.length → setOutletCount fuel s self (m : Int) = .ok s) ∧
    (m ≠ n.outlets_.length → ∃ removed s1 n1,
      setOutletCount fuel s self (m : Int) = .ok s1 ∧
      s1.nodeHeap[self]? = some n1 ∧
      n1 = { n with outlets_ := n1.outlets_ } ∧
      n1.outlets_.length = m ∧
      (∀ i, i < min n.outlets_.length m → n1.outlets_[i]? = n.outlets_[i]?) ∧
      (∀ p ∈ n.outlets_.take m, s1.outletHeap[p]? = s.outletHeap[p]?) ∧
      (∀ (i p : Nat), n.outlets_.length ≤ i → n1.outlets_[i]? = some p →
        s.outletHeap[p]? = none ∧ s1.outletHeap[p]? = some ⟨[], self, (i : Int), "", "*"⟩) ∧
      (∀ c, c ∈ removed ↔
        c ∈ s.connections_ ∧ ∃ p ∈ n.outlets_.drop m, sourceOf s c = some p) ∧
      s1.inletHeap = s.inletHeap.map (fun io => io.without removed) ∧
      s1.signalled = s.signalled ++ [.nodeOutletCountChanged self m] ∧
      s1.emitted = s.emitted ++ removed.map Signal.connectionRemoved
        ++ (if self ∈ s.nodes_ then [.nodeOutletCountChanged self m] else [])) := by
  have hinv := hr.inv
  have hub : n.signalsBlocked = false := hr.nodeInv.unblocked self n hn
  refine ⟨?_, ?_⟩
  · intro e
    subst e
    exact setOutletCount_same fuel s self n hn
  · intro hne
    obtain ⟨removed, _, hchar, hrun⟩ := setOutletCount_eval fuel s hinv self n m hn hub
      hne hfuel
    obtain ⟨hnode, hkept, hnew⟩ := rebuilt_outlets s hinv self n hn m removed
      (List.replicate (m - n.outlets_.length) "*") (fun c hc => ((hchar c).mp hc).2)
    refine ⟨removed, _, _, hrun, hnode, rfl, ?_, ?_, hkept, ?_, hchar, rfl, rfl, ?_⟩
    · simp only [List.length_append, List.length_take, List.length_range',
        List.length_replicate]
      omega
    · intro i hi
      show (n.outlets_.take m ++ _)[i]? = _
      rw [List.getElem?_append_left (by rw [List.length_take]; omega),
        List.getElem?_take_of_lt (by omega)]
    · intro i p hi hp
      have hp1 : (n.outlets_.take m ++ List.range' s.outletHeap.length
          (List.replicate (m - n.outlets_.length) "*").length)[i]? = some p := hp
      have hlt := (List.getElem?_eq_some_iff.mp hp1).1
      simp only [List.length_append, List.length_take, List.length_range',
        List.length_replicate] at hlt
      have hm : n.outlets_.length < m := by omega
      rw [List.getElem?_append_right (by rw [List.length_take]; omega), List.length_take,
        Nat.min_eq_right (by omega), List.length_replicate] at hp1
      have hp2 := List.getElem?_eq_some_iff.mp hp1
      obtain ⟨h1, h2⟩ := hp2
      rw [List.getElem_range'] at h2
      simp only [one_mul] at h2
      subst h2
      refine ⟨List.getElem?_eq_none (by omega), ?_⟩
      have h3 := hnew (i - n.outlets_.length) "*"
        (by rw [List.getElem?_replicate]; simp; omega)
      have : min m n.outlets_.length + (i - n.outlets_.length) = i := by omega
      rw [this] at h3
      exact h3
    · show s.emitted ++ removed.map Signal.connectionRemoved ++ _ = _
      congr 1
      have := hr.nodeInv.relay self n hn
      by_cases h : self ∈ s.nodes_
      · simp [h, this.mpr h]
      · have h0 : n.relayed = false := by
          cases hrel : n.relayed
          · rfl
          · exact absurd (this.mp hrel) h
        simp [h, h0]

/-- The inlet side of node `self` after its inlet list was cut to `m` entries and
inlets of the types `ts` were appended. -/
theorem rebuilt_inlets (s : State) (hinv : Inv s) (self : Nat) (n : QDataflowModelNode)
    (hn : s.nodeHeap[self]? = some n) (m : Nat) (removed : List Nat) (ts : List String)
    (hrem : ∀ c ∈ removed, ∃ p ∈ n.inlets_.drop m, destOf s c = some p) :
    (withInlets (cutInlets s self n m removed) self
        { n with inlets_ := n.inlets_.take m } ts).nodeHeap[self]?
      = some { n with inlets_ := n.inlets_.take m
                ++ List.range' s.inletHeap.length ts.length } ∧
    (∀ p ∈ n.inlets_.take m,
      (withInlets (cutInlets s self n m removed) self
        { n with inlets_ := n.inlets_.take m } ts).inletHeap[p]? = s.inletHeap[p]?) ∧
    (∀ (k : Nat) (t : String), ts[k]? = some t →
      (withInlets (cutInlets s self n m removed) self
        { n with inlets_ := n.inlets_.take m } ts).inletHeap[s.inletHeap.length + k]?
        = some ⟨[], self, ((min m n.inlets_.length + k : Nat) : Int), "", t⟩) := by
  refine ⟨?_, ?_, ?_⟩
  · have h := withInlets_node (cutInlets s self n m removed) self _
      { n with inlets_ := n.inlets_.take m } ts (cutInlets_node s self n n m removed hn)
    rw [h]
    simp [cutInlets, dropConns, State.setNode]
  · intro p hp
    have hpn : p ∈ n.inlets_ := List.mem_of_mem_take hp
    obtain ⟨i, hi⟩ := List.mem_iff_getElem?.mp hpn
    have hk := hinv.port.inlets self n hn i p hi
    unfold portKey at hk
    cases hio : s.inletHeap[p]? with
    | none => rw [hio] at hk; cases hk
    | some io =>
      have h1 : (dropConns s removed).inletHeap[p]? = some io := by
        apply inlet_kept_by_dropConns s hinv removed p io hio
        intro c hc hsrc
        obtain ⟨q, hq, hsrc1⟩ := hrem c hc
        rw [hsrc] at hsrc1
        cases hsrc1
        exact take_drop_disjoint _ m (node_inlets_nodup s hinv self n hn) p hp hq
      show ((dropConns s removed).inletHeap ++ _)[p]? = some io
      exact getElem?_append_some _ _ _ _ h1
  · intro k t hk
    show ((dropConns s removed).inletHeap ++ freshPorts self (n.inlets_.take m).length ts)[
      s.inletHeap.length + k]? = _
    have hl : (dropConns s removed).inletHeap.length = s.inletHeap.length := by
      simp [dropConns]
    rw [List.getElem?_append_right (by omega), hl, Nat.add_sub_cancel_left,
      freshPorts_getElem?, hk, List.length_take]
    rfl

theorem setInletCount_effect (s : State) (hr : Reachable s) (self : Nat)
    (n : QDataflowModelNode) (hn : s.nodeHeap[self]? = some n) (m fuel : Nat)
    (hfuel : n.inlets_.length + m < fuel) :
    (m = n.inlets_.length → setInletCount fuel s self (m : Int) = .ok s) ∧
    (m ≠ n.inlets_.length → ∃ removed s1 n1,
      setInletCount fuel s self (m : Int) = .ok s1 ∧
      s1.nodeHeap[self]? = some n1 ∧
      n1 = { n with inlets_ := n1.inlets_ } ∧
      n1.inlets_.length = m ∧
      (∀ i, i < min n.inlets_.length m → n1.inlets_[i]? = n.inlets_[i]?) ∧
      (∀ p ∈ n.inlets_.take m, s1.inletHeap[p]? = s.inletHeap[p]?) ∧
      (∀ (i p : Nat), n.inlets_.length ≤ i → n1.inlets_[i]? = some p →
        s.inletHeap[p]? = none ∧ s1.inletHeap[p]? = some ⟨[], self, (i : Int), "", "*"⟩) ∧
      (∀ c, c ∈ removed ↔
        c ∈ s.connections_ ∧ ∃ p ∈ n.inlets_.drop m, destOf s c = some p) ∧
      s1.outletHeap = s.outletHeap.map (fun io => io.without removed) ∧
      s1.signalled = s.signalled ++ [.nodeInletCountChanged self m] ∧
      s1.emitted = s.emitted ++ removed.map Signal.connectionRemoved
        ++ (if self ∈ s.nodes_ then [.nodeInletCountChanged self m] else [])) := by
  have hinv := hr.inv
  have hub : n.signalsBlocked = false := hr.nodeInv.unblocked self n hn
  refine ⟨?_, ?_⟩
  · intro e
    subst e
    exact setInletCount_same fuel s self n hn
  · intro hne
    obtain ⟨removed, _, hchar, hrun⟩ := setInletCount_eval fuel s hinv self n m hn hub
      hne hfuel
    obtain ⟨hnode, hkept, hnew⟩ := rebuilt_inlets s hinv self n hn m removed
      (List.replicate (m - n.inlets_.length) "*") (fun c hc => ((hchar c).mp hc).2)
    refine ⟨removed, _, _, hrun, hnode, rfl, ?_, ?_, hkept, ?_, hchar, rfl, rfl, ?_⟩
    · simp only [List.length_append, List.length_take, List.length_range',
        List.length_replicate]
      omega
    · intro i hi
      show (n.inlets_.take m ++ _)[i]? = _
      rw [List.getElem?_append_left (by rw [List.length_take]; omega),
        List.getElem?_take_of_lt (by omega)]
    · intro i p hi hp
      have hp1 : (n.inlets_.take m ++ List.range' s.inletHeap.length
          (List.replicate (m - n.inlets_.length) "*").length)[i]? = some p := hp
      have hlt := (List.getElem?_eq_some_iff.mp hp1).1
      simp only [List.length_append, List.length_take, List.length_range',
        List.length_replicate] at hlt
      have hm : n.inlets_.length < m := by omega
      rw [List.getElem?_append_right (by rw [List.length_take]; omega), List.length_take,
        Nat.min_eq_right (by omega), List.length_replicate] at hp1
      have hp2 := List.getElem?_eq_some_iff.mp hp1
      obtain ⟨h1, h2⟩ := hp2
      rw [List.getElem_range'] at h2
      simp only [one_mul] at h2
      subst h2
      refine ⟨List.getElem?_eq_none (by omega), ?_⟩
      have h3 := hnew (i - n.inlets_.length) "*"
        (by rw [List.getElem?_replicate]; simp; omega)
      have : min m n.inlets_.length + (i - n.inlets_.length) = i := by omega
      rw [this] at h3
      exact h3
    · show s.emitted ++ removed.map Signal.connectionRemoved ++ _ = _
      congr 1
      have := hr.nodeInv.relay self n hn
      by_cases h : self ∈ s.nodes_
      · simp [h, this.mpr h]
      · have h0 : n.relayed = false := by
          cases hrel : n.relayed
          · rfl
          · exact absurd (this.mp hrel) h
        simp [h, h0]

/-- C14: for a node of the node set of a reachable model and `m` below its outlet
count, `setOutletCount(m)` (given fuel for its loops) returns, and with `removed` the
connections of the connection set whose source is an outlet of the node at position
`m` or later: exactly these leave the connection set and the connection lists of the
inlets, every connection on an outlet at a position below `m` stays in the connection
set, and the model emits one `connectionRemoved` per removed connection followed by
the single outlet-count-changed event. The same holds for `setInletCount` with the
inlets and the destinations of the connections. -/
theorem shrinking_port_count_cascades (s : State) (hr : Reachable s) (self : Nat)
    (n : QDataflowModelNode) (hn : s.nodeHeap[self]? = some n) (hmem : self ∈ s.nodes_)
    (m fuel : Nat) :
    (m < n.outlets_.length → n.outlets_.length + m < fuel →
      ∃ removed s1, setOutletCount fuel s self (m : Int) = .ok s1 ∧
        removed.Nodup ∧
        (∀ c, c ∈ removed ↔
          c ∈ s.connections_ ∧ ∃ p ∈ n.outlets_.drop m, sourceOf s c = some p) ∧
        s1.connections_ = s.connections_.filter (fun c => decide (c ∉ removed)) ∧
        s1.inletHeap = s.inletHeap.map (fun io => io.without removed) ∧
        (∀ c ∈ s.connections_, (∃ p ∈ n.outlets_.take m, sourceOf s c = some p) →
          c ∈ s1.connections_) ∧
        s1.emitted = s.emitted ++ removed.map Signal.connectionRemoved
          ++ [.nodeOutletCountChanged self m]) ∧
    (m < n.inlets_.length → n.inlets_.length + m < fuel →
      ∃ removed s1, setInletCount fuel s self (m : Int) = .ok s1 ∧
        removed.Nodup ∧
        (∀ c, c ∈ removed ↔
          c ∈ s.connections_ ∧ ∃ p ∈ n.inlets_.drop m, destOf s c = some p) ∧
        s1.connections_ = s.connections_.filter (fun c => decide (c ∉ removed)) ∧
        s1.outletHeap = s.outletHeap.map (fun io => io.without removed) ∧
        (∀ c ∈ s.connections_, (∃ p ∈ n.inlets_.take m, destOf s c = some p) →
          c ∈ s1.connections_) ∧
        s1.emitted = s.emitted ++ removed.map Signal.connectionRemoved
          ++ [.nodeInletCountChanged self m]) := by
  refine ⟨?_, ?_⟩
  · intro hlt hfuel
    obtain ⟨removed, hnd, hchar, hrun, h1, h2, h3, h4⟩ :=
      setOutletCount_shrink_effect s hr self n hn hmem m fuel hlt hfuel
    exact ⟨removed, _, hrun, hnd, hchar, h1, h2, h3, h4⟩
  · intro hlt hfuel
    obtain ⟨removed, hnd, hchar, hrun, h1, h2, h3, h4⟩ :=
      setInletCount_shrink_effect s hr self n hn hmem m fuel hlt hfuel
    exact ⟨removed, _, hrun, hnd, hchar, h1, h2, h3, h4⟩

/-- Witness for C14, at `fanned`: the outlets of "osc" cut down to one. -/
theorem shrinking_port_count_cascades_witness :
    Reachable fanned ∧
    fanned.nodeHeap[0]? = some ⟨false, ⟨0, 0⟩, "osc", [0], [0, 1], false, true⟩ ∧
    0 ∈ fanned.nodes_ ∧
    ∃ removed s1, setOutletCount 8 fanned 0 1 = .ok s1 ∧
      removed.Nodup ∧
      (∀ c, c ∈ removed ↔
        c ∈ fanned.connections_ ∧ ∃ p ∈ [0, 1].drop 1, sourceOf fanned c = some p) ∧
      s1.connections_ = fanned.connections_.filter (fun c => decide (c ∉ removed)) ∧
      s1.inletHeap = fanned.inletHeap.map (fun io => io.without removed) ∧
      (∀ c ∈ fanned.connections_, (∃ p ∈ [0, 1].take 1, sourceOf fanned c = some p) →
        c ∈ s1.connections_) ∧
      s1.emitted = fanned.emitted ++ removed.map Signal.connectionRemoved
        ++ [.nodeOutletCountChanged 0 1] :=
  ⟨reachable_stateOf _, by decide, by decide,
    (shrinking_port_count_cascades fanned (reachable_stateOf _) 0
      ⟨false, ⟨0, 0⟩, "osc", [0], [0, 1], false, true⟩ (by decide) (by decide) 1 8).1
      (by decide) (by decide)⟩

/-- C15, counterexample: in the reachable model `feedback` the outlet of "delay" feeds
the node's own inlet; `setInletCount(0)` on "delay" returns and leaves the node's outlet
list as it was, but the outlet object itself has lost its connection. -/
theorem setInletCount_touches_own_outlet :
    Reachable feedback ∧
    feedback.nodeHeap[0]? = some ⟨false, ⟨0, 0⟩, "delay", [0], [0], false, true⟩ ∧
    feedback.outletHeap[0]? = some ⟨[0], 0, 0, "", "*"⟩ ∧
    (setInletCount 8 feedback 0 0).map (fun s => s.nodeHeap[0]?.map (fun n => n.outlets_))
      = .ok (some [0]) ∧
    (setInletCount 8 feedback 0 0).map (fun s => s.outletHeap[0]?)
      = .ok (some ⟨[], 0, 0, "", "*"⟩) :=
  ⟨reachable_stateOf _, by decide, by decide, by decide, by decide⟩

/-- C15, amended: for every node object of a reachable model and every `m ≥ 0` (given
fuel for the loops), `setInletCount(m)` returns; when `m` is the inlet count nothing
changes and nothing is emitted; otherwise the node has exactly `m` inlets, the first
`min(old, m)` are the old ports with unchanged objects, every added inlet is a new
object without name, of type `"*"`, without connections, carrying its position; the
node keeps its outlet list and its other attributes, and every outlet object keeps its
fields except that its connection list loses the connections that led to a removed
inlet; the node emits exactly one inlet-count-changed signal carrying `m`, which the
model relays after the `connectionRemoved` events when the node is in its node set.
The same holds for `setOutletCount` with the two sides exchanged. -/
theorem port_count_setter_effect (s : State) (hr : Reachable s) (self : Nat)
    (n : QDataflowModelNode) (hn : s.nodeHeap[self]? = some n) (m fuel : Nat)
    (hfuel : n.inlets_.length + n.outlets_.length + m < fuel) :
    ((m = n.inlets_.length → setInletCount fuel s self (m : Int) = .ok s) ∧
     (m ≠ n.inlets_.length → ∃ removed s1 n1,
      setInletCount fuel s self (m : Int) = .ok s1 ∧
      s1.nodeHeap[self]? = some n1 ∧
      n1 = { n with inlets_ := n1.inlets_ } ∧
      n1.inlets_.length = m ∧
      (∀ i, i < min n.inlets_.length m → n1.inlets_[i]? = n.inlets_[i]?) ∧
      (∀ p ∈ n.inlets_.take m, s1.inletHeap[p]? = s.inletHeap[p]?) ∧
      (∀ (i p : Nat), n.inlets_.length ≤ i → n1.inlets_[i]? = some p →
        s.inletHeap[p]? = none ∧ s1.inletHeap[p]? = some ⟨[], self, (i : Int), "", "*"⟩) ∧
      (∀ c, c ∈ removed ↔
        c ∈ s.connections_ ∧ ∃ p ∈ n.inlets_.drop m, destOf s c = some p) ∧
      s1.outletHeap = s.outletHeap.map (fun io => io.without removed) ∧
      s1.signalled = s.signalled ++ [.nodeInletCountChanged self m] ∧
      s1.emitted = s.emitted ++ removed.map Signal.connectionRemoved
        ++ (if self ∈ s.nodes_ then [.nodeInletCountChanged self m] else []))) ∧
    ((m = n.outlets_.length → setOutletCount fuel s self (m : Int) = .ok s) ∧
     (m ≠ n.outlets_.length → ∃ removed s1 n1,
      setOutletCount fuel s self (m : Int) = .ok s1 ∧
      s1.nodeHeap[self]? = some n1 ∧
      n1 = { n with outlets_ := n1.outlets_ } ∧
      n1.outlets_.length = m ∧
      (∀ i, i < min n.outlets_.length m → n1.outlets_[i]? = n.outlets_[i]?) ∧
      (∀ p ∈ n.outlets_.take m, s1.outletHeap[p]? = s.outletHeap[p]?) ∧
      (∀ (i p : Nat), n.outlets_.length ≤ i → n1.outlets_[i]? = some p →
        s.outletHeap[p]? = none ∧ s1.outletHeap[p]? = some ⟨[], self, (i : Int), "", "*"⟩) ∧
      (∀ c, c ∈ removed ↔
        c ∈ s.connections_ ∧ ∃ p ∈ n.outlets_.drop m, sourceOf s c = some p) ∧
      s1.inletHeap = s.inletHeap.map (fun io => io.without removed) ∧
      s1.signalled = s.signalled ++ [.nodeOutletCountChanged self m] ∧
      s1.emitted = s.emitted ++ removed.map Signal.connectionRemoved
        ++ (if self ∈ s.nodes_ then [.nodeOutletCountChanged self m] else []))) :=
  ⟨setInletCount_effect s hr self n hn m fuel (by omega),
    setOutletCount_effect s hr self n hn m fuel (by omega)⟩

/-- Witness for C15 (amended), at `fanned`, for the node "gain": two inlets asked for
where there are two, then three. -/
theorem port_count_setter_effect_witness :
    Reachable fanned ∧
    fanned.nodeHeap[1]? = some ⟨false, ⟨100, 0⟩, "gain", [1, 2], [2], false, true⟩ ∧
    setInletCount 8 fanned 1 2 = .ok fanned ∧
    ∃ s1 n1, setInletCount 8 fanned 1 3 = .ok s1 ∧ s1.nodeHeap[1]? = some n1 ∧
      n1.inlets_.length = 3 ∧ n1.outlets_ = [2] ∧
      s1.signalled = fanned.signalled ++ [.nodeInletCountChanged 1 3] :=
  ⟨reachable_stateOf _, by decide,
    (port_count_setter_effect fanned (reachable_stateOf _) 1
      ⟨false, ⟨100, 0⟩, "gain", [1, 2], [2], false, true⟩ (by decide) 2 8 (by decide)).1.1 rfl,
    by
      obtain ⟨_, s1, n1, h1, h2, h3, h4, _, _, _, _, _, h5, _⟩ :=
        (port_count_setter_effect fanned (reachable_stateOf _) 1
          ⟨false, ⟨100, 0⟩, "gain", [1, 2], [2], false, true⟩ (by decide) 3 8
          (by decide)).1.2 (by decide)
      exact ⟨s1, n1, h1, h2, h4, by rw [h3], h5⟩⟩

theorem setOutletTypes_effect (s : State) (hr : Reachable s) (self : Nat)
    (n : QDataflowModelNode) (hn : s.nodeHeap[self]? = some n) (types : List String)
    (fuel : Nat) (hfuel : n.outlets_.length < fuel) :
    ∃ removed s1 n1, setOutletTypes fuel s self types = .ok s1 ∧
      s1.nodeHeap[self]? = some n1 ∧
      n1 = { n with outlets_ := n1.outlets_ } ∧
      n1.outlets_.length = types.length ∧
      (∀ (i : Nat) (t : String), types[i]? = some t → ∃ p, n1.outlets_[i]? = some p ∧
        s.outletHeap[p]? = none ∧ s1.outletHeap[p]? = some ⟨[], self, (i : Int), "", t⟩) ∧
      removed.Nodup ∧
      (∀ c, c ∈ removed ↔ c ∈ s.connections_ ∧ ∃ p ∈ n.outlets_, sourceOf s c = some p) ∧
      s1.connections_ = s.connections_.filter (fun c => decide (c ∉ removed)) ∧
      (∀ c ∈ s1.connections_, ∀ p ∈ n.outlets_, sourceOf s1 c ≠ some p) ∧
      s1.inletHeap = s.inletHeap.map (fun io => io.without removed) ∧
      s1.signalled = s.signalled ++ (if n.outlets_.length ≠ types.length
        then [.nodeOutletCountChanged self types.length] else []) ∧
      s1.emitted = s.emitted ++ removed.map Signal.connectionRemoved
        ++ (if n.outlets_.length ≠ types.length ∧ self ∈ s.nodes_
          then [.nodeOutletCountChanged self types.length] else []) := by
  have hinv := hr.inv
  have hub : n.signalsBlocked = false := hr.nodeInv.unblocked self n hn
  obtain ⟨removed, hnd, hchar, hrun⟩ := setOutletTypes_eval fuel s hinv self n types hn hub
    hfuel
  obtain ⟨hnode, -, hnew⟩ := rebuilt_outlets s hinv self n hn 0 removed types
    (fun c hc => ((hchar c).mp hc).2)
  have hrel := hr.nodeInv.relay self n hn
  have hnode1 : (retypedOutlets s self n types removed).nodeHeap[self]?
      = some { n with outlets_ := n.outlets_.take 0
                ++ List.range' s.outletHeap.length types.length } := by
    unfold retypedOutlets
    split
    · exact hnode
    · exact hnode
  have hheap : ∀ q : Nat, (retypedOutlets s self n types removed).outletHeap[q]?
      = (withOutlets (cutOutlets s self n 0 removed) self
          { n with outlets_ := n.outlets_.take 0 } types).outletHeap[q]? := by
    intro q
    unfold retypedOutlets
    split <;> rfl
  have hconn : (retypedOutlets s self n types removed).connections_
      = s.connections_.filter (fun c => decide (c ∉ removed)) := by
    unfold retypedOutlets
    split <;> rfl
  have hch : (retypedOutlets s self n types removed).connHeap = s.connHeap := by
    unfold retypedOutlets
    split <;> rfl
  refine ⟨removed, _, _, hrun, hnode1, rfl, ?_, ?_, hnd, hchar, hconn, ?_, ?_, ?_, ?_⟩
  · simp
  · intro i t ht
    have hi : i < types.length := (List.getElem?_eq_some_iff.mp ht).1
    refine ⟨s.outletHeap.length + i, ?_, List.getElem?_eq_none (by omega), ?_⟩
    · show (n.outlets_.take 0 ++ List.range' s.outletHeap.length types.length)[i]? = _
      simp [List.getElem?_range', hi]
    · rw [hheap, hnew i t ht]
      simp
  · intro c hc p hp hsrc
    rw [hconn, List.mem_filter] at hc
    have hsrc1 : sourceOf s c = some p := by
      unfold sourceOf at hsrc ⊢
      rw [hch] at hsrc
      exact hsrc
    have : c ∈ removed := (hchar c).mpr ⟨hc.1, p, hp, hsrc1⟩
    simp [this] at hc
  · unfold retypedOutlets
    split <;> rfl
  · unfold retypedOutlets
    split
    · next e => simp [announce, withOutlets, cutOutlets, dropConns, State.setNode, e]
    · next e => simp [withOutlets, cutOutlets, dropConns, State.setNode, e]
  · by_cases hm : self ∈ s.nodes_
    · have h1 : n.relayed = true := hrel.mpr hm
      unfold retypedOutlets
      split
      · next e => simp [announce, withOutlets, cutOutlets, dropConns, State.setNode, e, h1, hm]
      · next e => simp [withOutlets, cutOutlets, dropConns, State.setNode, e]
    · have h0 : n.relayed = false := by
        cases hrel1 : n.relayed
        · rfl
        · exact absurd (hrel.mp hrel1) hm
      unfold retypedOutlets
      split
      · next e => simp [announce, withOutlets, cutOutlets, dropConns, State.setNode, h0, hm]
      · next e => simp [withOutlets, cutOutlets, dropConns, State.setNode, e]

theorem setInletTypes_effect (s : State) (hr : Reachable s) (self : Nat)
    (n : QDataflowModelNode) (hn : s.nodeHeap[self]? = some n) (types : List String)
    (fuel : Nat) (hfuel : n.inlets_.length < fuel) :
    ∃ removed s1 n1, setInletTypes fuel s self types = .ok s1 ∧
      s1.nodeHeap[self]? = some n1 ∧
      n1 = { n with inlets_ := n1.inlets_ } ∧
      n1.inlets_.length = types.length ∧
      (∀ (i : Nat) (t : String), types[i]? = some t → ∃ p, n1.inlets_[i]? = some p ∧
        s.inletHeap[p]? = none ∧ s1.inletHeap[p]? = some ⟨[], self, (i : Int), "", t⟩) ∧
      removed.Nodup ∧
      (∀ c, c ∈ removed ↔ c ∈ s.connections_ ∧ ∃ p ∈ n.inlets_, destOf s c = some p) ∧
      s1.connections_ = s.connections_.filter (fun c => decide (c ∉ removed)) ∧
      (∀ c ∈ s1.connections_, ∀ p ∈ n.inlets_, destOf s1 c ≠ some p) ∧
      s1.outletHeap = s.outletHeap.map (fun io => io.without removed) ∧
      s1.signalled = s.signalled ++ (if n.inlets_.length ≠ types.length
        then [.nodeInletCountChanged self types.length] else []) ∧
      s1.emitted = s.emitted ++ removed.map Signal.connectionRemoved
        ++ (if n.inlets_.length ≠ types.length ∧ self ∈ s.nodes_
          then [.nodeInletCountChanged self types.length] else []) := by
  have hinv := hr.inv
  have hub : n.signalsBlocked = false := hr.nodeInv.unblocked self n hn
  obtain ⟨removed, hnd, hchar, hrun⟩ := setInletTypes_eval fuel s hinv self n types hn hub
    hfuel
  obtain ⟨hnode, -, hnew⟩ := rebuilt_inlets s hinv self n hn 0 removed types
    (fun c hc => ((hchar c).mp hc).2)
  have hrel := hr.nodeInv.relay self n hn
  have hnode1 : (retypedInlets s self n types removed).nodeHeap[self]?
      = some { n with inlets_ := n.inlets_.take 0
                ++ List.range' s.inletHeap.length types.length } := by
    unfold retypedInlets
    split
    · exact hnode
    · exact hnode
  have hheap : ∀ q : Nat, (retypedInlets s self n types removed).inletHeap[q]?
      = (withInlets (cutInlets s self n 0 removed) self
          { n with inlets_ := n.inlets_.take 0 } types).inletHeap[q]? := by
    intro q
    unfold retypedInlets
    split <;> rfl
  have hconn : (retypedInlets s self n types removed).connections_
      = s.connections_.filter (fun c => decide (c ∉ removed)) := by
    unfold retypedInlets
    split <;> rfl
  have hch : (retypedInlets s self n types removed).connHeap = s.connHeap := by
    unfold retypedInlets
    split <;> rfl
  refine ⟨removed, _, _, hrun, hnode1, rfl, ?_, ?_, hnd, hchar, hconn, ?_, ?_, ?_, ?_⟩
  · simp
  · intro i t ht
    have hi : i < types.length := (List.getElem?_eq_some_iff.mp ht).1
    refine ⟨s.inletHeap.length + i, ?_, List.getElem?_eq_none (by omega), ?_⟩
    · show (n.inlets_.take 0 ++ List.range' s.inletHeap.length types.length)[i]? = _
      simp [List.getElem?_range', hi]
    · rw [hheap, hnew i t ht]
      simp
  · intro c hc p hp hsrc
    rw [hconn, List.mem_filter] at hc
    have hsrc1 : destOf s c = some p := by
      unfold destOf at hsrc ⊢
      rw [hch] at hsrc
      exact hsrc
    have : c ∈ removed := (hchar c).mpr ⟨hc.1, p, hp, hsrc1⟩
    simp [this] at hc
  · unfold retypedInlets
    split <;> rfl
  · unfold retypedInlets
    split
    · next e => simp [announce, withInlets, cutInlets, dropConns, State.setNode, e]
    · next e => simp [withInlets, cutInlets, dropConns, State.setNode, e]
  · by_cases hm : self ∈ s.nodes_
    · have h1 : n.relayed = true := hrel.mpr hm
      unfold retypedInlets
      split
      · next e => simp [announce, withInlets, cutInlets, dropConns, State.setNode, e, h1, hm]
      · next e => simp [withInlets, cutInlets, dropConns, State.setNode, e]
    · have h0 : n.relayed = false := by
        cases hrel1 : n.relayed
        · rfl
        · exact absurd (hrel.mp hrel1) hm
      unfold retypedInlets
      split
      · next e => simp [announce, withInlets, cutInlets, dropConns, State.setNode, h0, hm]
      · next e => simp [withInlets, cutInlets, dropConns, State.setNode, e]

/-- C16: for every node object of a reachable model and every list of types (given
fuel for the loops), `setInletTypes(types)` returns; afterwards the node has exactly
`types.length` inlets, inlet `i` is a new port object of type `types[i]` with an empty
name, index `i` and no connections, and every member of the connection set whose
destination was a previous inlet of the node has left the connection set, so that no
remaining connection leads to a previous inlet; whether the list repeats the previous
types plays no part. The same holds for `setOutletTypes` with the outlets and the
sources of the connections. -/
theorem port_types_setter_effect (s : State) (hr : Reachable s) (self : Nat)
    (n : QDataflowModelNode) (hn : s.nodeHeap[self]? = some n) (types : List String)
    (fuel : Nat) (hfuel : n.inlets_.length + n.outlets_.length < fuel) :
    (∃ removed s1 n1, setInletTypes fuel s self types = .ok s1 ∧
      s1.nodeHeap[self]? = some n1 ∧
      n1.inlets_.length = types.length ∧
      (∀ (i : Nat) (t : String), types[i]? = some t → ∃ p, n1.inlets_[i]? = some p ∧
        s.inletHeap[p]? = none ∧ s1.inletHeap[p]? = some ⟨[], self, (i : Int), "", t⟩) ∧
      (∀ c, c ∈ removed ↔ c ∈ s.connections_ ∧ ∃ p ∈ n.inlets_, destOf s c = some p) ∧
      s1.connections_ = s.connections_.filter (fun c => decide (c ∉ removed)) ∧
      (∀ c ∈ s1.connections_, ∀ p ∈ n.inlets_, destOf s1 c ≠ some p) ∧
      s1.outletHeap = s.outletHeap.map (fun io => io.without removed)) ∧
    (∃ removed s1 n1, setOutletTypes fuel s self types = .ok s1 ∧
      s1.nodeHeap[self]? = some n1 ∧
      n1.outlets_.length = types.length ∧
      (∀ (i : Nat) (t : String), types[i]? = some t → ∃ p, n1.outlets_[i]? = some p ∧
        s.outletHeap[p]? = none ∧ s1.outletHeap[p]? = some ⟨[], self, (i : Int), "", t⟩) ∧
      (∀ c, c ∈ removed ↔ c ∈ s.connections_ ∧ ∃ p ∈ n.outlets_, sourceOf s c = some p) ∧
      s1.connections_ = s.connections_.filter (fun c => decide (c ∉ removed)) ∧
      (∀ c ∈ s1.connections_, ∀ p ∈ n.outlets_, sourceOf s1 c ≠ some p) ∧
      s1.inletHeap = s.inletHeap.map (fun io => io.without removed)) := by
  refine ⟨?_, ?_⟩
  · obtain ⟨removed, s1, n1, h1, h2, _, h4, h5, _, h7, h8, h9, h10, _, _⟩ :=
      setInletTypes_effect s hr self n hn types fuel (by omega)
    exact ⟨removed, s1, n1, h1, h2, h4, h5, h7, h8, h9, h10⟩
  · obtain ⟨removed, s1, n1, h1, h2, _, h4, h5, _, h7, h8, h9, h10, _, _⟩ :=
      setOutletTypes_effect s hr self n hn types fuel (by omega)
    exact ⟨removed, s1, n1, h1, h2, h4, h5, h7, h8, h9, h10⟩

/-- Witness for C16, at `patched`: the inlet of "gain", which holds the connection, is
replaced by a list repeating its type. -/
theorem port_types_setter_effect_witness :
    Reachable patched ∧
    patched.nodeHeap[1]? = some ⟨false, ⟨100, 0⟩, "gain", [1], [1], false, true⟩ ∧
    ∃ s1 n1, setInletTypes 8 patched 1 ["*"] = .ok s1 ∧
      s1.nodeHeap[1]? = some n1 ∧ n1.inlets_.length = 1 ∧
      (∀ c ∈ s1.connections_, destOf s1 c ≠ some 1) :=
  ⟨reachable_stateOf _, by decide, by
    obtain ⟨_, s1, n1, h1, h2, h3, _, _, _, h4, _⟩ :=
      (port_types_setter_effect patched (reachable_stateOf _) 1
        ⟨false, ⟨100, 0⟩, "gain", [1], [1], false, true⟩ (by decide) ["*"] 8
        (by decide)).1
    exact ⟨s1, n1, h1, h2, h3, fun c hc => h4 c hc 1 (by simp)⟩⟩

/-- C17, counterexample: in the reachable model `patched` the node "gain" has one inlet,
which holds connection 0; `setInletTypes` with a list of length one returns, and the
model has emitted `connectionRemoved` for that connection. -/
theorem same_length_retype_emits_connectionRemoved :
    Reachable patched ∧
    patched.nodeHeap[1]?.map (fun n => n.inlets_.length) = some 1 ∧
    (setInletTypes 8 patched 1 ["*"]).map (fun s => s.emitted)
      = .ok (patched.emitted ++ [.connectionRemoved 0]) :=
  ⟨reachable_stateOf _, by decide, by decide⟩

/-- C17, amended: for every node object of a reachable model, `setInletTypes` called
with a list as long as the node's inlet list (given fuel for the loops) returns without
any signal of the node, hence without a count-changed event of the model; the only
events of the model are one `connectionRemoved` per member of the connection set that
led to one of the replaced inlets, none when these held no connection. The same holds
for `setOutletTypes` with the outlets. -/
theorem same_length_retype_notifications (s : State) (hr : Reachable s) (self : Nat)
    (n : QDataflowModelNode) (hn : s.nodeHeap[self]? = some n) (types : List String)
    (fuel : Nat) (hfuel : n.inlets_.length + n.outlets_.length < fuel) :
    (types.length = n.inlets_.length →
      ∃ (removed : List Nat) (s1 : State), setInletTypes fuel s self types = .ok s1 ∧
        removed.Nodup ∧
        (∀ c, c ∈ removed ↔ c ∈ s.connections_ ∧ ∃ p ∈ n.inlets_, destOf s c = some p) ∧
        s1.signalled = s.signalled ∧
        s1.emitted = s.emitted ++ removed.map Signal.connectionRemoved) ∧
    (types.length = n.outlets_.length →
      ∃ (removed : List Nat) (s1 : State), setOutletTypes fuel s self types = .ok s1 ∧
        removed.Nodup ∧
        (∀ c, c ∈ removed ↔ c ∈ s.connections_ ∧ ∃ p ∈ n.outlets_, sourceOf s c = some p) ∧
        s1.signalled = s.signalled ∧
        s1.emitted = s.emitted ++ removed.map Signal.connectionRemoved) := by
  refine ⟨?_, ?_⟩
  · intro e
    obtain ⟨removed, s1, n1, h1, _, _, _, _, h6, h7, _, _, _, h11, h12⟩ :=
      setInletTypes_effect s hr self n hn types fuel (by omega)
    refine ⟨removed, s1, h1, h6, h7, ?_, ?_⟩
    · rw [h11]; simp [e]
    · rw [h12]; simp [e]
  · intro e
    obtain ⟨removed, s1, n1, h1, _, _, _, _, h6, h7, _, _, _, h11, h12⟩ :=
      setOutletTypes_effect s hr self n hn types fuel (by omega)
    refine ⟨removed, s1, h1, h6, h7, ?_, ?_⟩
    · rw [h11]; simp [e]
    · rw [h12]; simp [e]

/-- Witness for C17 (amended), at `patch`, where no port holds a connection: the inlet
of "gain" is replaced by one of type `"B"`. -/
theorem same_length_retype_notifications_witness :
    Reachable patch ∧
    patch.nodeHeap[1]? = some ⟨false, ⟨100, 0⟩, "gain", [1], [1], false, true⟩ ∧
    ∃ (removed : List Nat) (s1 : State), setInletTypes 8 patch 1 ["B"] = .ok s1 ∧
      removed.Nodup ∧
      (∀ c, c ∈ removed ↔ c ∈ patch.connections_ ∧ ∃ p ∈ [1], destOf patch c = some p) ∧
      s1.signalled = patch.signalled ∧
      s1.emitted = patch.emitted ++ removed.map Signal.connectionRemoved :=
  ⟨reachable_stateOf _, by decide,
    (same_length_retype_notifications patch (reachable_stateOf _) 1
      ⟨false, ⟨100, 0⟩, "gain", [1], [1], false, true⟩ (by decide) ["B"] 8
      (by decide)).1 rfl⟩

/-- C21: in a reachable model, `remove` called with a null node or with a node that is
not in the node set returns the model as it is; so does `disconnect` called with a null
node or for an endpoint quadruple that no member of the connection set has, and
`disconnect(conn)` called with null or with a connection object whose endpoints no member
of the connection set has. The returned state being the one before the call, the node
set, the connection set, every port's connection list and the emitted events are
unchanged. -/
theorem absent_target_is_a_no_op (s : State) (hr : Reachable s) :
    remove s none = .ok s ∧
    (∀ p, p ∉ s.nodes_ → remove s (some p) = .ok s) ∧
    (∀ (sourceNode destNode : Option Nat) (so di : Int),
      (∀ sn dn, sourceNode = some sn → destNode = some dn →
        ∀ d ∈ s.connections_, endpoints s d ≠ some ((sn, so), (dn, di))) →
      disconnect s sourceNode so destNode di = .ok s) ∧
    disconnect_conn s none = .ok s ∧
    (∀ (c sp dp : Nat) (src dst : QDataflowModelIOlet),
      s.connHeap[c]? = some { source_ := some sp, dest_ := some dp } →
      s.outletHeap[sp]? = some src → s.inletHeap[dp]? = some dst →
      (∀ d ∈ s.connections_, endpoints s d ≠ endpoints s c) →
      disconnect_conn s (some c) = .ok s) := by
  have hinv := hr.inv
  refine ⟨rfl, ?_, ?_, rfl, ?_⟩
  · intro p hp
    simp [remove, hp]
  · intro sourceNode destNode so di h
    cases sourceNode with
    | none => rfl
    | some sn =>
      cases destNode with
      | none => rfl
      | some dn =>
        have hfree := (free_iff s hinv sn so dn di).mpr (h sn dn rfl rfl)
        unfold disconnect
        simp only [hfree, bind, Except.bind]
        rfl
  · intro c sp dp src dst hco hs hd h
    have hf := findConnections_conn_eq s hinv.conn c sp dp src dst hco hs hd
    have he : s.connections_.filter (fun d => decide (endpoints s d = endpoints s c)) = [] := by
      rw [List.filter_eq_nil_iff]
      intro d hd1
      simpa using h d hd1
    unfold disconnect_conn
    simp only [hf, he, bind, Except.bind]
    rfl

/-- Witness for C21: at `detached` the node 0 has left the node set, and at `patched`
no connection leads from "gain" to "osc". -/
theorem absent_target_is_a_no_op_witness :
    Reachable detached ∧ 0 ∉ detached.nodes_ ∧ remove detached (some 0) = .ok detached ∧
    Reachable patched ∧ disconnect patched (some 1) 0 (some 0) 0 = .ok patched :=
  ⟨reachable_stateOf _, by decide,
    (absent_target_is_a_no_op detached (reachable_stateOf _)).2.1 0 (by decide),
    reachable_stateOf _,
    (absent_target_is_a_no_op patched (reachable_stateOf _)).2.2.1 (some 1) (some 0) 0 0
      (by
        intro sn dn h1 h2 d hd
        cases h1
        cases h2
        have h0 : patched.connections_ = [0] := by decide
        rw [h0] at hd
        simp only [List.mem_singleton] at hd
        subst hd
        decide)⟩

theorem inlet_lookup (s : State) (hinv : Inv s) (self : Nat) (n : QDataflowModelNode)
    (hn : s.nodeHeap[self]? = some n) (k : Int) :
    (0 ≤ k ∧ k < n.inletCount → ∃ p io, n.inlet k = some p ∧
      s.inletHeap[p]? = some io ∧ io.index_ = k ∧ io.node_ = self ∧
      ∀ (j q : Nat) (ioq : QDataflowModelIOlet), n.inlets_[j]? = some q →
        s.inletHeap[q]? = some ioq → ioq.index_ = k → q = p) ∧
    (¬ (0 ≤ k ∧ k < n.inletCount) → n.inlet k = none) := by
  refine ⟨?_, ?_⟩
  · intro ⟨h0, h1⟩
    unfold QDataflowModelNode.inletCount at h1
    have hlt : k.toNat < n.inlets_.length := by omega
    have hp : n.inlets_[k.toNat]? = some n.inlets_[k.toNat] := List.getElem?_eq_getElem hlt
    have hk := hinv.port.inlets self n hn k.toNat _ hp
    unfold portKey at hk
    cases hio : s.inletHeap[n.inlets_[k.toNat]]? with
    | none => rw [hio] at hk; cases hk
    | some io =>
      rw [hio] at hk
      simp only [Option.map_some', Option.some.injEq, Prod.mk.injEq] at hk
      refine ⟨_, io, ?_, hio, ?_, hk.1, ?_⟩
      · unfold QDataflowModelNode.inlet
        rw [if_pos ⟨h0, h1⟩, hp]
      · rw [hk.2]; omega
      · intro j q ioq hj hq hidx
        have hkq := hinv.port.inlets self n hn j q hj
        unfold portKey at hkq
        rw [hq] at hkq
        simp only [Option.map_some', Option.some.injEq, Prod.mk.injEq] at hkq
        have : j = k.toNat := by omega
        subst this
        rw [hp] at hj
        exact (Option.some.inj hj).symm
  · intro h
    unfold QDataflowModelNode.inlet
    unfold QDataflowModelNode.inletCount at h
    rw [if_neg h]

theorem outlet_lookup (s : State) (hinv : Inv s) (self : Nat) (n : QDataflowModelNode)
    (hn : s.nodeHeap[self]? = some n) (k : Int) :
    (0 ≤ k ∧ k < n.outletCount → ∃ p io, n.outlet k = some p ∧
      s.outletHeap[p]? = some io ∧ io.index_ = k ∧ io.node_ = self ∧
      ∀ (j q : Nat) (ioq : QDataflowModelIOlet), n.outlets_[j]? = some q →
        s.outletHeap[q]? = some ioq → ioq.index_ = k → q = p) ∧
    (¬ (0 ≤ k ∧ k < n.outletCount) → n.outlet k = none) := by
  refine ⟨?_, ?_⟩
  · intro ⟨h0, h1⟩
    unfold QDataflowModelNode.outletCount at h1
    have hlt : k.toNat < n.outlets_.length := by omega
    have hp : n.outlets_[k.toNat]? = some n.outlets_[k.toNat] := List.getElem?_eq_getElem hlt
    have hk := hinv.port.outlets self n hn k.toNat _ hp
    unfold portKey at hk
    cases hio : s.outletHeap[n.outlets_[k.toNat]]? with
    | none => rw [hio] at hk; cases hk
    | some io =>
      rw [hio] at hk
      simp only [Option.map_some', Option.some.injEq, Prod.mk.injEq] at hk
      refine ⟨_, io, ?_, hio, ?_, hk.1, ?_⟩
      · unfold QDataflowModelNode.outlet
        rw [if_pos ⟨h0, h1⟩, hp]
      · rw [hk.2]; omega
      · intro j q ioq hj hq hidx
        have hkq := hinv.port.outlets self n hn j q hj
        unfold portKey at hkq
        rw [hq] at hkq
        simp only [Option.map_some', Option.some.injEq, Prod.mk.injEq] at hkq
        have : j = k.toNat := by omega
        subst this
        rw [hp] at hj
        exact (Option.some.inj hj).symm
  · intro h
    unfold QDataflowModelNode.outlet
    unfold QDataflowModelNode.outletCount at h
    rw [if_neg h]

/-- C24: in every reachable model (the calls of `create` and of the port operations of
a node included), for every node object: the port at position `i` of its inlet list is
an existing inlet object whose stored index is `i` and whose node is this node;
`inlet(k)` returns, exactly when `0 ≤ k < inletCount()`, the one port of the list whose
stored index is `k`, and null otherwise. The same holds for the outlets and
`outlet(k)`. -/
theorem port_index_is_position (s : State) (hr : Reachable s) (self : Nat)
    (n : QDataflowModelNode) (hn : s.nodeHeap[self]? = some n) :
    (∀ (i p : Nat), n.inlets_[i]? = some p →
      ∃ io, s.inletHeap[p]? = some io ∧ io.index_ = (i : Int) ∧ io.node_ = self) ∧
    (∀ (i p : Nat), n.outlets_[i]? = some p →
      ∃ io, s.outletHeap[p]? = some io ∧ io.index_ = (i : Int) ∧ io.node_ = self) ∧
    (∀ k : Int,
      (0 ≤ k ∧ k < n.inletCount → ∃ p io, n.inlet k = some p ∧
        s.inletHeap[p]? = some io ∧ io.index_ = k ∧ io.node_ = self ∧
        ∀ (j q : Nat) (ioq : QDataflowModelIOlet), n.inlets_[j]? = some q →
          s.inletHeap[q]? = some ioq → ioq.index_ = k → q = p) ∧
      (¬ (0 ≤ k ∧ k < n.inletCount) → n.inlet k = none)) ∧
    (∀ k : Int,
      (0 ≤ k ∧ k < n.outletCount → ∃ p io, n.outlet k = some p ∧
        s.outletHeap[p]? = some io ∧ io.index_ = k ∧ io.node_ = self ∧
        ∀ (j q : Nat) (ioq : QDataflowModelIOlet), n.outlets_[j]? = some q →
          s.outletHeap[q]? = some ioq → ioq.index_ = k → q = p) ∧
      (¬ (0 ≤ k ∧ k < n.outletCount) → n.outlet k = none)) := by
  have hinv := hr.inv
  refine ⟨?_, ?_, inlet_lookup s hinv self n hn, outlet_lookup s hinv self n hn⟩
  · intro i p hp
    have hk := hinv.port.inlets self n hn i p hp
    unfold portKey at hk
    cases hio : s.inletHeap[p]? with
    | none => rw [hio] at hk; cases hk
    | some io =>
      rw [hio] at hk
      simp only [Option.map_some', Option.some.injEq, Prod.mk.injEq] at hk
      exact ⟨io, rfl, hk.2, hk.1⟩
  · intro i p hp
    have hk := hinv.port.outlets self n hn i p hp
    unfold portKey at hk
    cases hio : s.outletHeap[p]? with
    | none => rw [hio] at hk; cases hk
    | some io =>
      rw [hio] at hk
      simp only [Option.map_some', Option.some.injEq, Prod.mk.injEq] at hk
      exact ⟨io, rfl, hk.2, hk.1⟩

/-- Witness for C24, at `fanned`, for the node "gain" with its two inlets: `inlet(1)` is
the second port, `inlet(2)` and `inlet(-1)` are null. -/
theorem port_index_is_position_witness :
    Reachable fanned ∧
    fanned.nodeHeap[1]? = some ⟨false, ⟨100, 0⟩, "gain", [1, 2], [2], false, true⟩ ∧
    (∃ io, fanned.inletHeap[2]? = some io ∧ io.index_ = 1 ∧ io.node_ = 1) ∧
    (⟨false, ⟨100, 0⟩, "gain", [1, 2], [2], false, true⟩ : QDataflowModelNode).inlet 2 = none ∧
    (⟨false, ⟨100, 0⟩, "gain", [1, 2], [2], false, true⟩ : QDataflowModelNode).inlet (-1)
      = none :=
  have h := port_index_is_position fanned (reachable_stateOf _) 1
    ⟨false, ⟨100, 0⟩, "gain", [1, 2], [2], false, true⟩ (by decide)
  ⟨reachable_stateOf _, by decide, h.1 1 2 (by decide), (h.2.2.1 2).2 (by decide),
    (h.2.2.1 (-1)).2 (by decide)⟩

theorem shrinkInlets_negative (self : Nat) (count : Int) (hneg : count < 0) :
    ∀ (fuel : Nat) (s : State) (n : QDataflowModelNode), Inv s → s.nodeHeap[self]? = some n →
      n.signalsBlocked = true → shrinkInlets fuel s self count = .error .outOfFuel := by
  intro fuel
  induction fuel with
  | zero => intro s n _ _ _; rfl
  | succ f ih =>
    intro s n hinv hn hb
    have g1 : s.getNode self = .ok n := (load_eq_ok _ _ _).mpr hn
    have hc : n.inletCount > count := by
      simp only [QDataflowModelNode.inletCount]
      omega
    by_cases hne : n.inlets_ = []
    · have hstep : removeLastInlet s self = .ok s := by
        unfold removeLastInlet
        simp only [g1, hne, bind, Except.bind, List.getLast?_nil, pure, Except.pure]
      unfold shrinkInlets
      simp only [g1, bind, Except.bind, hc, if_true, hstep]
      exact ih s n hinv hn hb
    · have hlast : n.inlets_.getLast? = some (n.inlets_.getLast hne) :=
        List.getLast?_eq_getLast _ hne
      have hpos : 0 < n.inlets_.length := List.length_pos.mpr hne
      have hidx : n.inlets_[n.inlets_.length - 1]? = some (n.inlets_.getLast hne) := by
        rw [List.getLast_eq_getElem]
        exact List.getElem?_eq_getElem (by omega)
      obtain ⟨io, ho, _, _⟩ := inlet_exists s hinv self n hn _ _ hidx
      have hstep := removeLastInlet_eval s hinv self n hn hb _ io hlast ho
      have hinv1 := removeLastInlet_inv s _ self hinv hstep
      have hn1 : ((dropConns s io.connections_).setNode self
          { n with inlets_ := n.inlets_.dropLast }).nodeHeap[self]?
          = some { n with inlets_ := n.inlets_.dropLast } := getNode_setNode _ _ n _ hn
      unfold shrinkInlets
      simp only [g1, bind, Except.bind, hc, if_true, hstep]
      exact ih _ _ hinv1 hn1 hb

theorem setInletCount_negative (s : State) (hinv : Inv s) (self : Nat)
    (n : QDataflowModelNode) (hn : s.nodeHeap[self]? = some n) (count : Int)
    (hneg : count < 0) (fuel : Nat) :
    setInletCount fuel s self count = .error .outOfFuel := by
  have g1 : s.getNode self = .ok n := (load_eq_ok _ _ _).mpr hn
  have hcne : ¬ (n.inletCount = count) := by
    simp only [QDataflowModelNode.inletCount]
    omega
  have hb1 := blockSignals_eval s self n true hn
  have hn1 : (s.setNode self { n with signalsBlocked := true }).nodeHeap[self]?
      = some { n with signalsBlocked := true } := getNode_setNode s self n _ hn
  have hinv1 : Inv (s.setNode self { n with signalsBlocked := true }) :=
    Inv_setNode s self n _ hinv hn (fun _ _ h => h) (fun _ _ h => h)
  have hshrink := shrinkInlets_negative self count hneg fuel _ _ hinv1 hn1 rfl
  unfold setInletCount
  simp only [g1, bind, Except.bind, hcne, if_false, hb1]
  cases fuel with
  | zero => rfl
  | succ f =>
    have hgrow := growInlets_noop (f + 1) _ self { n with signalsBlocked := true } count hn1
      (by simp only [QDataflowModelNode.inletCount]; omega) (by omega)
    simp only [hgrow, hshrink]

theorem shrinkOutlets_negative (self : Nat) (count : Int) (hneg : count < 0) :
    ∀ (fuel : Nat) (s : State) (n : QDataflowModelNode), Inv s → s.nodeHeap[self]? = some n →
      n.signalsBlocked = true → shrinkOutlets fuel s self count = .error .outOfFuel := by
  intro fuel
  induction fuel with
  | zero => intro s n _ _ _; rfl
  | succ f ih =>
    intro s n hinv hn hb
    have g1 : s.getNode self = .ok n := (load_eq_ok _ _ _).mpr hn
    have hc : n.outletCount > count := by
      simp only [QDataflowModelNode.outletCount]
      omega
    by_cases hne : n.outlets_ = []
    · have hstep : removeLastOutlet s self = .ok s := by
        unfold removeLastOutlet
        simp only [g1, hne, bind, Except.bind, List.getLast?_nil, pure, Except.pure]
      unfold shrinkOutlets
      simp only [g1, bind, Except.bind, hc, if_true, hstep]
      exact ih s n hinv hn hb
    · have hlast : n.outlets_.getLast? = some (n.outlets_.getLast hne) :=
        List.getLast?_eq_getLast _ hne
      have hpos : 0 < n.outlets_.length := List.length_pos.mpr hne
      have hidx : n.outlets_[n.outlets_.length - 1]? = some (n.outlets_.getLast hne) := by
        rw [List.getLast_eq_getElem]
        exact List.getElem?_eq_getElem (by omega)
      obtain ⟨io, ho, _, _⟩ := outlet_exists s hinv self n hn _ _ hidx
      have hstep := removeLastOutlet_eval s hinv self n hn hb _ io hlast ho
      have hinv1 := removeLastOutlet_inv s _ self hinv hstep
      have hn1 : ((dropConns s io.connections_).setNode self
          { n with outlets_ := n.outlets_.dropLast }).nodeHeap[self]?
          = some { n with outlets_ := n.outlets_.dropLast } := getNode_setNode _ _ n _ hn
      unfold shrinkOutlets
      simp only [g1, bind, Except.bind, hc, if_true, hstep]
      exact ih _ _ hinv1 hn1 hb

theorem setOutletCount_negative (s : State) (hinv : Inv s) (self : Nat)
    (n : QDataflowModelNode) (hn : s.nodeHeap[self]? = some n) (count : Int)
    (hneg : count < 0) (fuel : Nat) :
    setOutletCount fuel s self count = .error .outOfFuel := by
  have g1 : s.getNode self = .ok n := (load_eq_ok _ _ _).mpr hn
  have hcne : ¬ (n.outletCount = count) := by
    simp only [QDataflowModelNode.outletCount]
    omega
  have hb1 := blockSignals_eval s self n true hn
  have hn1 : (s.setNode self { n with signalsBlocked := true }).nodeHeap[self]?
      = some { n with signalsBlocked := true } := getNode_setNode s self n _ hn
  have hinv1 : Inv (s.setNode self { n with signalsBlocked := true }) :=
    Inv_setNode s self n _ hinv hn (fun _ _ h => h) (fun _ _ h => h)
  have hshrink := shrinkOutlets_negative self count hneg fuel _ _ hinv1 hn1 rfl
  unfold setOutletCount
  simp only [g1, bind, Except.bind, hcne, if_false, hb1]
  cases fuel with
  | zero => rfl
  | succ f =>
    have hgrow := growOutlets_noop (f + 1) _ self { n with signalsBlocked := true } count hn1
      (by simp only [QDataflowModelNode.outletCount]; omega) (by omega)
    simp only [hgrow, hshrink]

theorem addInlet_quiet_eval (s : State) (self : Nat) (n : QDataflowModelNode) (t : String)
    (hn : s.nodeHeap[self]? = some n) (hb : n.signalsBlocked = false)
    (hr : n.relayed = false) :
    addInlet s self "" t = .ok { withInlets s self n [t] with
      signalled := s.signalled ++ countSignals (Signal.nodeInletCountChanged self)
        n.inlets_.length 1 } := by
  have g1 : s.getNode self = .ok n := (load_eq_ok _ _ _).mpr hn
  have hlt : self < s.nodeHeap.length := (List.getElem?_eq_some_iff.mp hn).1
  unfold addInlet addInlet_obj
  simp only [g1, bind, Except.bind, State.getNode, load, State.setNode, hn,
    List.getElem?_set, hlt, if_true]
  rw [emitFromNode_eval _ self { n with inlets_ := n.inlets_ ++ [s.inletHeap.length] } _
    (by simp [List.getElem?_set, hlt])]
  simp [withInlets, freshPorts, QDataflowModelNode.inletCount, List.range'_succ, hb, hr,
    State.signal, countSignals]

theorem addInlets_eval (self : Nat) : ∀ (k : Nat) (s : State) (n : QDataflowModelNode),
    s.nodeHeap[self]? = some n → n.signalsBlocked = false → n.relayed = false →
    addInlets s self k = .ok { withInlets s self n (List.replicate k "*") with
      signalled := s.signalled ++ countSignals (Signal.nodeInletCountChanged self)
        n.inlets_.length k } := by
  intro k
  induction k with
  | zero =>
    intro s n hn _ _
    simp [addInlets, countSignals, withInlets_nil s self n hn]
  | succ k ih =>
    intro s n hn hb hr
    have h1 := addInlet_quiet_eval s self n "*" hn hb hr
    have hlt : self < s.nodeHeap.length := (List.getElem?_eq_some_iff.mp hn).1
    unfold addInlets
    simp only [h1, bind, Except.bind]
    rw [ih _ { n with inlets_ := n.inlets_ ++ [s.inletHeap.length] }
      (by simp [withInlets, List.getElem?_set, hlt, List.range'_succ]) hb hr]
    simp [withInlets, freshPorts, countSignals, List.replicate_succ, List.range'_succ,
      List.set_set, Nat.add_comm, Nat.add_left_comm]

theorem addOutlet_quiet_eval (s : State) (self : Nat) (n : QDataflowModelNode) (t : String)
    (hn : s.nodeHeap[self]? = some n) (hb : n.signalsBlocked = false)
    (hr : n.relayed = false) :
    addOutlet s self "" t = .ok { withOutlets s self n [t] with
      signalled := s.signalled ++ countSignals (Signal.nodeOutletCountChanged self)
        n.outlets_.length 1 } := by
  have g1 : s.getNode self = .ok n := (load_eq_ok _ _ _).mpr hn
  have hlt : self < s.nodeHeap.length := (List.getElem?_eq_some_iff.mp hn).1
  unfold addOutlet addOutlet_obj
  simp only [g1, bind, Except.bind, State.getNode, load, State.setNode, hn,
    List.getElem?_set, hlt, if_true]
  rw [emitFromNode_eval _ self { n with outlets_ := n.outlets_ ++ [s.outletHeap.length] } _
    (by simp [List.getElem?_set, hlt])]
  simp [withOutlets, freshPorts, QDataflowModelNode.outletCount, List.range'_succ, hb, hr,
    State.signal, countSignals]

theorem addOutlets_eval (self : Nat) : ∀ (k : Nat) (s : State) (n : QDataflowModelNode),
    s.nodeHeap[self]? = some n → n.signalsBlocked = false → n.relayed = false →
    addOutlets s self k = .ok { withOutlets s self n (List.replicate k "*") with
      signalled := s.signalled ++ countSignals (Signal.nodeOutletCountChanged self)
        n.outlets_.length k } := by
  intro k
  induction k with
  | zero =>
    intro s n hn _ _
    simp [addOutlets, countSignals, withOutlets_nil s self n hn]
  | succ k ih =>
    intro s n hn hb hr
    have h1 := addOutlet_quiet_eval s self n "*" hn hb hr
    have hlt : self < s.nodeHeap.length := (List.getElem?_eq_some_iff.mp hn).1
    unfold addOutlets
    simp only [h1, bind, Except.bind]
    rw [ih _ { n with outlets_ := n.outlets_ ++ [s.outletHeap.length] }
      (by simp [withOutlets, List.getElem?_set, hlt, List.range'_succ]) hb hr]
    simp [withOutlets, freshPorts, countSignals, List.replicate_succ, List.range'_succ,
      List.set_set, Nat.add_comm, Nat.add_left_comm]

theorem create_eval (s : State) (pos : QPoint) (text : String) (ic oc : Nat) :
    create s pos text (ic : Int) (oc : Int)
      = .ok (s.nodeHeap.length, created s pos text ic oc) := by
  have h1 := addInlets_eval s.nodeHeap.length ic
    { s with nodeHeap := s.nodeHeap ++ [⟨false, pos, text, [], [], false, false⟩] }
    ⟨false, pos, text, [], [], false, false⟩ (by simp) rfl rfl
  have h2 := addOutlets_eval s.nodeHeap.length oc
    { withInlets { s with nodeHeap := s.nodeHeap ++ [⟨false, pos, text, [], [], false, false⟩] }
        s.nodeHeap.length ⟨false, pos, text, [], [], false, false⟩ (List.replicate ic "*") with
      signalled := s.signalled ++ countSignals (Signal.nodeInletCountChanged s.nodeHeap.length)
        0 ic }
    ⟨false, pos, text, List.range' s.inletHeap.length ic, [], false, false⟩
    (by simp [withInlets]) rfl rfl
  unfold create newNode
  simp only [Int.toNat_ofNat, bind, Except.bind, pure, Except.pure]
  simp only [List.length_nil] at h1
  rw [h1]
  simp only
  simp only [List.length_nil] at h2
  rw [h2]
  simp [State.getNode, load, withOutlets, withInlets, State.setNode, State.emit, created]

/-- C22: in a reachable model, for all `ic, oc ≥ 0`, `create(pos, text, ic, oc)` returns
a new node object with the given position and text, `valid = false`, exactly `ic` inlets
and `oc` outlets; the port at position `i` of either list is a new port object without
name, of type `"*"`, with index `i`, belonging to the node and without connections; the
existing nodes and ports are as before; the node was not in the node set and is its one
new member; the connection set is unchanged; and the model emits exactly one event,
`nodeAdded(node)`: the count signals the node fires inside its constructor, before the
model listens to it, reach nobody and are no event of the model. -/
theorem create_effect (s : State) (hr : Reachable s) (pos : QPoint) (text : String)
    (ic oc : Nat) :
    ∃ s1 n1, create s pos text (ic : Int) (oc : Int) = .ok (s.nodeHeap.length, s1) ∧
      s.nodeHeap[s.nodeHeap.length]? = none ∧
      s1.nodeHeap = s.nodeHeap ++ [n1] ∧
      n1.pos_ = pos ∧ n1.text_ = text ∧ n1.valid_ = false ∧
      n1.inlets_.length = ic ∧ n1.outlets_.length = oc ∧
      (∀ (i p : Nat), n1.inlets_[i]? = some p → s.inletHeap[p]? = none ∧
        s1.inletHeap[p]? = some ⟨[], s.nodeHeap.length, (i : Int), "", "*"⟩) ∧
      (∀ (i p : Nat), n1.outlets_[i]? = some p → s.outletHeap[p]? = none ∧
        s1.outletHeap[p]? = some ⟨[], s.nodeHeap.length, (i : Int), "", "*"⟩) ∧
      (∀ (p : Nat) (io : QDataflowModelIOlet), s.inletHeap[p]? = some io →
        s1.inletHeap[p]? = some io) ∧
      (∀ (p : Nat) (io : QDataflowModelIOlet), s.outletHeap[p]? = some io →
        s1.outletHeap[p]? = some io) ∧
      s.nodeHeap.length ∉ s.nodes_ ∧
      s1.nodes_ = s.nodes_ ++ [s.nodeHeap.length] ∧
      s1.connections_ = s.connections_ ∧
      s1.emitted = s.emitted ++ [.nodeAdded s.nodeHeap.length] ∧
      s1.signalled = s.signalled
        ++ countSignals (Signal.nodeInletCountChanged s.nodeHeap.length) 0 ic
        ++ countSignals (Signal.nodeOutletCountChanged s.nodeHeap.length) 0 oc := by
  have hnew : s.nodeHeap.length ∉ s.nodes_ :=
    fun h => Nat.lt_irrefl _ (hr.nodeInv.known _ h)
  refine ⟨created s pos text ic oc, _, create_eval s pos text ic oc,
    List.getElem?_eq_none (Nat.le_refl _), rfl, rfl, rfl, rfl, ?_, ?_, ?_, ?_, ?_, ?_, hnew, ?_,
    rfl, rfl, rfl⟩
  · simp
  · simp
  · intro i p hp
    have hp1 : (List.range' s.inletHeap.length ic)[i]? = some p := hp
    obtain ⟨hi, hv⟩ := List.getElem?_eq_some_iff.mp hp1
    rw [List.length_range'] at hi
    rw [List.getElem_range'] at hv
    simp only [one_mul] at hv
    subst hv
    refine ⟨List.getElem?_eq_none (by omega), ?_⟩
    show (s.inletHeap ++ freshPorts s.nodeHeap.length 0 (List.replicate ic "*"))[
      s.inletHeap.length + i]? = _
    rw [List.getElem?_append_right (by omega), Nat.add_sub_cancel_left, freshPorts_getElem?,
      List.getElem?_replicate]
    simp [hi]
  · intro i p hp
    have hp1 : (List.range' s.outletHeap.length oc)[i]? = some p := hp
    obtain ⟨hi, hv⟩ := List.getElem?_eq_some_iff.mp hp1
    rw [List.length_range'] at hi
    rw [List.getElem_range'] at hv
    simp only [one_mul] at hv
    subst hv
    refine ⟨List.getElem?_eq_none (by omega), ?_⟩
    show (s.outletHeap ++ freshPorts s.nodeHeap.length 0 (List.replicate oc "*"))[
      s.outletHeap.length + i]? = _
    rw [List.getElem?_append_right (by omega), Nat.add_sub_cancel_left, freshPorts_getElem?,
      List.getElem?_replicate]
    simp [hi]
  · intro p io hp
    exact getElem?_append_some _ _ _ _ hp
  · intro p io hp
    exact getElem?_append_some _ _ _ _ hp
  · show qsetInsert s.nodes_ s.nodeHeap.length = _
    simp [qsetInsert, hnew]

/-- Witness for C22, at `patch`: a third node "mix" with two inlets and one outlet. -/
theorem create_effect_witness :
    Reachable patch ∧
    ∃ s1 n1, create patch ⟨50, 20⟩ "mix" 2 1 = .ok (2, s1) ∧
      s1.nodeHeap = patch.nodeHeap ++ [n1] ∧
      n1.inlets_.length = 2 ∧ n1.outlets_.length = 1 ∧
      s1.nodes_ = patch.nodes_ ++ [2] ∧
      s1.emitted = patch.emitted ++ [.nodeAdded 2] :=
  ⟨reachable_stateOf _, by
    obtain ⟨s1, n1, h1, _, h3, _, _, _, h7, h8, _, _, _, _, _, h14, _, h16, _⟩ :=
      create_effect patch (reachable_stateOf _) ⟨50, 20⟩ "mix" 2 1
    exact ⟨s1, n1, h1, h3, h7, h8, h14, h16⟩⟩

/-- C23: in a reachable model, for every node object and every negative count,
`setInletCount(count)` and `setOutletCount(count)` do not return: whatever the fuel
given to their loops, it runs out. Once the port list is empty `removeLastInlet`
returns at once, `inletCount() > count` still holds, and the shrink loop goes round
for ever. -/
theorem negative_count_never_returns (s : State) (hr : Reachable s) (self : Nat)
    (n : QDataflowModelNode) (hn : s.nodeHeap[self]? = some n) (count : Int)
    (hneg : count < 0) (fuel : Nat) :
    setInletCount fuel s self count = .error .outOfFuel ∧
    setOutletCount fuel s self count = .error .outOfFuel :=
  ⟨setInletCount_negative s hr.inv self n hn count hneg fuel,
    setOutletCount_negative s hr.inv self n hn count hneg fuel⟩

/-- Witness for C23, at `patch`: `setInletCount(-1)` and `setOutletCount(-1)` on "osc"
with fuel for a thousand rounds of each loop. -/
theorem negative_count_never_returns_witness :
    Reachable patch ∧
    patch.nodeHeap[0]? = some ⟨false, ⟨0, 0⟩, "osc", [0], [0], false, true⟩ ∧
    setInletCount 1000 patch 0 (-1) = .error .outOfFuel ∧
    setOutletCount 1000 patch 0 (-1) = .error .outOfFuel :=
  ⟨reachable_stateOf _, by decide,
    negative_count_never_returns patch (reachable_stateOf _) 0
      ⟨false, ⟨0, 0⟩, "osc", [0], [0], false, true⟩ (by decide) (-1) (by decide) 1000⟩

theorem addConnection_without (io : QDataflowModelIOlet) (c : Nat)
    (h : c ∉ io.connections_) : (io.addConnection c).without [c] = io := by
  cases io with
  | mk cs nd ix nm ty =>
    simp only [QDataflowModelIOlet.addConnection, QDataflowModelIOlet.without,
      QDataflowModelIOlet.mk.injEq, and_true]
    simp only at h
    rw [List.filter_append]
    have h1 : List.filter (fun x => decide (x ∉ [c])) cs = cs := by
      rw [List.filter_eq_self]
      intro x hx
      simp only [List.mem_singleton, decide_eq_true_eq]
      intro e
      exact h (e ▸ hx)
    rw [h1]
    simp

theorem set_map_without (heap : List QDataflowModelIOlet) (p : Nat)
    (io : QDataflowModelIOlet) (c : Nat) (hp : heap[p]? = some io)
    (hc : ∀ (q : Nat) (x : QDataflowModelIOlet), heap[q]? = some x → c ∉ x.connections_) :
    (heap.set p (io.addConnection c)).map (fun x => x.without [c]) = heap := by
  apply List.ext_getElem?
  intro q
  rw [List.getElem?_map, List.getElem?_set]
  have hlt : p < heap.length := (List.getElem?_eq_some_iff.mp hp).1
  by_cases e : p = q
  · subst e
    simp only [if_true, hlt, Option.map_some', hp, addConnection_without io c (hc p io hp)]
  · simp only [e, if_false]
    cases hx : heap[q]? with
    | none => rfl
    | some x =>
      simp only [Option.map_some']
      rw [without_of_not_mem x [c] (by
        intro d hd
        simp only [List.mem_singleton] at hd
        subst hd
        exact hc q x hx)]

theorem dropConns_link (s : State) (hinv : Inv s) (co : QDataflowModelConnection)
    (sp dp : Nat) (src dst : QDataflowModelIOlet)
    (hs : s.outletHeap[sp]? = some src) (hd : s.inletHeap[dp]? = some dst) :
    dropConns (link (withConn s co) s.connHeap.length sp dp src dst) [s.connHeap.length]
      = { s with
          connHeap := s.connHeap ++ [co]
          emitted := s.emitted ++ [.connectionAdded s.connHeap.length,
            .connectionRemoved s.connHeap.length] } := by
  have hc : s.connHeap.length ∉ s.connections_ :=
    fun h => Nat.lt_irrefl _ (conn_lt s hinv _ h)
  have ho : ∀ (q : Nat) (x : QDataflowModelIOlet), s.outletHeap[q]? = some x →
      s.connHeap.length ∉ x.connections_ :=
    fun q x hx hm => hc (hinv.conn.outletLists q x hx _ hm).1
  have hi : ∀ (q : Nat) (x : QDataflowModelIOlet), s.inletHeap[q]? = some x →
      s.connHeap.length ∉ x.connections_ :=
    fun q x hx hm => hc (hinv.conn.inletLists q x hx _ hm).1
  have h1 := set_map_without s.outletHeap sp src s.connHeap.length hs ho
  have h2 := set_map_without s.inletHeap dp dst s.connHeap.length hd hi
  have h3 : (qsetInsert s.connections_ s.connHeap.length).filter
      (fun c => decide (c ∉ [s.connHeap.length])) = s.connections_ := by
    simp only [qsetInsert, hc, if_false, List.filter_append]
    have : List.filter (fun c => decide (c ∉ [s.connHeap.length])) s.connections_
        = s.connections_ := by
      rw [List.filter_eq_self]
      intro x hx
      simp only [List.mem_singleton, decide_eq_true_eq]
      intro e
      exact hc (e ▸ hx)
    rw [this]
    simp
  simp only [dropConns, link, withConn, h1, h2, h3, List.map_cons, List.map_nil,
    List.append_assoc, List.singleton_append]

theorem connect_disconnect_round_trip (s : State) (hinv : Inv s)
    (sourceNode destNode : Option Nat) (so di : Int) (c : Nat) (s1 : State)
    (hrun : connect s sourceNode so destNode di = .ok (some c, s1)) :
    c = s.connHeap.length ∧
    (c ∈ s1.connections_ →
      s1.emitted = s.emitted ++ [.connectionAdded c] ∧
      disconnect s1 sourceNode so destNode di = .ok { s with
        connHeap := s1.connHeap
        emitted := s.emitted ++ [.connectionAdded c, .connectionRemoved c] }) ∧
    (c ∉ s1.connections_ →
      disconnect s1 sourceNode so destNode di = .ok { s with connHeap := s1.connHeap }) := by
  have hc : s.connHeap.length ∉ s.connections_ :=
    fun h => Nat.lt_irrefl _ (conn_lt s hinv _ h)
  have hinv1 : Inv s1 := connect_inv s s1 sourceNode so destNode di _ hinv hrun
  unfold connect at hrun
  split at hrun
  · next sn dn =>
    simp only [bind_eq_ok] at hrun
    obtain ⟨found, hfound, hrun⟩ := hrun
    split at hrun
    · next hemp =>
      have hfree : findConnections s (some sn) so (some dn) di = .ok [] := by
        rw [hfound]
        cases found with
        | nil => rfl
        | cons a l => simp at hemp
      simp only [bind_eq_ok, newConnection, pure, Except.pure, Except.ok.injEq, Prod.mk.injEq,
        State.getNode, load_eq_ok, Option.some.injEq] at hrun
      obtain ⟨a, ⟨n, hn, m, hm, rfl⟩, s2, h2, rfl, rfl⟩ := hrun
      simp only at h2 hinv1
      refine ⟨rfl, ?_, ?_⟩
      · intro hadd
        rcases addConnection_cases _ _ _ h2 with rfl | ⟨sp, dp, src, dst, _, hco, hs, hd, _, _, rfl⟩
        · exact absurd hadd hc
        · have hco1 : (s.connHeap ++ [{ source_ := n.outlet so, dest_ := m.inlet di }])[
              s.connHeap.length]? = some { source_ := n.outlet so, dest_ := m.inlet di } := by
            simp
          simp only at hco hs hd
          rw [hco1] at hco
          simp only [Option.some.injEq, QDataflowModelConnection.mk.injEq] at hco
          have hco2 : ({ source_ := n.outlet so, dest_ := m.inlet di } : QDataflowModelConnection)
              = { source_ := some sp, dest_ := some dp } := by
            rw [hco.1, hco.2]
          rw [hco2] at hinv1 hadd ⊢
          have hf := findConnections_after_link s hinv sn dn so di n m sp dp src dst hn hm
            hco.1 hco.2 hs hd hfree hinv1
          refine ⟨rfl, ?_⟩
          have hdis : disconnect (link (withConn s { source_ := some sp, dest_ := some dp })
              s.connHeap.length sp dp src dst) (some sn) so (some dn) di
              = .ok (dropConns (link (withConn s { source_ := some sp, dest_ := some dp })
                  s.connHeap.length sp dp src dst) [s.connHeap.length]) := by
            unfold disconnect
            simp only [hf, bind, Except.bind]
            exact removeEach_eval [s.connHeap.length] _ hinv1 (by simp)
              (by intro d hd1; simp only [List.mem_singleton] at hd1; subst hd1; exact hadd)
          rw [dropConns_link s hinv _ sp dp src dst hs hd] at hdis
          exact hdis
      · intro hnot
        rcases addConnection_cases _ _ _ h2 with rfl | ⟨sp, dp, src, dst, _, _, _, _, _, _, rfl⟩
        · have hinv2 : Inv (withConn s { source_ := n.outlet so, dest_ := m.inlet di }) := hinv1
          have hf1 := findConnections_eq (withConn s { source_ := n.outlet so, dest_ := m.inlet di })
            hinv2.conn sn so dn di
          have hf0 := findConnections_eq s hinv.conn sn so dn di
          rw [hfree] at hf0
          have he : (withConn s { source_ := n.outlet so, dest_ := m.inlet di }).connections_.filter
              (fun c => decide (endpoints (withConn s
                { source_ := n.outlet so, dest_ := m.inlet di }) c = some ((sn, so), (dn, di))))
              = [] := by
            rw [List.filter_eq_nil_iff]
            intro d hd1
            have hd2 : d ∈ s.connections_ := hd1
            rw [endpoints_withConn s hinv _ d hd2]
            have := (free_iff s hinv sn so dn di).mp hfree d hd2
            simpa using this
          rw [he] at hf1
          have hdis : disconnect (withConn s { source_ := n.outlet so, dest_ := m.inlet di })
              (some sn) so (some dn) di
              = .ok (withConn s { source_ := n.outlet so, dest_ := m.inlet di }) := by
            unfold disconnect
            simp only [hf1, bind, Except.bind]
            rfl
          exact hdis
        · exfalso
          apply hnot
          simp [link, qsetInsert]
          split <;> simp_all
    · simp only [pure, Except.pure, Except.ok.injEq, Prod.mk.injEq] at hrun
      exact absurd hrun.1 (by simp)
  · simp only [Except.ok.injEq, Prod.mk.injEq] at hrun
    exact absurd hrun.1 (by simp)

/-- C25: in a reachable model, when `connect(sourceNode, sourceOutlet, destNode,
destInlet)` returns a connection `c` that it added to the connection set, then
`disconnect` with the same four arguments, called next, returns and leaves the node set,
the node objects, the connection set and every port object (hence every port's
connection list, contents and order) exactly as they were before the `connect`; the two
calls emit `connectionAdded(c)` followed by `connectionRemoved(c)` and nothing else, and
no node fires a signal. -/
theorem connect_then_disconnect_restores (s : State) (hr : Reachable s)
    (sourceNode destNode : Option Nat) (so di : Int) (c : Nat) (s1 : State)
    (hrun : connect s sourceNode so destNode di = .ok (some c, s1))
    (hadd : c ∈ s1.connections_) :
    ∃ s2, disconnect s1 sourceNode so destNode di = .ok s2 ∧
      s2.nodes_ = s.nodes_ ∧ s2.nodeHeap = s.nodeHeap ∧
      s2.connections_ = s.connections_ ∧
      s2.outletHeap = s.outletHeap ∧ s2.inletHeap = s.inletHeap ∧
      s1.emitted = s.emitted ++ [.connectionAdded c] ∧
      s2.emitted = s.emitted ++ [.connectionAdded c, .connectionRemoved c] ∧
      s2.signalled = s.signalled := by
  obtain ⟨_, h1, _⟩ := connect_disconnect_round_trip s hr.inv sourceNode destNode so di c s1 hrun
  obtain ⟨h2, h3⟩ := h1 hadd
  exact ⟨_, h3, rfl, rfl, rfl, rfl, rfl, h2, rfl, rfl⟩

/-- Witness for C25, at `patch`: the outlet of "osc" is connected to the inlet of "gain"
and disconnected again. -/
theorem connect_then_disconnect_restores_witness :
    Reachable patch ∧
    connect patch (some 0) 0 (some 1) 0 = .ok (some 0, patched) ∧ 0 ∈ patched.connections_ ∧
    ∃ s2, disconnect patched (some 0) 0 (some 1) 0 = .ok s2 ∧
      s2.nodes_ = patch.nodes_ ∧ s2.nodeHeap = patch.nodeHeap ∧
      s2.connections_ = patch.connections_ ∧
      s2.outletHeap = patch.outletHeap ∧ s2.inletHeap = patch.inletHeap ∧
      patched.emitted = patch.emitted ++ [.connectionAdded 0] ∧
      s2.emitted = patch.emitted ++ [.connectionAdded 0, .connectionRemoved 0] ∧
      s2.signalled = patch.signalled :=
  ⟨reachable_stateOf _, by decide, by decide,
    connect_then_disconnect_restores patch (reachable_stateOf _) (some 0) (some 1) 0 0 0 patched
      (by decide) (by decide)⟩

end QDataflow
